import Mathlib

/-!
# Verification of the schedule-lowering pass (ScheduleFunctions.cpp)

A shallow embedding of the schedule-lowering pass of the Halide-style staged
compiler, translated from `src/ScheduleFunctions.cpp`, together with theorems
settling the specification claims about it.

External collaborators that are not part of the repository source
(the IR helper library: `substitute`, `expr_uses_var`, `qualify`,
`split_string`, the `LoopLevel` type, and the delegated `apply_splits` /
`compute_loop_bounds_after_split` / `simplify` passes) are either modelled
from the specification (marked `Modelled from the spec:` in their doc
comments) or kept as explicit parameters, so every theorem quantifies over
their behaviour.
-/

namespace ScheduleFunctions

/-! ## Basic IR types -/

/-- Scalar/handle type of an expression; only the distinctions the pass
inspects are kept (`is_handle`, plus value types carried along). -/
inductive Ty where
  | int32
  | uint1
  | handle
  | stringTy
  | other
deriving DecidableEq, Repr

/-- Loop execution tag, as in the IR's `ForType`. -/
inductive ForType where
  | Serial
  | Parallel
  | Vectorized
  | Unrolled
deriving DecidableEq, Repr

/-- Device API recorded on a loop. Only `DeviceAPI::None` is inspected by
this pass; the others are collapsed into representatives. -/
inductive DeviceAPI where
  | NoneAPI
  | Host
  | OtherAPI
deriving DecidableEq, Repr

/-- IR expressions. `Call` carries an `isPure` flag standing for the IR's
`Call::is_pure()` (extern calls are impure, pure intrinsics are pure). -/
inductive Expr where
  | IntImm (v : Int)
  | StringImm (s : String)
  | Var (ty : Ty) (name : String)
  | Add (a b : Expr)
  | Sub (a b : Expr)
  | Min (a b : Expr)
  | Max (a b : Expr)
  | LE (a b : Expr)
  | GE (a b : Expr)
  | EQE (a b : Expr)
  | And (a b : Expr)
  | Call (ty : Ty) (name : String) (args : List Expr) (isPure : Bool)

/-- IR statements, mirroring the node kinds this pass constructs and
inspects.  `IfThenElse` has an optional else branch (`Stmt()` in C++ is
`none`). -/
inductive Stmt where
  | Provide (name : String) (values : List Expr) (args : List Expr)
  | LetStmt (name : String) (value : Expr) (body : Stmt)
  | For (name : String) (min extent : Expr) (forType : ForType)
        (device : DeviceAPI) (body : Stmt)
  | IfThenElse (cond : Expr) (thenCase : Stmt) (elseCase : Option Stmt)
  | Block (first rest : Stmt)
  | Realize (name : String) (types : List Ty) (bounds : List (Expr × Expr))
            (cond : Expr) (body : Stmt)
  | ProducerConsumer (name : String) (isProducer : Bool) (body : Stmt)
  | AssertStmt (cond : Expr) (message : Expr)
  | Evaluate (e : Expr)

/-- `likely(e)`: the pure `likely` intrinsic call used on fused-loop guards
and user predicates. -/
def likely (e : Expr) : Expr :=
  Expr.Call Ty.int32 "likely" [e] true

/-- `const_true()` used as the `Realize` condition. -/
def constTrue : Expr := Expr.IntImm 1

/-- `is_one` on expressions: a literal integer one. -/
def isOne : Expr → Bool
  | Expr.IntImm 1 => true
  | _ => false

/-! ## String utilities

The pass manipulates dotted name strings through `starts_with`,
`ends_with`, `split_string`, `find('.')` and `rfind('.')`.  These helpers
live in the IR utility library outside this repository; they are modelled
here on the character lists underlying `String`, with the standard
semantics their call sites rely on. -/

/-- Modelled from the spec: `ends_with(s, suffix)` on the underlying
character lists. -/
def endsWithL (l suffix : List Char) : Bool :=
  decide (suffix = l.drop (l.length - suffix.length))

/-- Modelled from the spec: `starts_with(s, prefix)` on the underlying
character lists. -/
def startsWithL (l pre : List Char) : Bool :=
  decide (pre = l.take pre.length)

/-- `ends_with` on strings. -/
def strEnds (s suffix : String) : Bool := endsWithL s.data suffix.data

/-- `starts_with` on strings. -/
def strStarts (s pre : String) : Bool := startsWithL s.data pre.data

/-- Modelled from the spec: `split_string` on a single-character delimiter,
on character lists.  Splitting the empty list yields one empty piece, as in
the C++ helper. -/
def splitChars (delim : Char) : List Char → List (List Char)
  | [] => [[]]
  | c :: cs =>
    match splitChars delim cs with
    | [] => if c = delim then [[], []] else [[c]]
    | r :: rs => if c = delim then [] :: r :: rs else (c :: r) :: rs

/-- `split_string(s, ".")` as used by `is_the_right_level`. -/
def splitString (s : String) (delim : Char) : List String :=
  (splitChars delim s.data).map fun cs => String.mk cs

/-- Modelled from the spec: `rfind(c)`, the index of the last occurrence of
a character, on character lists. -/
def rfindIdx (c : Char) (l : List Char) : Option Nat :=
  match l.reverse.findIdx? (fun x => x = c) with
  | some k => some (l.length - 1 - k)
  | none => none

/-- `s.substr(0, k)`. -/
def substrTake (s : String) (k : Nat) : String := String.mk (s.data.take k)

/-- `s.substr(k)`. -/
def substrDrop (s : String) (k : Nat) : String := String.mk (s.data.drop k)

theorem string_data_append (a b : String) : (a ++ b).data = a.data ++ b.data := rfl

theorem splitChars_ne_nil (delim : Char) (l : List Char) :
    splitChars delim l ≠ [] := by
  induction l with
  | nil => simp [splitChars]
  | cons c cs ih =>
    unfold splitChars
    cases h : splitChars delim cs with
    | nil => by_cases hc : c = delim <;> simp [hc]
    | cons r rs => by_cases hc : c = delim <;> simp [hc]

/-- Splitting a delimiter-free list yields the list itself as the single
piece. -/
theorem splitChars_no_delim (delim : Char) (l : List Char)
    (h : delim ∉ l) : splitChars delim l = [l] := by
  induction l with
  | nil => simp [splitChars]
  | cons c cs ih =>
    have hc : c ≠ delim := by
      intro hcd; exact h (hcd ▸ List.mem_cons_self c cs)
    have hcs : delim ∉ cs := fun hm => h (List.mem_cons_of_mem c hm)
    unfold splitChars
    rw [ih hcs]
    simp [hc]

/-- Splitting distributes over a delimiter in the middle when the first
part is delimiter-free. -/
theorem splitChars_append (delim : Char) (a b : List Char)
    (ha : delim ∉ a) : splitChars delim (a ++ delim :: b) =
      a :: splitChars delim b := by
  induction a with
  | nil =>
    show splitChars delim (delim :: b) = [] :: splitChars delim b
    cases h : splitChars delim b with
    | nil => exact absurd h (splitChars_ne_nil delim b)
    | cons r rs =>
      conv_lhs => rw [splitChars]
      rw [h]
      simp
  | cons c cs ih =>
    have hc : c ≠ delim := by
      intro hcd; exact ha (hcd ▸ List.mem_cons_self c cs)
    have hcs : delim ∉ cs := fun hm => ha (List.mem_cons_of_mem c hm)
    show splitChars delim (c :: (cs ++ delim :: b)) = (c :: cs) :: splitChars delim b
    conv_lhs => rw [splitChars]
    rw [ih hcs]
    simp [hc]

/-! ## Association maps

`std::map<string, T>` as used by the pass.  Only `find`, `emplace`
(insert-if-absent), `operator[]` assignment (insert-or-overwrite) and
`count` are exercised by the embedded code, so the maps are modelled as
association lists with those operations; iteration order is never relied
upon by the embedded fragments. -/

/-- `m.find(k)`. -/
def mapFind {α : Type} : List (String × α) → String → Option α
  | [], _ => none
  | p :: m, k => if p.1 = k then some p.2 else mapFind m k

/-- `m.emplace(k, v)`: inserts only when the key is absent. -/
def mapEmplace {α : Type} (m : List (String × α)) (k : String) (v : α) :
    List (String × α) :=
  match mapFind m k with
  | some _ => m
  | none => m ++ [(k, v)]

/-- `m[k] = v`: insert-or-overwrite (keys are unique in `std::map`). -/
def mapAssign {α : Type} : List (String × α) → String → α → List (String × α)
  | [], k, v => [(k, v)]
  | p :: m, k, v => if p.1 = k then (k, v) :: m else p :: mapAssign m k v

theorem mapFind_append {α : Type} (m l : List (String × α)) (k : String) :
    mapFind (m ++ l) k = (mapFind m k).or (mapFind l k) := by
  induction m with
  | nil => simp [mapFind]
  | cons p m ih =>
    by_cases hp : p.1 = k <;> simp [mapFind, hp, ih]

theorem mapFind_emplace_same {α : Type} (m : List (String × α)) (k : String)
    (v : α) (h : mapFind m k = none) : mapFind (mapEmplace m k v) k = some v := by
  simp [mapEmplace, h, mapFind_append, mapFind]

theorem mapFind_emplace_other {α : Type} (m : List (String × α))
    (k k' : String) (v : α) (h : k' ≠ k) :
    mapFind (mapEmplace m k v) k' = mapFind m k' := by
  unfold mapEmplace
  cases mapFind m k with
  | some w => rfl
  | none =>
    rw [mapFind_append]
    have : mapFind [(k, v)] k' = none := by
      simp [mapFind, Ne.symm h]
    rw [this]
    cases mapFind m k' <;> rfl

/-- `emplace` never changes the binding of a key that is already bound. -/
theorem mapFind_emplace_of_found {α : Type} (m : List (String × α))
    (k k' : String) (v w : α) (h : mapFind m k' = some w) :
    mapFind (mapEmplace m k v) k' = some w := by
  unfold mapEmplace
  cases mapFind m k with
  | some u => exact h
  | none => rw [mapFind_append, h]; rfl

theorem mapFind_assign_same {α : Type} (m : List (String × α)) (k : String)
    (v : α) : mapFind (mapAssign m k v) k = some v := by
  induction m with
  | nil => simp [mapAssign, mapFind]
  | cons p m ih =>
    by_cases hp : p.1 = k <;> simp [mapAssign, mapFind, hp, ih]

theorem mapFind_assign_other {α : Type} (m : List (String × α))
    (k k' : String) (v : α) (h : k' ≠ k) :
    mapFind (mapAssign m k v) k' = mapFind m k' := by
  induction m with
  | nil => simp [mapAssign, mapFind, Ne.symm h]
  | cons p m ih =>
    by_cases hp : p.1 = k
    · have hpk : ¬p.1 = k' := by rw [hp]; exact Ne.symm h
      simp [mapAssign, mapFind, hp, Ne.symm h, hpk]
    · by_cases hp' : p.1 = k' <;> simp [mapAssign, mapFind, hp, hp', ih, h]

/-! ## Loop levels

Modelled from the spec: `LoopLevel` is "one of: `inline`, `root`, or
`(function, var)`" (§3), with the synthetic root loop named by "the string
form of `LoopLevel::root()`" (§6), and loops named `<func>.s<stage>.<var>`
matched against a level by function prefix and var suffix. -/

inductive LoopLevel where
  | inlined
  | root
  | level (func : String) (var : String)
deriving DecidableEq, Repr

namespace LoopLevel

def isInline : LoopLevel → Bool
  | inlined => true
  | _ => false

def isRoot : LoopLevel → Bool
  | root => true
  | _ => false

/-- Modelled from the spec: the string form of a loop level; the synthetic
root loop is named by the string form of `LoopLevel::root()` (§6). -/
def toStr : LoopLevel → String
  | inlined => ""
  | root => ".__root"
  | level f v => f ++ "." ++ v

/-- Modelled from the spec: `LoopLevel::match(loop_name)` — the loop name
must carry the level's function as its dotted prefix and the level's var as
its final dotted component (naming surface §6). -/
def matchString : LoopLevel → String → Bool
  | inlined, _ => false
  | root, name => strStarts name "." && strEnds name ".__root"
  | level f v, name => strStarts name (f ++ ".") && strEnds name ("." ++ v)

/-- Modelled from the spec: matching of two loop levels (used by the
legality analyzer's intersection, §4.8); levels match when they denote the
same location. -/
def matchLevel (a b : LoopLevel) : Bool := a = b

/-- The var component of a `(function, var)` level (`var().name()`);
meaningless for inline/root. -/
def varName : LoopLevel → String
  | level _ v => v
  | _ => ""

/-- The func component of a `(function, var)` level. -/
def funcName : LoopLevel → String
  | level f _ => f
  | _ => ""

end LoopLevel

/-- The name of the synthetic root loop seeded by the driver. -/
def rootLoopName : String := LoopLevel.root.toStr

/-- `Var::outermost().name()`: the synthetic outermost dimension name. -/
def outermostName : String := "__outermost"

/-! ## Schedule data model (§3) -/

/-- One loop dimension of a stage's schedule: innermost first, ending with
the synthetic `__outermost` dim. -/
structure Dim where
  var : String
  forType : ForType
  deviceApi : DeviceAPI
deriving DecidableEq, Repr

/-- A user-supplied explicit bound: `(var, min?, extent?, modulus?)`. -/
structure Bound where
  var : String
  min : Option Expr
  extent : Option Expr
  modulus : Option Expr

/-- A reduction variable with its domain. -/
structure ReductionVariable where
  var : String
  min : Expr
  extent : Expr

/-- Tail strategy of a split (§3). -/
inductive TailStrategy where
  | RoundUp
  | GuardWithIf
  | ShiftInwards
  | PredicateLoads
deriving DecidableEq, Repr

/-- Split/fuse/rename/purify directive (only the shape is needed; the
arithmetic is delegated to `apply_splits`). -/
structure Split where
  oldVar : String
  outer : String
  inner : String
  factor : Expr
  exact : Bool
  tail : TailStrategy

/-- A `compute_with` fused pair: stage₂ of func₂ is fused into stage₁ of
func₁ at `varName`. -/
structure FusedPair where
  func1 : String
  stage1 : Nat
  func2 : String
  stage2 : Nat
  varName : String

/-- Per-stage schedule (§3). -/
structure Schedule where
  dims : List Dim
  splits : List Split
  bounds : List Bound
  rvars : List ReductionVariable
  storeLevel : LoopLevel
  computeLevel : LoopLevel
  fuseLevel : LoopLevel
  fusedPairs : List FusedPair
  touched : Bool
  memoized : Bool

/-- A definition of one stage: args written, values produced, predicates,
schedule, and an ordered list of `(condition, alternative)`
specializations. -/
inductive Definition where
  | mk (isInit : Bool) (args : List Expr) (values : List Expr)
       (splitPredicate : List Expr) (schedule : Schedule)
       (specializations : List (Expr × Definition))

def Definition.isInit : Definition → Bool
  | .mk i _ _ _ _ _ => i

def Definition.args : Definition → List Expr
  | .mk _ a _ _ _ _ => a

def Definition.values : Definition → List Expr
  | .mk _ _ v _ _ _ => v

def Definition.splitPredicate : Definition → List Expr
  | .mk _ _ _ p _ _ => p

def Definition.schedule : Definition → Schedule
  | .mk _ _ _ _ s _ => s

def Definition.specializations : Definition → List (Expr × Definition)
  | .mk _ _ _ _ _ sp => sp

/-- A pipeline function: name, pure dimension names, initial definition,
update definitions, output types, and whether it has an extern
definition. -/
structure Function where
  name : String
  args : List String
  definition : Definition
  updates : List Definition
  outputTypes : List Ty
  hasExtern : Bool

/-- `Function::schedule()` — the schedule of the initial definition. -/
def Function.schedule (f : Function) : Schedule := f.definition.schedule

/-- Modelled from the spec: `Function::is_pure()` — a function with no
update stages (§3, stage indices 1..N are updates). -/
def Function.isPure (f : Function) : Bool := f.updates.isEmpty

/-- `f.dimensions()` — the number of pure dimensions. -/
def Function.dimensions (f : Function) : Nat := f.args.length

/-- The environment: map from function name to `Function`. -/
def Env : Type := List (String × Function)

/-- `env.find(name)`. -/
def envFind (env : Env) (n : String) : Option Function := mapFind env n

/-! ## Modelled IR helpers (external collaborators, §6) -/

mutual

/-- Modelled from the spec: `substitute(name, value, expr)` — replace every
reference to the named variable by the replacement expression. -/
def substituteExpr (n : String) (v : Expr) : Expr → Expr
  | Expr.IntImm i => Expr.IntImm i
  | Expr.StringImm s => Expr.StringImm s
  | Expr.Var ty name => if name = n then v else Expr.Var ty name
  | Expr.Add a b => Expr.Add (substituteExpr n v a) (substituteExpr n v b)
  | Expr.Sub a b => Expr.Sub (substituteExpr n v a) (substituteExpr n v b)
  | Expr.Min a b => Expr.Min (substituteExpr n v a) (substituteExpr n v b)
  | Expr.Max a b => Expr.Max (substituteExpr n v a) (substituteExpr n v b)
  | Expr.LE a b => Expr.LE (substituteExpr n v a) (substituteExpr n v b)
  | Expr.GE a b => Expr.GE (substituteExpr n v a) (substituteExpr n v b)
  | Expr.EQE a b => Expr.EQE (substituteExpr n v a) (substituteExpr n v b)
  | Expr.And a b => Expr.And (substituteExpr n v a) (substituteExpr n v b)
  | Expr.Call ty name args p => Expr.Call ty name (substituteExprList n v args) p

/-- List version of `substituteExpr` for call arguments. -/
def substituteExprList (n : String) (v : Expr) : List Expr → List Expr
  | [] => []
  | e :: es => substituteExpr n v e :: substituteExprList n v es

end

/-- Modelled from the spec: `substitute(name, value, stmt)`, stopping at a
`LetStmt` that rebinds the name. -/
def substituteStmt (n : String) (v : Expr) : Stmt → Stmt
  | Stmt.Provide name values args =>
      Stmt.Provide name (values.map (substituteExpr n v)) (args.map (substituteExpr n v))
  | Stmt.LetStmt name value body =>
      if name = n then Stmt.LetStmt name (substituteExpr n v value) body
      else Stmt.LetStmt name (substituteExpr n v value) (substituteStmt n v body)
  | Stmt.For name mn ext ft dev body =>
      Stmt.For name (substituteExpr n v mn) (substituteExpr n v ext) ft dev
        (substituteStmt n v body)
  | Stmt.IfThenElse c t e =>
      Stmt.IfThenElse (substituteExpr n v c) (substituteStmt n v t)
        (match e with
         | some s => some (substituteStmt n v s)
         | none => none)
  | Stmt.Block a b => Stmt.Block (substituteStmt n v a) (substituteStmt n v b)
  | Stmt.Realize name tys bounds c body =>
      Stmt.Realize name tys
        (bounds.map fun r => (substituteExpr n v r.1, substituteExpr n v r.2))
        (substituteExpr n v c) (substituteStmt n v body)
  | Stmt.ProducerConsumer name ip body =>
      Stmt.ProducerConsumer name ip (substituteStmt n v body)
  | Stmt.AssertStmt c m => Stmt.AssertStmt (substituteExpr n v c) (substituteExpr n v m)
  | Stmt.Evaluate e => Stmt.Evaluate (substituteExpr n v e)

mutual

/-- Modelled from the spec: `expr_uses_var(expr, name)` — the expression
references the named variable. -/
def exprUsesVar : Expr → String → Bool
  | Expr.IntImm _, _ => false
  | Expr.StringImm _, _ => false
  | Expr.Var _ name, n => name = n
  | Expr.Add a b, n => exprUsesVar a n || exprUsesVar b n
  | Expr.Sub a b, n => exprUsesVar a n || exprUsesVar b n
  | Expr.Min a b, n => exprUsesVar a n || exprUsesVar b n
  | Expr.Max a b, n => exprUsesVar a n || exprUsesVar b n
  | Expr.LE a b, n => exprUsesVar a n || exprUsesVar b n
  | Expr.GE a b, n => exprUsesVar a n || exprUsesVar b n
  | Expr.EQE a b, n => exprUsesVar a n || exprUsesVar b n
  | Expr.And a b, n => exprUsesVar a n || exprUsesVar b n
  | Expr.Call _ _ args _, n => exprListUsesVar args n

/-- List version of `exprUsesVar` for call arguments. -/
def exprListUsesVar : List Expr → String → Bool
  | [], _ => false
  | e :: es, n => exprUsesVar e n || exprListUsesVar es n

end

mutual

/-- Modelled from the spec: `qualify(prefix, expr)` rewrites every
unqualified (dot-free) variable reference to `prefix + name` (§4.1). -/
def qualify (pre : String) : Expr → Expr
  | Expr.IntImm i => Expr.IntImm i
  | Expr.StringImm s => Expr.StringImm s
  | Expr.Var ty name =>
      if ('.') ∈ name.data then Expr.Var ty name else Expr.Var ty (pre ++ name)
  | Expr.Add a b => Expr.Add (qualify pre a) (qualify pre b)
  | Expr.Sub a b => Expr.Sub (qualify pre a) (qualify pre b)
  | Expr.Min a b => Expr.Min (qualify pre a) (qualify pre b)
  | Expr.Max a b => Expr.Max (qualify pre a) (qualify pre b)
  | Expr.LE a b => Expr.LE (qualify pre a) (qualify pre b)
  | Expr.GE a b => Expr.GE (qualify pre a) (qualify pre b)
  | Expr.EQE a b => Expr.EQE (qualify pre a) (qualify pre b)
  | Expr.And a b => Expr.And (qualify pre a) (qualify pre b)
  | Expr.Call ty name args p => Expr.Call ty name (qualifyList pre args) p

/-- List version of `qualify` for call arguments. -/
def qualifyList (pre : String) : List Expr → List Expr
  | [] => []
  | e :: es => qualify pre e :: qualifyList pre es

end

/-- Number of statement nodes; expression structure is not counted, so
expression substitution preserves it. -/
def stmtSize : Stmt → Nat
  | Stmt.Provide _ _ _ => 1
  | Stmt.LetStmt _ _ body => stmtSize body + 1
  | Stmt.For _ _ _ _ _ body => stmtSize body + 1
  | Stmt.IfThenElse _ t none => stmtSize t + 1
  | Stmt.IfThenElse _ t (some s) => stmtSize t + stmtSize s + 1
  | Stmt.Block a b => stmtSize a + stmtSize b + 1
  | Stmt.Realize _ _ _ _ body => stmtSize body + 1
  | Stmt.ProducerConsumer _ _ body => stmtSize body + 1
  | Stmt.AssertStmt _ _ => 1
  | Stmt.Evaluate _ => 1

theorem stmtSize_substituteStmt (n : String) (v : Expr) :
    ∀ s : Stmt, stmtSize (substituteStmt n v s) = stmtSize s
  | Stmt.Provide _ _ _ => rfl
  | Stmt.LetStmt name value body => by
      by_cases h : name = n <;>
        simp [substituteStmt, stmtSize, h, stmtSize_substituteStmt n v body]
  | Stmt.For _ _ _ _ _ body => by
      simp [substituteStmt, stmtSize, stmtSize_substituteStmt n v body]
  | Stmt.IfThenElse c t none => by
      simp [substituteStmt, stmtSize, stmtSize_substituteStmt n v t]
  | Stmt.IfThenElse c t (some e) => by
      simp [substituteStmt, stmtSize, stmtSize_substituteStmt n v t,
            stmtSize_substituteStmt n v e]
  | Stmt.Block a b => by
      simp [substituteStmt, stmtSize, stmtSize_substituteStmt n v a,
            stmtSize_substituteStmt n v b]
  | Stmt.Realize _ _ _ _ body => by
      simp [substituteStmt, stmtSize, stmtSize_substituteStmt n v body]
  | Stmt.ProducerConsumer _ _ body => by
      simp [substituteStmt, stmtSize, stmtSize_substituteStmt n v body]
  | Stmt.AssertStmt _ _ => rfl
  | Stmt.Evaluate _ => rfl

/-! ## Name utilities and impure-call detection (source lines 41–71) -/

/-- `var_name_match(candidate, var)`: the candidate equals the unqualified
var or ends with `"." + var`. -/
def varNameMatch (candidate var : String) : Bool :=
  candidate = var || strEnds candidate ("." ++ var)

mutual

/-- `ContainsImpureCall` / `contains_impure_call(expr)`: some `Call` in the
expression is not pure. -/
def containsImpureCall : Expr → Bool
  | Expr.IntImm _ => false
  | Expr.StringImm _ => false
  | Expr.Var _ _ => false
  | Expr.Add a b => containsImpureCall a || containsImpureCall b
  | Expr.Sub a b => containsImpureCall a || containsImpureCall b
  | Expr.Min a b => containsImpureCall a || containsImpureCall b
  | Expr.Max a b => containsImpureCall a || containsImpureCall b
  | Expr.LE a b => containsImpureCall a || containsImpureCall b
  | Expr.GE a b => containsImpureCall a || containsImpureCall b
  | Expr.EQE a b => containsImpureCall a || containsImpureCall b
  | Expr.And a b => containsImpureCall a || containsImpureCall b
  | Expr.Call _ _ args p =>
      if p then containsImpureCallList args else true

/-- List version of `containsImpureCall` for call arguments. -/
def containsImpureCallList : List Expr → Bool
  | [] => false
  | e :: es => containsImpureCall e || containsImpureCallList es

end

/-! ## Delegated helpers kept abstract (§4.3, §6)

`apply_splits`, `compute_loop_bounds_after_split` and `simplify` live
outside this repository; the spec gives only their contracts, so the
embedding is parameterized by them and every theorem quantifies over their
behaviour. -/

/-- Result of `apply_splits`: substitutions, new let bindings, and
predicate guards. -/
structure ApplySplitResult where
  substitutions : List (String × Expr)
  letStmts : List (String × Expr)
  predicates : List Expr

/-- The external collaborators of the pass. -/
structure Externals where
  applySplits : List Split → Bool → String → List (String × Expr) → ApplySplitResult
  computeLoopBoundsAfterSplit : Split → String → List (String × Expr)
  simplify : Expr → Expr

/-! ## Loop-nest builder (source lines 29–315) -/

/-- `Container::Type` (source line 33). -/
inductive ContainerType where
  | CFor
  | CLet
  | CIf
deriving DecidableEq, Repr

/-- A containing `LetStmt`, `IfThenElse` or `For` recorded while building
the loop nest (source lines 32–39).  `value` is `none` for `For`
containers (`Expr()` in C++). -/
structure Container where
  type : ContainerType
  dimIdx : Nat
  name : String
  value : Option Expr

instance : Inhabited Container := ⟨⟨ContainerType.CFor, 0, "", none⟩⟩

instance : Inhabited Dim :=
  ⟨⟨"", ForType.Serial, DeviceAPI.NoneAPI⟩⟩

/-- Indexing into the container vector. -/
def nestGet (nest : List Container) (i : Nat) : Container := nest.getD i default

/-- `std::swap(nest[i], nest[j])`. -/
def nestSwap (nest : List Container) (i j : Nat) : List Container :=
  (nest.set i (nestGet nest j)).set j (nestGet nest i)

/-- The container value, defined in the positions the sort inspects
(`internal_assert(nest[i].value.defined())`). -/
def containerValue (c : Container) : Expr := c.value.getD (Expr.IntImm 0)

/-- The inner loop of the reverse insertion sort (source lines 173–181 and
195–203): the moving container currently sits at position `j+1`; it is
swapped outward while its value does not use the name of the container at
position `j`. -/
def hoistInner (nest : List Container) : Nat → List Container
  | 0 =>
    if exprUsesVar (containerValue (nestGet nest 1)) (nestGet nest 0).name then nest
    else nestSwap nest 0 1
  | j + 1 =>
    if exprUsesVar (containerValue (nestGet nest (j + 2))) (nestGet nest (j + 1)).name
    then nest
    else hoistInner (nestSwap nest (j + 1) (j + 2)) j

/-- One iteration of the outer sorting loop at position `i`: skip an impure
predicate (source lines 190–193) when `skipImpure` is set, otherwise hoist
the container at `i` outward. -/
def sortStep (skipImpure : Bool) (nest : List Container) (i : Nat) : List Container :=
  if skipImpure && containsImpureCall (containerValue (nestGet nest i)) then nest
  else
    match i with
    | 0 => nest
    | i2 + 1 => hoistInner nest i2

/-- The outer sorting loop, iterated structurally on the remaining
iteration count. -/
def sortRangeGo (skipImpure : Bool) : Nat → List Container → Nat →
    List Container
  | 0, nest, _ => nest
  | fuel + 1, nest, i =>
      sortRangeGo skipImpure fuel (sortStep skipImpure nest i) (i + 1)

/-- The outer sorting loop over positions `[i, hi)` (source lines 166–204);
with `skipImpure = false` this is the let sort, with `skipImpure = true`
the predicate sort. -/
def sortRange (skipImpure : Bool) (nest : List Container) (i hi : Nat) :
    List Container :=
  sortRangeGo skipImpure (hi - i) nest i

/-- Strip leading `LetStmt`s into containers (source lines 146–151),
outermost first. -/
def stripLets : Stmt → List Container × Stmt
  | Stmt.LetStmt n v b =>
      let r := stripLets b
      (⟨ContainerType.CLet, 0, n, some v⟩ :: r.1, r.2)
  | s => ([], s)

/-- Rewrap one container around a statement (source lines 207–221). -/
def wrapContainer (dims : List Dim) (c : Container) (stmt : Stmt) : Stmt :=
  match c.type with
  | ContainerType.CLet => Stmt.LetStmt c.name (containerValue c) stmt
  | ContainerType.CIf => Stmt.IfThenElse (containerValue c) stmt none
  | ContainerType.CFor =>
      let dim := dims.getD c.dimIdx default
      Stmt.For c.name (Expr.Var Ty.int32 (c.name ++ ".loop_min"))
        (Expr.Var Ty.int32 (c.name ++ ".loop_extent")) dim.forType dim.deviceApi stmt

/-- Bounds of the split dimensions (source lines 226–233), processed from
the last split to the first. -/
def helperSplitBoundsLets (ext : Externals) (prefixS : String)
    (splits : List Split) (stmt : Stmt) : Stmt :=
  splits.reverse.foldl
    (fun st sp =>
      (ext.computeLoopBoundsAfterSplit sp prefixS).foldl
        (fun st2 l => Stmt.LetStmt l.1 l.2 st2) st)
    stmt

/-- Bounds of the outermost dummy dimension (source lines 236–241). -/
def helperOutermostLets (prefixS : String) (stmt : Stmt) : Stmt :=
  let o := prefixS ++ outermostName
  Stmt.LetStmt (o ++ ".loop_extent") (Expr.IntImm 1)
    (Stmt.LetStmt (o ++ ".loop_max") (Expr.IntImm 0)
      (Stmt.LetStmt (o ++ ".loop_min") (Expr.IntImm 0) stmt))

/-- Loop mins and extents of the pure dims in terms of the bounds-inference
names (source lines 244–253). -/
def helperDimLets (prefixS : String) (dims : List String) (stmt : Stmt) : Stmt :=
  dims.foldl
    (fun st d =>
      let var := prefixS ++ d
      let mx := Expr.Var Ty.int32 (var ++ ".max")
      let mn := Expr.Var Ty.int32 (var ++ ".min")
      let st := Stmt.LetStmt (var ++ ".loop_extent")
        (Expr.Sub (Expr.Add mx (Expr.IntImm 1)) mn) st
      let st := Stmt.LetStmt (var ++ ".loop_min") mn st
      Stmt.LetStmt (var ++ ".loop_max") mx st)
    stmt

/-- Loop bounds of the reduction variables (source lines 257–264). -/
def helperRvarLets (prefixS : String) (rvars : List ReductionVariable)
    (stmt : Stmt) : Stmt :=
  rvars.foldl
    (fun st rv =>
      let p := prefixS ++ rv.var
      let rmin := Expr.Var Ty.int32 (p ++ ".min")
      let rmax := Expr.Var Ty.int32 (p ++ ".max")
      let st := Stmt.LetStmt (p ++ ".loop_min") rmin st
      let st := Stmt.LetStmt (p ++ ".loop_max") rmax st
      Stmt.LetStmt (p ++ ".loop_extent")
        (Expr.Add (Expr.Sub rmax rmin) (Expr.IntImm 1)) st)
    stmt

/-- `build_provide_loop_nest_helper` (source lines 74–267). -/
def buildProvideLoopNestHelper (ext : Externals) (funcName prefixS : String)
    (startFuse : Int) (dims : List String) (site values predicates : List Expr)
    (s : Schedule) (isUpdate : Bool) : Stmt :=
  -- the Provide node
  let stmt := Stmt.Provide funcName values site
  -- guards on the fused loop vars (lines 92–99)
  let fuseIdxs : List Nat :=
    if startFuse < 0 then []
    else (List.range (s.dims.length - 1)).drop startFuse.toNat
  let stmt := fuseIdxs.foldl
    (fun st i =>
      let dim := s.dims.getD i default
      let var := Expr.Var Ty.int32 (prefixS ++ dim.var)
      let mx := Expr.Var Ty.int32 (prefixS ++ dim.var ++ ".loop_max")
      let mn := Expr.Var Ty.int32 (prefixS ++ dim.var ++ ".loop_min")
      let st := Stmt.IfThenElse (likely (Expr.LE mn var)) st none
      Stmt.IfThenElse (likely (Expr.LE var mx)) st none)
    stmt
  -- dim_extent_alignment map (lines 105–119)
  let alignment : List (String × Expr) :=
    s.bounds.foldl
      (fun m b =>
        let m := match b.extent with
                 | some e => mapAssign m b.var e
                 | none => m
        match b.modulus with
        | some e => mapAssign m b.var e
        | none => m)
      []
  let alignment := s.rvars.foldl (fun m rv => mapAssign m rv.var rv.extent) alignment
  -- apply the splits (lines 121–127)
  let splitsResult := ext.applySplits s.splits isUpdate prefixS alignment
  let stmt := splitsResult.substitutions.foldl
    (fun st sub => substituteStmt sub.1 sub.2 st) stmt
  -- build the container vector (lines 130–164)
  let nest : List Container :=
    (List.range s.dims.length).reverse.map fun i =>
      ⟨ContainerType.CFor, i, prefixS ++ (s.dims.getD i default).var, none⟩
  let nest := nest ++ splitsResult.letStmts.reverse.map
    (fun l => (⟨ContainerType.CLet, 0, l.1, some l.2⟩ : Container))
  let stripped := stripLets stmt
  let nest := nest ++ stripped.1
  let stmt := stripped.2
  let nPredicates := splitsResult.predicates.length + predicates.length
  let nest := nest ++ splitsResult.predicates.map
    (fun p => (⟨ContainerType.CIf, 0, "", some p⟩ : Container))
  let nest := nest ++ predicates.map
    (fun p => (⟨ContainerType.CIf, 0, "", some (likely (qualify prefixS p))⟩ : Container))
  -- sort the lets outward (lines 166–182)
  let nest := sortRange false nest s.dims.length (nest.length - nPredicates)
  -- sort the predicates outward, skipping impure ones (lines 184–204)
  let nest := sortRange true nest (nest.length - nPredicates) nest.length
  -- rewrap (lines 206–221)
  let stmt := nest.foldr (wrapContainer s.dims) stmt
  -- outer bound bindings (lines 226–264)
  helperRvarLets prefixS s.rvars
    (helperDimLets prefixS dims
      (helperOutermostLets prefixS
        (helperSplitBoundsLets ext prefixS s.splits stmt)))

mutual

/-- `build_provide_loop_nest` (source lines 269–315): the base nest wrapped
in the specialization `IfThenElse` chain. -/
def buildProvideLoopNest (ext : Externals) (funcName prefixS : String)
    (startFuse : Int) (dims : List String) : Definition → Bool → Stmt
  | Definition.mk _ args values splitPred sched specs, isUpdate =>
    let site := args.map (qualify prefixS)
    let vals := values.map (qualify prefixS)
    let base := buildProvideLoopNestHelper ext funcName prefixS startFuse dims
      site vals splitPred sched isUpdate
    buildSpecializationChain ext funcName prefixS startFuse dims isUpdate specs base

/-- The specialization chain (source lines 302–312): iterating the
specialization list in reverse, each wraps the accumulated statement, so
the first specialization ends up outermost. -/
def buildSpecializationChain (ext : Externals) (funcName prefixS : String)
    (startFuse : Int) (dims : List String) (isUpdate : Bool) :
    List (Expr × Definition) → Stmt → Stmt
  | [], base => base
  | (c, d) :: rest, base =>
      Stmt.IfThenElse c (buildProvideLoopNest ext funcName prefixS startFuse dims d isUpdate)
        (some (buildSpecializationChain ext funcName prefixS startFuse dims isUpdate rest base))

end

/-! ## Produce/update emission and explicit bounds (source lines 317–558) -/

/-- The compilation target; only the feature flags this pass reads. -/
structure Target where
  noAsserts : Bool
  msan : Bool

/-- `build_produce` (source lines 323–496).  The extern-call emitter
branch (lines 325–489) constructs the external call with buffer
descriptors; it is outside the scope of every claim and is kept as the
explicit parameter `externProduce`.  The pure branch delegates to the
loop-nest builder exactly as in lines 490–495. -/
def buildProduce (ext : Externals) (externProduce : Function → Target → Stmt)
    (f : Function) (target : Target) : Stmt :=
  if f.hasExtern then externProduce f target
  else buildProvideLoopNest ext f.name (f.name ++ ".s0.") (-1) f.args f.definition false

/-- `build_update` (source lines 499–514). -/
def buildUpdate (ext : Externals) (f : Function) : List Stmt :=
  f.updates.enum.map fun p =>
    buildProvideLoopNest ext f.name (f.name ++ ".s" ++ toString (p.1 + 1) ++ ".")
      (-1) f.args p.2 true

/-- `Block::make(vector<Stmt>)`: right-nested block of a statement list,
undefined (`none`) when empty. -/
def blockOfList : List Stmt → Option Stmt
  | [] => none
  | s :: rest =>
    match blockOfList rest with
    | none => some s
    | some r => some (Stmt.Block s r)

/-- `build_production` (source lines 516–523): the produce statement and
the merged update statements. -/
def buildProduction (ext : Externals) (externProduce : Function → Target → Stmt)
    (f : Function) (target : Target) : Stmt × Option Stmt :=
  (buildProduce ext externProduce f target, blockOfList (buildUpdate ext f))

/-- One iteration of the bound loop of `inject_explicit_bounds` (source
lines 531–554): prepend the bounds-check assertion for one user bound of
one stage, skipping bounds with no extent (a modulus-only alignment). -/
def injectBoundsStep (fname : String) (stage : Nat) (bd2 : Stmt) (b : Bound) :
    Stmt :=
  let prefixS := fname ++ ".s" ++ toString stage ++ "." ++ b.var
  let minName := prefixS ++ ".min_unbounded"
  let maxName := prefixS ++ ".max_unbounded"
  let minVar := Expr.Var Ty.int32 minName
  let maxVar := Expr.Var Ty.int32 maxName
  let bmin := b.min.getD minVar
  match b.extent with
  | none => bd2
  | some ext2 =>
    let maxVal := Expr.Sub (Expr.Add ext2 bmin) (Expr.IntImm 1)
    let minVal := bmin
    let check := Expr.And (Expr.LE minVal minVar) (Expr.GE maxVal maxVar)
    let errorMsg := Expr.Call Ty.int32 "halide_error_explicit_bounds_too_small"
      [Expr.StringImm b.var, Expr.StringImm fname,
       minVal, maxVal, minVar, maxVar] false
    Stmt.Block (Stmt.AssertStmt check errorMsg) bd2

/-- `inject_explicit_bounds` (source lines 528–558): for every stage and
every user bound with a defined extent, prepend the bounds-check
assertion. -/
def injectExplicitBounds (body : Stmt) (func : Function) : Stmt :=
  (List.range (func.updates.length + 1)).foldl
    (fun bd stage => func.schedule.bounds.foldl (injectBoundsStep func.name stage) bd)
    body

/-! ## Use and realization detection (source lines 560–612) -/

mutual

/-- `IsUsedInStmt` on expressions: a `Call` named after the function, or a
handle-typed `Variable` named `<func>.….buffer`. -/
def usedInExpr (fname : String) : Expr → Bool
  | Expr.IntImm _ => false
  | Expr.StringImm _ => false
  | Expr.Var ty n =>
      ty = Ty.handle && strStarts n (fname ++ ".") && strEnds n ".buffer"
  | Expr.Add a b => usedInExpr fname a || usedInExpr fname b
  | Expr.Sub a b => usedInExpr fname a || usedInExpr fname b
  | Expr.Min a b => usedInExpr fname a || usedInExpr fname b
  | Expr.Max a b => usedInExpr fname a || usedInExpr fname b
  | Expr.LE a b => usedInExpr fname a || usedInExpr fname b
  | Expr.GE a b => usedInExpr fname a || usedInExpr fname b
  | Expr.EQE a b => usedInExpr fname a || usedInExpr fname b
  | Expr.And a b => usedInExpr fname a || usedInExpr fname b
  | Expr.Call _ n args _ => n = fname || usedInExprList fname args

/-- List version of `usedInExpr`. -/
def usedInExprList (fname : String) : List Expr → Bool
  | [] => false
  | e :: es => usedInExpr fname e || usedInExprList fname es

end

/-- `IsUsedInStmt` on statements (the visitor's default recursion over
every child expression and statement). -/
def usedInStmt (fname : String) : Stmt → Bool
  | Stmt.Provide _ values args => usedInExprList fname values || usedInExprList fname args
  | Stmt.LetStmt _ v body => usedInExpr fname v || usedInStmt fname body
  | Stmt.For _ mn ext _ _ body =>
      usedInExpr fname mn || usedInExpr fname ext || usedInStmt fname body
  | Stmt.IfThenElse c t e =>
      usedInExpr fname c || usedInStmt fname t ||
        (match e with
         | some s => usedInStmt fname s
         | none => false)
  | Stmt.Block a b => usedInStmt fname a || usedInStmt fname b
  | Stmt.Realize _ _ bounds c body =>
      bounds.any (fun r => usedInExpr fname r.1 || usedInExpr fname r.2) ||
        usedInExpr fname c || usedInStmt fname body
  | Stmt.ProducerConsumer _ _ body => usedInStmt fname body
  | Stmt.AssertStmt c m => usedInExpr fname c || usedInExpr fname m
  | Stmt.Evaluate e => usedInExpr fname e

/-- `function_is_used_in_stmt` (source lines 586–590). -/
def functionIsUsedInStmt (f : Function) (s : Stmt) : Bool := usedInStmt f.name s

/-- `IsRealizedInStmt` / `function_is_already_realized_in_stmt` (source
lines 592–612): some `Realize` node for the function occurs in the
statement. -/
def realizedInStmt (fname : String) : Stmt → Bool
  | Stmt.Provide _ _ _ => false
  | Stmt.LetStmt _ _ body => realizedInStmt fname body
  | Stmt.For _ _ _ _ _ body => realizedInStmt fname body
  | Stmt.IfThenElse _ t e =>
      realizedInStmt fname t ||
        (match e with
         | some s => realizedInStmt fname s
         | none => false)
  | Stmt.Block a b => realizedInStmt fname a || realizedInStmt fname b
  | Stmt.Realize n _ _ _ body => n = fname || realizedInStmt fname body
  | Stmt.ProducerConsumer _ _ body => realizedInStmt fname body
  | Stmt.AssertStmt _ _ => false
  | Stmt.Evaluate _ => false

/-! ## The single-function injector (source lines 614–809) -/

/-- `atoi` on an all-digit string. -/
def atoiDigits (s : String) : Nat :=
  s.data.foldl (fun n c => n * 10 + (c.toNat - 48)) 0

/-- The stage-number scan of `is_the_right_level` (source lines 642–651):
over the middle components of the split loop name, the last component of
the form `s<digits>` wins. -/
def scanStage (middles : List String) : Option Nat :=
  middles.foldl
    (fun st comp =>
      if substrTake comp 1 = "s" then
        let str := substrDrop comp 1
        if str.data.all Char.isDigit then some (atoiDigits str) else st
      else st)
    none

/-- `InjectRealization::is_the_right_level` (source lines 632–678).
`none` models an `internal_assert` failure. -/
def isTheRightLevel (env : Env) (loopName : String) : Option Bool :=
  if loopName = rootLoopName then some true
  else
    let v := splitString loopName '.'
    if v.length ≤ 2 then none
    else
      let funcName := v.headD ""
      let var := v.getLastD ""
      match scanStage (v.drop 1).dropLast with
      | none => none
      | some stage =>
        match envFind env funcName with
        | none => none
        | some f =>
          if stage > f.updates.length then none
          else
            let dfn := if stage = 0 then f.definition
                       else f.updates.getD (stage - 1) f.definition
            let fuseLevel := dfn.schedule.fuseLevel
            if fuseLevel.isInline || fuseLevel.isRoot then some true
            else
              let dims := dfn.schedule.dims
              match dims.findIdx? (fun d => varNameMatch d.var fuseLevel.varName),
                    dims.findIdx? (fun d => varNameMatch d.var var) with
              | some i1, some i2 => some (decide (i2 < i1))
              | _, _ => none

/-- Dig through leading `LetStmt`s (source lines 734–738), returning the
stripped bindings outermost-first and the remaining body. -/
def digLets : Stmt → List (String × Expr) × Stmt
  | Stmt.LetStmt n v b =>
      let r := digLets b
      ((n, v) :: r.1, r.2)
  | s => ([], s)

theorem stmtSize_digLets : ∀ s : Stmt, stmtSize (digLets s).2 ≤ stmtSize s
  | Stmt.LetStmt n v b => by
      have := stmtSize_digLets b
      simp only [digLets, stmtSize]
      omega
  | Stmt.Provide _ _ _ => Nat.le_refl _
  | Stmt.For _ _ _ _ _ _ => Nat.le_refl _
  | Stmt.IfThenElse _ _ _ => Nat.le_refl _
  | Stmt.Block _ _ => Nat.le_refl _
  | Stmt.Realize _ _ _ _ _ => Nat.le_refl _
  | Stmt.ProducerConsumer _ _ _ => Nat.le_refl _
  | Stmt.AssertStmt _ _ => Nat.le_refl _
  | Stmt.Evaluate _ => Nat.le_refl _

/-- Every statement has positive size. -/
theorem stmtSize_pos : ∀ s : Stmt, 0 < stmtSize s
  | Stmt.Provide _ _ _ => Nat.one_pos
  | Stmt.LetStmt _ _ _ => Nat.succ_pos _
  | Stmt.For _ _ _ _ _ _ => Nat.succ_pos _
  | Stmt.IfThenElse _ _ none => Nat.succ_pos _
  | Stmt.IfThenElse _ _ (some _) => Nat.succ_pos _
  | Stmt.Block _ _ => Nat.succ_pos _
  | Stmt.Realize _ _ _ _ _ => Nat.succ_pos _
  | Stmt.ProducerConsumer _ _ _ => Nat.succ_pos _
  | Stmt.AssertStmt _ _ => Nat.one_pos
  | Stmt.Evaluate _ => Nat.one_pos

/-- Reinstate stripped let bindings (source lines 779–781). -/
def restoreLets (lets : List (String × Expr)) (body : Stmt) : Stmt :=
  lets.foldr (fun p st => Stmt.LetStmt p.1 p.2 st) body

/-- Traversal state of `InjectRealization`: the `found_store_level` and
`found_compute_level` cursors. -/
structure InjFlags where
  foundStore : Bool
  foundCompute : Bool
deriving DecidableEq, Repr

/-- The immutable data of an `InjectRealization` run. -/
structure InjParams where
  ext : Externals
  externProduce : Function → Target → Stmt
  func : Function
  isOutput : Bool
  target : Target
  env : Env

/-- `InjectRealization::build_pipeline` (source lines 682–698). -/
def buildPipeline (P : InjParams) (s : Stmt) : Stmt :=
  let realization := buildProduction P.ext P.externProduce P.func P.target
  let producer :=
    match realization.2 with
    | some upd => Stmt.Block realization.1 upd
    | none => realization.1
  let producer := Stmt.ProducerConsumer P.func.name true producer
  let consumer := Stmt.ProducerConsumer P.func.name false s
  Stmt.Block producer consumer

/-- `InjectRealization::build_realize` (source lines 700–722). -/
def buildRealize (P : InjParams) (s : Stmt) : Stmt :=
  let s2 :=
    if P.isOutput then s
    else
      let bounds := P.func.args.map fun arg =>
        (Expr.Var Ty.int32 (P.func.name ++ "." ++ arg ++ ".min_realized"),
         Expr.Var Ty.int32 (P.func.name ++ "." ++ arg ++ ".extent_realized"))
      Stmt.Realize P.func.name P.func.outputTypes bounds constTrue s
  if P.target.noAsserts then s2 else injectExplicitBounds s2 P.func

/-- The mutation of `InjectRealization` (its `visit(For)` at lines 726–793,
`visit(Provide)` at lines 796–808, and the default mutator recursion on the
remaining nodes).  The result is `none` when an `internal_assert` in the
traversal fails (unknown stage name at a matched level, or a store level
found before the compute level). -/
def injGo (P : InjParams) : Nat → InjFlags → Stmt → Option (InjFlags × Stmt)
  | 0, _, _ => none
  | fuel + 1, flags, s =>
    match s with
    | Stmt.For name mn ext2 ft dev forBody =>
      -- extern functions scheduled inline inside a vectorized loop (lines 741–752)
      if P.func.hasExtern && P.func.schedule.computeLevel.isInline &&
          ft = ForType.Vectorized &&
          !realizedInStmt P.func.name (Stmt.For name mn ext2 ft dev forBody) &&
          functionIsUsedInStmt P.func (Stmt.For name mn ext2 ft dev forBody) then
        some ({ foundStore := true, foundCompute := true },
          buildRealize P (buildPipeline P (Stmt.For name mn ext2 ft dev forBody)))
      else
        -- dig through let statements, then mutate the stripped body
        match injGo P fuel flags (digLets forBody).2 with
        | none => none
        | some (flags1, body1) =>
          let lets := (digLets forBody).1
          -- compute level (lines 756–763)
          let computeHere := P.func.schedule.computeLevel.matchString name
          let storeHere := P.func.schedule.storeLevel.matchString name
          let right := if computeHere || storeHere then isTheRightLevel P.env name
                       else some false
          match right with
          | none => none
          | some rightLevel =>
            let (flags2, body2) :=
              if computeHere && rightLevel then
                if !realizedInStmt P.func.name body1 &&
                    (functionIsUsedInStmt P.func body1 || P.isOutput) then
                  ({ flags1 with foundCompute := true }, buildPipeline P body1)
                else ({ flags1 with foundCompute := true }, body1)
              else (flags1, body1)
            if storeHere && rightLevel then
              if !flags2.foundCompute then none
              else
                let body3 :=
                  if !realizedInStmt P.func.name body2 &&
                      (functionIsUsedInStmt P.func body2 || P.isOutput) then
                    buildRealize P body2
                  else body2
                some ({ flags2 with foundStore := true },
                  Stmt.For name mn ext2 ft dev (restoreLets lets body3))
            else
              some (flags2, Stmt.For name mn ext2 ft dev (restoreLets lets body2))
    | Stmt.Provide pname values args =>
      -- inline update or extern realization (lines 796–808)
      if pname ≠ P.func.name && !P.func.isPure &&
          P.func.schedule.computeLevel.isInline &&
          functionIsUsedInStmt P.func (Stmt.Provide pname values args) then
        some ({ foundStore := true, foundCompute := true },
          buildRealize P (buildPipeline P (Stmt.Provide pname values args)))
      else some (flags, Stmt.Provide pname values args)
    | Stmt.LetStmt n v body =>
      match injGo P fuel flags body with
      | none => none
      | some (flags1, body1) => some (flags1, Stmt.LetStmt n v body1)
    | Stmt.IfThenElse c t e =>
      match injGo P fuel flags t with
      | none => none
      | some (flags1, t1) =>
        match e with
        | none => some (flags1, Stmt.IfThenElse c t1 none)
        | some es =>
          match injGo P fuel flags1 es with
          | none => none
          | some (flags2, es1) => some (flags2, Stmt.IfThenElse c t1 (some es1))
    | Stmt.Block a b =>
      match injGo P fuel flags a with
      | none => none
      | some (flags1, a1) =>
        match injGo P fuel flags1 b with
        | none => none
        | some (flags2, b1) => some (flags2, Stmt.Block a1 b1)
    | Stmt.Realize n tys bounds c body =>
      match injGo P fuel flags body with
      | none => none
      | some (flags1, body1) => some (flags1, Stmt.Realize n tys bounds c body1)
    | Stmt.ProducerConsumer n ip body =>
      match injGo P fuel flags body with
      | none => none
      | some (flags1, body1) => some (flags1, Stmt.ProducerConsumer n ip body1)
    | Stmt.AssertStmt c m => some (flags, Stmt.AssertStmt c m)
    | Stmt.Evaluate e => some (flags, Stmt.Evaluate e)

/-- The injector's result does not depend on the fuel once the fuel covers
the statement size. -/
theorem injGo_mono (P : InjParams) :
    ∀ (n : Nat) (s : Stmt) (m : Nat) (flags : InjFlags),
      stmtSize s ≤ n → stmtSize s ≤ m →
      injGo P n flags s = injGo P m flags s
  | 0, s, m, _, h1, _ => absurd h1 (by have := stmtSize_pos s; omega)
  | n + 1, s, 0, _, _, h2 => absurd h2 (by have := stmtSize_pos s; omega)
  | n + 1, s, m + 1, flags, h1, h2 => by
    match s with
    | Stmt.For name mn ext2 ft dev forBody =>
      have hdig := stmtSize_digLets forBody
      simp only [stmtSize] at h1 h2
      simp only [injGo]
      split_ifs <;>
        first
          | rfl
          | rw [injGo_mono P n ((digLets forBody).2) m flags (by omega)
              (by omega)]
    | Stmt.Provide pname values args => simp only [injGo]
    | Stmt.LetStmt nm v body =>
      simp only [stmtSize] at h1 h2
      simp only [injGo]
      rw [injGo_mono P n body m flags (by omega) (by omega)]
    | Stmt.IfThenElse c t e =>
      cases e with
      | none =>
        simp only [stmtSize] at h1 h2
        simp only [injGo]
        rw [injGo_mono P n t m flags (by omega) (by omega)]
      | some s2 =>
        have hp2 := stmtSize_pos s2
        have hpt := stmtSize_pos t
        simp only [stmtSize] at h1 h2
        simp only [injGo]
        have h3 : ∀ fl, injGo P n fl s2 = injGo P m fl s2 := fun fl =>
          injGo_mono P n s2 m fl (by omega) (by omega)
        rw [injGo_mono P n t m flags (by omega) (by omega)]
        simp only [h3]
    | Stmt.Block a b =>
      have hpa := stmtSize_pos a
      have hpb := stmtSize_pos b
      simp only [stmtSize] at h1 h2
      simp only [injGo]
      have h3 : ∀ fl, injGo P n fl b = injGo P m fl b := fun fl =>
        injGo_mono P n b m fl (by omega) (by omega)
      rw [injGo_mono P n a m flags (by omega) (by omega)]
      simp only [h3]
    | Stmt.Realize nm tys bds c body =>
      simp only [stmtSize] at h1 h2
      simp only [injGo]
      rw [injGo_mono P n body m flags (by omega) (by omega)]
    | Stmt.ProducerConsumer nm ip body =>
      simp only [stmtSize] at h1 h2
      simp only [injGo]
      rw [injGo_mono P n body m flags (by omega) (by omega)]
    | Stmt.AssertStmt c msg => simp only [injGo]
    | Stmt.Evaluate e2 => simp only [injGo]

/-- `InjectRealization`'s mutation (source lines 726–793 together with the
default mutator recursion), with the fuel seeded by the statement size;
`none` models an `internal_assert` failure. -/
def injectRealization (P : InjParams) (flags : InjFlags) (s : Stmt) :
    Option (InjFlags × Stmt) :=
  injGo P (stmtSize s) flags s

/-! ## Bound substitution for fused loops (source lines 873–954) -/

/-- The rewrite of one `For` node by the `SubstituteBounds` mutator
(source lines 890–940), applied to the already-mutated body: a loop whose
min and extent are variables listed in `replacements` is the child fused
loop: rename it to `….fused.<var>`, rebind its bounds, clear the loop tag
to `Serial` when its new extent is one, and substitute the new name; any
other loop is rebuilt unchanged.  `none` models the `internal_assert` on a
dot-free loop name. -/
def sbForFinish (simplify : Expr → Expr) (repl : List (String × Expr))
    (name : String) (mn ext2 : Expr) (ft : ForType) (dev : DeviceAPI)
    (bounds1 : List (String × Option Expr)) (body1 : Stmt) :
    Option (List (String × Option Expr) × Stmt) :=
  match mn, ext2 with
  | Expr.Var _mty mname, Expr.Var _ety ename =>
    (match mapFind repl mname, mapFind repl ename with
     | some minVal, some extVal =>
       (match rfindIdx '.' name.data with
        | none => none
        | some lastDot =>
          let newVar := substrTake name lastDot ++ ".fused." ++
            substrDrop name (lastDot + 1)
          let ftype := if isOne extVal then ForType.Serial else ft
          let st := Stmt.For newVar
            (Expr.Var Ty.int32 (newVar ++ ".loop_min"))
            (Expr.Var Ty.int32 (newVar ++ ".loop_extent")) ftype dev body1
          let st := Stmt.LetStmt (newVar ++ ".loop_min") minVal st
          let st := Stmt.LetStmt (newVar ++ ".loop_max")
            (simplify (Expr.Sub (Expr.Add minVal extVal) (Expr.IntImm 1))) st
          let st := Stmt.LetStmt (newVar ++ ".loop_extent") extVal st
          some (bounds1, substituteStmt name (Expr.Var Ty.int32 newVar) st))
     | _, _ => some (bounds1, Stmt.For name mn ext2 ft dev body1))
  | _, _ => some (bounds1, Stmt.For name mn ext2 ft dev body1)

/-- The state/result of the `SubstituteBounds` mutator: the updated
captured-bounds map and the rewritten statement; `none` models an
`internal_assert` failure (a fused loop whose name has no dot). -/
def substituteBoundsStmt (simplify : Expr → Expr) (repl : List (String × Expr)) :
    List (String × Option Expr) → Stmt →
      Option (List (String × Option Expr) × Stmt)
  | bounds, Stmt.LetStmt n v body =>
    -- capture the current binding of a tracked name (lines 882–888)
    let bounds1 := match mapFind bounds n with
                   | some _ => mapAssign bounds n (some v)
                   | none => bounds
    match substituteBoundsStmt simplify repl bounds1 body with
    | none => none
    | some (bounds2, body1) => some (bounds2, Stmt.LetStmt n v body1)
  | bounds, Stmt.For name mn ext2 ft dev body =>
    (match substituteBoundsStmt simplify repl bounds body with
     | none => none
     | some (bounds1, body1) =>
       sbForFinish simplify repl name mn ext2 ft dev bounds1 body1)
  | bounds, Stmt.Provide n values args => some (bounds, Stmt.Provide n values args)
  | bounds, Stmt.IfThenElse c t e =>
    match substituteBoundsStmt simplify repl bounds t with
    | none => none
    | some (bounds1, t1) =>
      match e with
      | none => some (bounds1, Stmt.IfThenElse c t1 none)
      | some es =>
        match substituteBoundsStmt simplify repl bounds1 es with
        | none => none
        | some (bounds2, es1) => some (bounds2, Stmt.IfThenElse c t1 (some es1))
  | bounds, Stmt.Block a b =>
    match substituteBoundsStmt simplify repl bounds a with
    | none => none
    | some (bounds1, a1) =>
      match substituteBoundsStmt simplify repl bounds1 b with
      | none => none
      | some (bounds2, b1) => some (bounds2, Stmt.Block a1 b1)
  | bounds, Stmt.Realize n tys bds c body =>
    match substituteBoundsStmt simplify repl bounds body with
    | none => none
    | some (bounds1, body1) => some (bounds1, Stmt.Realize n tys bds c body1)
  | bounds, Stmt.ProducerConsumer n ip body =>
    match substituteBoundsStmt simplify repl bounds body with
    | none => none
    | some (bounds1, body1) => some (bounds1, Stmt.ProducerConsumer n ip body1)
  | bounds, Stmt.AssertStmt c m => some (bounds, Stmt.AssertStmt c m)
  | bounds, Stmt.Evaluate e => some (bounds, Stmt.Evaluate e)

/-! ## Fused-pair registration (source lines 1075–1137) -/

/-- `[lo, hi)` as a list of indices. -/
def idxRange (lo hi : Nat) : List Nat := List.range' lo (hi - lo)

theorem mem_idxRange (i lo hi : Nat) : i ∈ idxRange lo hi ↔ lo ≤ i ∧ i < hi := by
  unfold idxRange
  rw [List.mem_range'_1]
  omega

/-- The maps threaded through `build_produce_definition`: the initial
`start_fuse` candidate, the names whose bindings must be captured, and the
replacements for the child fused loops. -/
structure FuseRegState where
  startFuse : Nat
  bounds : List (String × Option Expr)
  replacements : List (String × Expr)

/-- The `fuse_level` part of `start_fuse` (source lines 1083–1091). -/
def computeStartFuse (skip : List (String × Bool)) (dims : List Dim)
    (fuseLevel : LoopLevel) : Option Nat :=
  if !fuseLevel.isInline && !fuseLevel.isRoot then
    match mapFind skip fuseLevel.funcName with
    | none => none
    | some true => some dims.length
    | some false =>
      match dims.findIdx? (fun d => varNameMatch d.var fuseLevel.varName) with
      | none => none
      | some i => some i
  else some dims.length

/-- One dim iteration of the fused-pair registration loop (source lines
1108–1123): record the child's three loop-bound names for capture, the
three substitutions (child min/max become the parent's loop variable, child
extent becomes the constant 1), and the parent's three loop-bound names for
capture. -/
def registerPairDimStep (p : FusedPair) (dims : List Dim)
    (st2 : FuseRegState) (i : Nat) : FuseRegState :=
  let dimv := (dims.getD i default).var
  let var := p.func2 ++ ".s" ++ toString p.stage2 ++ "." ++ dimv
  let bounds := mapEmplace st2.bounds (var ++ ".loop_min") none
  let bounds := mapEmplace bounds (var ++ ".loop_max") none
  let bounds := mapEmplace bounds (var ++ ".loop_extent") none
  let varOrig := p.func1 ++ ".s" ++ toString p.stage1 ++ "." ++ dimv
  let val := Expr.Var Ty.int32 varOrig
  let repl := mapEmplace st2.replacements (var ++ ".loop_min") val
  let repl := mapEmplace repl (var ++ ".loop_max") val
  let repl := mapEmplace repl (var ++ ".loop_extent") (Expr.IntImm 1)
  let bounds := mapEmplace bounds (varOrig ++ ".loop_min") none
  let bounds := mapEmplace bounds (varOrig ++ ".loop_max") none
  let bounds := mapEmplace bounds (varOrig ++ ".loop_extent") none
  { startFuse := st2.startFuse, bounds := bounds, replacements := repl }

/-- Registration of one fused pair (source lines 1096–1124): record the
child bounds to capture and the substitutions redirecting the child's loop
bounds to the parent's loop variable. -/
def registerPair (env : Env) (skip : List (String × Bool)) (dims : List Dim)
    (st : FuseRegState) (p : FusedPair) : Option FuseRegState :=
  if (envFind env p.func2).isNone then some st
  else
    match mapFind skip p.func2 with
    | none => none
    | some true => some st
    | some false =>
      match dims.findIdx? (fun d => varNameMatch d.var p.varName) with
      | none => none
      | some idx =>
        let st := { st with startFuse := min st.startFuse idx }
        some ((idxRange idx (dims.length - 1)).foldl
          (registerPairDimStep p dims) st)

/-- Registration over all fused pairs of a definition, left to right. -/
def registerPairs (env : Env) (skip : List (String × Bool)) (dims : List Dim)
    (st : FuseRegState) : List FusedPair → Option FuseRegState
  | [] => some st
  | p :: rest =>
    match registerPair env skip dims st p with
    | none => none
    | some st1 => registerPairs env skip dims st1 rest

/-- `InjectGroupRealization::build_produce_definition` (source lines
1075–1137): compute `start_fuse`, register the fused-pair bounds, build the
stage's loop nest, and strip its outer lets into `add_lets`. -/
def buildProduceDefinition (ext : Externals) (env : Env)
    (skip : List (String × Bool)) (f : Function) (prefixS : String)
    (dfn : Definition) (isUpdate : Bool) (bounds : List (String × Option Expr))
    (repl : List (String × Expr)) (addLets : List (String × Expr)) :
    Option (List (String × Option Expr) × List (String × Expr) ×
            List (String × Expr) × Stmt) :=
  let dims := dfn.schedule.dims
  match computeStartFuse skip dims dfn.schedule.fuseLevel with
  | none => none
  | some sf0 =>
    match registerPairs env skip dims
        ⟨sf0, bounds, repl⟩ dfn.schedule.fusedPairs with
    | none => none
    | some st =>
      let produce := buildProvideLoopNest ext f.name prefixS (st.startFuse : Int)
        f.args dfn isUpdate
      let dug := digLets produce
      some (st.bounds, st.replacements, addLets ++ dug.1, dug.2)

/-! ## Transitive fused-pair dependence (source lines 1139–1182) -/

mutual

/-- `collect_all_dependence_helper` (source lines 1139–1159); `fuel` bounds
the recursion depth (the C++ recursion terminates because `visited`
grows). -/
def collectDepHelper (env : Env) (skip : List (String × Bool)) :
    Nat → String → Definition → FusedPair → List FusedPair → List String →
      Option (List FusedPair × List String)
  | 0, _, _, _, _, _ => none
  | fuel + 1, prefixS, dfn, p, dep, visited =>
    collectDepLoop env skip fuel dfn.schedule.fusedPairs (dep ++ [p])
      (prefixS :: visited)
termination_by fuel _ _ _ _ _ => (fuel, 0)

/-- The loop over a schedule's fused pairs shared by
`collect_all_dependence` and its helper (source lines 1144–1158 and
1166–1180). -/
def collectDepLoop (env : Env) (skip : List (String × Bool)) :
    Nat → List FusedPair → List FusedPair → List String →
      Option (List FusedPair × List String)
  | _, [], dep, visited => some (dep, visited)
  | fuel, pair :: rest, dep, visited =>
    match mapFind skip pair.func2 with
    | none => none
    | some true => collectDepLoop env skip fuel rest dep visited
    | some false =>
      match envFind env pair.func2 with
      | none => collectDepLoop env skip fuel rest dep visited
      | some f =>
        let prefix2 := pair.func2 ++ ".s" ++ toString pair.stage2 ++ "." ++
          pair.varName
        if visited.contains prefix2 then
          collectDepLoop env skip fuel rest dep visited
        else
          match (if pair.stage2 = 0 then some f.definition
                 else f.updates.get? (pair.stage2 - 1)) with
          | none => none
          | some def2 =>
            match collectDepHelper env skip fuel prefix2 def2 pair dep visited with
            | none => none
            | some (dep2, vis2) => collectDepLoop env skip fuel rest dep2 vis2
termination_by fuel pairs _ _ => (fuel, pairs.length + 1)

end

/-- `collect_all_dependence` (source lines 1162–1182). -/
def collectAllDependence (fuel : Nat) (env : Env)
    (skip : List (String × Bool)) (dfn : Definition) : Option (List FusedPair) :=
  (collectDepLoop env skip fuel dfn.schedule.fusedPairs [] []).map Prod.fst

/-! ## Union-bound propagation (source lines 1184–1242) -/

/-- The parent loop-variable name targeted by the union for dim `i`
(`prefix` is always the group parent's `<name>.s0`, source line 1188). -/
@[reducible] def unionParentVar (prefixS : String) (dims : List Dim) (i : Nat) :
    String :=
  prefixS ++ "." ++ (dims.getD i default).var

/-- One dim iteration of the union loop (source lines 1205–1235): read the
child's captured bounds, the current parent binding (from the replacement
map if already unioned, else from the captures), and assign the unioned,
simplified bounds.  `none` models an assertion failure or the use of an
undefined captured expression. -/
def unionDimStep (simplify : Expr → Expr) (p : FusedPair) (prefixS : String)
    (dims : List Dim) (bounds : List (String × Option Expr))
    (repl2 : List (String × Expr)) (i : Nat) :
    Option (List (String × Expr)) :=
  let dimv := (dims.getD i default).var
  let var2 := p.func2 ++ ".s" ++ toString p.stage2 ++ "." ++ dimv
  -- the child bounds must have been captured (asserts, lines 1207–1209)
  match mapFind bounds (var2 ++ ".loop_min"),
        mapFind bounds (var2 ++ ".loop_max"),
        mapFind bounds (var2 ++ ".loop_extent") with
  | some min2q, some max2q, some _ =>
    -- the captured min/max are used and must be defined
    (match min2q, max2q with
     | some min2, some max2 =>
       let var1 := prefixS ++ "." ++ dimv
       -- the parent bounds must also be tracked (asserts, lines 1215–1217)
       (match mapFind bounds (var1 ++ ".loop_min"),
              mapFind bounds (var1 ++ ".loop_max"),
              mapFind bounds (var1 ++ ".loop_extent") with
        | some pmin, some pmax, some _ =>
          let acc : Option (Expr × Expr) :=
            match mapFind repl2 (var1 ++ ".loop_min") with
            | none =>
              -- first union into this parent var: read the captures
              (match pmin, pmax with
               | some m1, some x1 => some (m1, x1)
               | _, _ => none)
            | some m1 =>
              (match mapFind repl2 (var1 ++ ".loop_max") with
               | some x1 => some (m1, x1)
               | none => none)
          (match acc with
           | none => none
           | some (min1, max1) =>
             let newMin := simplify (Expr.Min min1 min2)
             let newMax := simplify (Expr.Max max1 max2)
             let repl3 := mapAssign repl2 (var1 ++ ".loop_min") newMin
             let repl3 := mapAssign repl3 (var1 ++ ".loop_max") newMax
             some (mapAssign repl3 (var1 ++ ".loop_extent")
               (simplify (Expr.Sub (Expr.Add newMax (Expr.IntImm 1)) newMin))))
        | _, _, _ => none)
     | _, _ => none)
  | _, _, _ => none

/-- The per-pair union step of `replace_parent_bound_with_union_bound`
(source lines 1197–1236): union the child's captured bounds into the
parent's replacement bindings, for every dim from the matched var up to but
excluding `__outermost`. -/
def unionPairStep (simplify : Expr → Expr) (skip : List (String × Bool))
    (prefixS : String) (dims : List Dim) (bounds : List (String × Option Expr))
    (repl : List (String × Expr)) (p : FusedPair) :
    Option (List (String × Expr)) :=
  match mapFind skip p.func2 with
  | none => none
  | some true => some repl
  | some false =>
    match dims.findIdx? (fun d => varNameMatch d.var p.varName) with
    | none => none
    | some idx =>
      (idxRange idx (dims.length - 1)).foldlM
        (unionDimStep simplify p prefixS dims bounds) repl

/-- `replace_parent_bound_with_union_bound` (source lines 1186–1242). -/
def replaceParentBoundWithUnionBound (simplify : Expr → Expr) (fuel : Nat)
    (env : Env) (skip : List (String × Bool)) (f : Function) (produce : Stmt)
    (bounds : List (String × Option Expr)) : Option Stmt :=
  let prefixS := f.name ++ ".s0"
  let dfn := f.definition
  let dims := dfn.schedule.dims
  match collectAllDependence fuel env skip dfn with
  | none => none
  | some dependence =>
    match dependence.foldlM
        (unionPairStep simplify skip prefixS dims bounds) [] with
    | none => none
    | some repl =>
      (substituteBoundsStmt simplify repl [] produce).map Prod.snd

/-- The skip mask of `build_pipeline_group` (source lines 982–991): a group
member is skipped when it is neither used in the statement nor an
output. -/
def computeSkipMask (group : List Function) (isOutputList : List Bool)
    (s : Stmt) : List (String × Bool) :=
  (group.zip isOutputList).map fun gi =>
    (gi.1.name, !(functionIsUsedInStmt gi.1 s || gi.2))

/-! ## The legality analyzer `ComputeLegalSchedules` (source lines 1326–1405) -/

/-- `ComputeLegalSchedules::Site`. -/
structure Site where
  isParallel : Bool
  loopLevel : LoopLevel
deriving DecidableEq, Repr

instance : Inhabited Site := ⟨⟨false, LoopLevel.root⟩⟩

/-- The analyzer's mutable state: the `found` flag and the accumulated
`sites_allowed`. -/
structure CLSState where
  found : Bool
  sitesAllowed : List Site
deriving DecidableEq, Repr

/-- `ComputeLegalSchedules::register_use` (source lines 1369–1388): the
first use records the whole stack; later uses keep each site of the
current stack that matches some already-allowed site. -/
def registerUse (stack : List Site) (st : CLSState) : CLSState :=
  if !st.found then { found := true, sitesAllowed := stack }
  else
    { found := true,
      sitesAllowed := stack.filter fun s1 =>
        st.sitesAllowed.any fun s2 => LoopLevel.matchLevel s1.loopLevel s2.loopLevel }

/-- The site of a `For` loop (source lines 1347–1363): parse
`<func>.….<var>`, an empty func prefix denoting the root loop; `none`
models the `internal_assert`s (a dot-free name, an empty var on the root
loop, or a function absent from the environment). -/
def forLoopSite (env : Env) (name : String) (ft : ForType) : Option Site :=
  match name.data.findIdx? (fun c => c = '.'), rfindIdx '.' name.data with
  | some firstDot, some lastDot =>
    let func := substrTake name firstDot
    let var := substrDrop name (lastDot + 1)
    let levelQ : Option LoopLevel :=
      if func = "" then
        if var = "" then none else some LoopLevel.root
      else
        match envFind env func with
        | none => none
        | some _ => some (LoopLevel.level func var)
    match levelQ with
    | none => none
    | some lv =>
      some ⟨ft = ForType.Parallel || ft = ForType.Vectorized, lv⟩
  | _, _ => none

mutual

/-- The analyzer's expression traversal: `visit(Call)` recurses into the
arguments and then registers a use of the subject function;
`visit(Variable)` registers a reference to its `.buffer` handles (source
lines 1390–1404). -/
def clsExpr (fname : String) (stack : List Site) (st : CLSState) :
    Expr → CLSState
  | Expr.IntImm _ => st
  | Expr.StringImm _ => st
  | Expr.Var ty n =>
      if ty = Ty.handle && strStarts n (fname ++ ".") && strEnds n ".buffer" then
        registerUse stack st
      else st
  | Expr.Add a b => clsExpr fname stack (clsExpr fname stack st a) b
  | Expr.Sub a b => clsExpr fname stack (clsExpr fname stack st a) b
  | Expr.Min a b => clsExpr fname stack (clsExpr fname stack st a) b
  | Expr.Max a b => clsExpr fname stack (clsExpr fname stack st a) b
  | Expr.LE a b => clsExpr fname stack (clsExpr fname stack st a) b
  | Expr.GE a b => clsExpr fname stack (clsExpr fname stack st a) b
  | Expr.EQE a b => clsExpr fname stack (clsExpr fname stack st a) b
  | Expr.And a b => clsExpr fname stack (clsExpr fname stack st a) b
  | Expr.Call _ n args _ =>
      let st1 := clsExprList fname stack st args
      if n = fname then registerUse stack st1 else st1

/-- List version of `clsExpr`. -/
def clsExprList (fname : String) (stack : List Site) (st : CLSState) :
    List Expr → CLSState
  | [] => st
  | e :: es => clsExprList fname stack (clsExpr fname stack st e) es

end

/-- The analyzer's statement traversal (`visit(For)` at source lines
1344–1367 plus the default visitor recursion). -/
def clsStmt (env : Env) (fname : String) (stack : List Site) (st : CLSState) :
    Stmt → Option CLSState
  | Stmt.For name mn ext2 ft _dev body =>
    let st1 := clsExpr fname stack (clsExpr fname stack st mn) ext2
    (match forLoopSite env name ft with
     | none => none
     | some site => clsStmt env fname (stack ++ [site]) st1 body)
  | Stmt.Provide _ values args =>
    some (clsExprList fname stack (clsExprList fname stack st values) args)
  | Stmt.LetStmt _ v body =>
    clsStmt env fname stack (clsExpr fname stack st v) body
  | Stmt.IfThenElse c t none =>
    (match clsStmt env fname stack (clsExpr fname stack st c) t with
     | none => none
     | some st1 => some st1)
  | Stmt.IfThenElse c t (some es) =>
    (match clsStmt env fname stack (clsExpr fname stack st c) t with
     | none => none
     | some st1 => clsStmt env fname stack st1 es)
  | Stmt.Block a b =>
    (match clsStmt env fname stack st a with
     | none => none
     | some st1 => clsStmt env fname stack st1 b)
  | Stmt.Realize _ _ bds c body =>
    let st1 := bds.foldl
      (fun acc r => clsExpr fname stack (clsExpr fname stack acc r.1) r.2) st
    clsStmt env fname stack (clsExpr fname stack st1 c) body
  | Stmt.ProducerConsumer _ _ body => clsStmt env fname stack st body
  | Stmt.AssertStmt c m =>
    some (clsExpr fname stack (clsExpr fname stack st c) m)
  | Stmt.Evaluate e => some (clsExpr fname stack st e)

/-- Run the legality analyzer over a statement (the `sites_allowed` of a
fresh `ComputeLegalSchedules` after `s.accept`). -/
def computeLegalSchedules (env : Env) (f : Function) (s : Stmt) :
    Option (List Site) :=
  (clsStmt env f.name [] ⟨false, []⟩ s).map CLSState.sitesAllowed

/-! ## Recorded use stacks (specification side, §4.8)

The stacks of enclosing loops recorded at each use, in traversal order;
the claims about the analyzer compare its result with functions of these
stacks. -/

mutual

/-- The use stacks recorded while traversing an expression. -/
def useStacksExpr (fname : String) (stack : List Site) :
    Expr → List (List Site)
  | Expr.IntImm _ => []
  | Expr.StringImm _ => []
  | Expr.Var ty n =>
      if ty = Ty.handle && strStarts n (fname ++ ".") && strEnds n ".buffer" then
        [stack]
      else []
  | Expr.Add a b => useStacksExpr fname stack a ++ useStacksExpr fname stack b
  | Expr.Sub a b => useStacksExpr fname stack a ++ useStacksExpr fname stack b
  | Expr.Min a b => useStacksExpr fname stack a ++ useStacksExpr fname stack b
  | Expr.Max a b => useStacksExpr fname stack a ++ useStacksExpr fname stack b
  | Expr.LE a b => useStacksExpr fname stack a ++ useStacksExpr fname stack b
  | Expr.GE a b => useStacksExpr fname stack a ++ useStacksExpr fname stack b
  | Expr.EQE a b => useStacksExpr fname stack a ++ useStacksExpr fname stack b
  | Expr.And a b => useStacksExpr fname stack a ++ useStacksExpr fname stack b
  | Expr.Call _ n args _ =>
      useStacksExprList fname stack args ++ (if n = fname then [stack] else [])

/-- List version of `useStacksExpr`. -/
def useStacksExprList (fname : String) (stack : List Site) :
    List Expr → List (List Site)
  | [] => []
  | e :: es => useStacksExpr fname stack e ++ useStacksExprList fname stack es

end

/-- The use stacks recorded while traversing a statement, with the same
failure conditions as the analyzer. -/
def useStacksStmt (env : Env) (fname : String) (stack : List Site) :
    Stmt → Option (List (List Site))
  | Stmt.For name mn ext2 ft _dev body =>
    let us1 := useStacksExpr fname stack mn ++ useStacksExpr fname stack ext2
    (match forLoopSite env name ft with
     | none => none
     | some site =>
       match useStacksStmt env fname (stack ++ [site]) body with
       | none => none
       | some us2 => some (us1 ++ us2))
  | Stmt.Provide _ values args =>
    some (useStacksExprList fname stack values ++ useStacksExprList fname stack args)
  | Stmt.LetStmt _ v body =>
    (match useStacksStmt env fname stack body with
     | none => none
     | some us => some (useStacksExpr fname stack v ++ us))
  | Stmt.IfThenElse c t none =>
    (match useStacksStmt env fname stack t with
     | none => none
     | some us1 => some (useStacksExpr fname stack c ++ us1))
  | Stmt.IfThenElse c t (some es) =>
    (match useStacksStmt env fname stack t with
     | none => none
     | some us1 =>
       match useStacksStmt env fname stack es with
       | none => none
       | some us2 => some (useStacksExpr fname stack c ++ us1 ++ us2))
  | Stmt.Block a b =>
    (match useStacksStmt env fname stack a with
     | none => none
     | some us1 =>
       match useStacksStmt env fname stack b with
       | none => none
       | some us2 => some (us1 ++ us2))
  | Stmt.Realize _ _ bds c body =>
    let us1 := bds.foldl
      (fun acc r => acc ++ useStacksExpr fname stack r.1 ++ useStacksExpr fname stack r.2) []
    (match useStacksStmt env fname stack body with
     | none => none
     | some us2 => some (us1 ++ useStacksExpr fname stack c ++ us2))
  | Stmt.ProducerConsumer _ _ body => useStacksStmt env fname stack body
  | Stmt.AssertStmt c m =>
    some (useStacksExpr fname stack c ++ useStacksExpr fname stack m)
  | Stmt.Evaluate e => some (useStacksExpr fname stack e)

/-- Fold `register_use` over a list of recorded stacks. -/
def foldRegister (st : CLSState) (stackList : List (List Site)) : CLSState :=
  stackList.foldl (fun s stk => registerUse stk s) st

/-- The claim's "longest common prefix" of two site stacks, outermost
first, matching sites via `LoopLevel.match`. -/
def lcp2 : List Site → List Site → List Site
  | [], _ => []
  | _, [] => []
  | x :: xs, y :: ys =>
    if LoopLevel.matchLevel x.loopLevel y.loopLevel then x :: lcp2 xs ys else []

/-- The claim's longest common prefix of all recorded stacks. -/
def specLCP : List (List Site) → List Site
  | [] => []
  | s :: rest => rest.foldl lcp2 s

/-! ## Placement validation core (source lines 1606–1651) -/

/-- The scan of `validate_schedule` over the legal sites (source lines
1610–1622). -/
structure LegalityScan where
  storeOk : Bool
  computeOk : Bool
  storeIdx : Nat
  computeIdx : Nat
deriving DecidableEq, Repr

/-- One site of the index scan (source lines 1613–1623). -/
def legalityStep (storeAt computeAt : LoopLevel) (acc : LegalityScan)
    (p : Nat × Site) : LegalityScan :=
  let acc1 :=
    if LoopLevel.matchLevel p.2.loopLevel storeAt then
      { acc with storeOk := true, storeIdx := p.1 }
    else acc
  if LoopLevel.matchLevel p.2.loopLevel computeAt then
    { acc1 with computeOk := acc1.storeOk, computeIdx := p.1 }
  else acc1

/-- The index scan: the last site matching the store level wins, and the
compute level is accepted only if a store match was already seen. -/
def legalityScan (sites : List Site) (storeAt computeAt : LoopLevel) :
    LegalityScan :=
  sites.enum.foldl (legalityStep storeAt computeAt) ⟨false, false, 0, 0⟩

/-- The placement part of `validate_schedule` for a non-inline,
non-output function (source lines 1606–1651): `true` iff no user error is
raised.  The race check walks the sites strictly between the store match
and the compute match, compute side included (lines 1627–1637). -/
def validateLegalityCore (sites : List Site) (storeAt computeAt : LoopLevel) :
    Bool :=
  let scan := legalityScan sites storeAt computeAt
  if scan.storeOk && scan.computeOk then
    !((idxRange (scan.storeIdx + 1) (scan.computeIdx + 1)).any fun i =>
        (sites.getD i default).isParallel)
  else false

/-- The placement validation of a non-inline, non-output function against
a skeleton statement: run the analyzer, then check the placement. -/
def validateSchedulePlacement (env : Env) (f : Function) (s : Stmt) :
    Option Bool :=
  (computeLegalSchedules env f s).map fun sites =>
    validateLegalityCore sites f.schedule.storeLevel f.schedule.computeLevel

/-! ## The final `__outermost` stripper (source lines 1871–1893) -/

/-- `RemoveLoopsOverOutermost`: remove `For` loops over `.__outermost`
whose simplified extent is one with no device API, substituting their min;
remove the `.__outermost.loop_*` bound lets, substituting their simplified
value.  The `fuel` argument is a structural termination bound on the
statement size: a substitution step preserves its body's size
(`stmtSize_substituteStmt`), so seeding `stmtSize` fuel makes the bound
never run out (`rlooGo_mono`, `removeLoopsOverOutermost`). -/
def rlooGo (simplify : Expr → Expr) : Nat → Stmt → Stmt
  | 0, s => s
  | fuel + 1, s =>
    match s with
    | Stmt.For name mn ext2 ft dev body =>
      if strEnds name ".__outermost" && isOne (simplify ext2) &&
          dev = DeviceAPI.NoneAPI then
        rlooGo simplify fuel (substituteStmt name mn body)
      else
        Stmt.For name mn ext2 ft dev (rlooGo simplify fuel body)
    | Stmt.LetStmt name v body =>
      if strEnds name ".__outermost.loop_extent" ||
          strEnds name ".__outermost.loop_min" ||
          strEnds name ".__outermost.loop_max" then
        rlooGo simplify fuel (substituteStmt name (simplify v) body)
      else
        Stmt.LetStmt name v (rlooGo simplify fuel body)
    | Stmt.Provide n values args => Stmt.Provide n values args
    | Stmt.IfThenElse c t e =>
      Stmt.IfThenElse c (rlooGo simplify fuel t)
        (match e with
         | some s2 => some (rlooGo simplify fuel s2)
         | none => none)
    | Stmt.Block a b =>
      Stmt.Block (rlooGo simplify fuel a) (rlooGo simplify fuel b)
    | Stmt.Realize n tys bds c body =>
      Stmt.Realize n tys bds c (rlooGo simplify fuel body)
    | Stmt.ProducerConsumer n ip body =>
      Stmt.ProducerConsumer n ip (rlooGo simplify fuel body)
    | Stmt.AssertStmt c m => Stmt.AssertStmt c m
    | Stmt.Evaluate e => Stmt.Evaluate e

/-- The stripper's result does not depend on the fuel once the fuel covers
the statement size. -/
theorem rlooGo_mono (simplify : Expr → Expr) :
    ∀ (n : Nat) (s : Stmt) (m : Nat), stmtSize s ≤ n → stmtSize s ≤ m →
      rlooGo simplify n s = rlooGo simplify m s
  | 0, s, m, h1, _ => absurd h1 (by have := stmtSize_pos s; omega)
  | n + 1, s, 0, _, h2 => absurd h2 (by have := stmtSize_pos s; omega)
  | n + 1, s, m + 1, h1, h2 => by
    match s with
    | Stmt.For name mn ext2 ft dev body =>
      simp only [stmtSize] at h1 h2
      simp only [rlooGo]
      split_ifs
      · exact rlooGo_mono simplify n (substituteStmt name mn body) m
          (by rw [stmtSize_substituteStmt]; omega)
          (by rw [stmtSize_substituteStmt]; omega)
      · rw [rlooGo_mono simplify n body m (by omega) (by omega)]
    | Stmt.LetStmt name v body =>
      simp only [stmtSize] at h1 h2
      simp only [rlooGo]
      split_ifs
      · exact rlooGo_mono simplify n (substituteStmt name (simplify v) body) m
          (by rw [stmtSize_substituteStmt]; omega)
          (by rw [stmtSize_substituteStmt]; omega)
      · rw [rlooGo_mono simplify n body m (by omega) (by omega)]
    | Stmt.Provide nm values args => simp only [rlooGo]
    | Stmt.IfThenElse c t e =>
      cases e with
      | none =>
        simp only [stmtSize] at h1 h2
        simp only [rlooGo]
        rw [rlooGo_mono simplify n t m (by omega) (by omega)]
      | some s2 =>
        have hp2 := stmtSize_pos s2
        have hpt := stmtSize_pos t
        simp only [stmtSize] at h1 h2
        simp only [rlooGo]
        rw [rlooGo_mono simplify n t m (by omega) (by omega),
          rlooGo_mono simplify n s2 m (by omega) (by omega)]
    | Stmt.Block a b =>
      have hpa := stmtSize_pos a
      have hpb := stmtSize_pos b
      simp only [stmtSize] at h1 h2
      simp only [rlooGo]
      rw [rlooGo_mono simplify n a m (by omega) (by omega),
        rlooGo_mono simplify n b m (by omega) (by omega)]
    | Stmt.Realize nm tys bds c body =>
      simp only [stmtSize] at h1 h2
      simp only [rlooGo]
      rw [rlooGo_mono simplify n body m (by omega) (by omega)]
    | Stmt.ProducerConsumer nm ip body =>
      simp only [stmtSize] at h1 h2
      simp only [rlooGo]
      rw [rlooGo_mono simplify n body m (by omega) (by omega)]
    | Stmt.AssertStmt c msg => simp only [rlooGo]
    | Stmt.Evaluate e2 => simp only [rlooGo]

/-- `RemoveLoopsOverOutermost` (source lines 1871–1893), with the fuel
seeded by the statement size. -/
def removeLoopsOverOutermost (simplify : Expr → Expr) (s : Stmt) : Stmt :=
  rlooGo simplify (stmtSize s) s

/-! ## Observations on `IfThenElse` chains -/

/-- Whether the top node is a `LetStmt`. -/
def isLetTop : Stmt → Bool
  | Stmt.LetStmt _ _ _ => true
  | _ => false

/-- The conditions along the else-chain of `IfThenElse` nodes, outermost
first. -/
def iteElseConds : Stmt → List Expr
  | Stmt.IfThenElse c _ (some e) => c :: iteElseConds e
  | _ => []

/-- The then-branches along the else-chain, outermost first. -/
def iteThenBranches : Stmt → List Stmt
  | Stmt.IfThenElse _ t (some e) => t :: iteThenBranches e
  | _ => []

/-- The innermost fallthrough of the else-chain. -/
def iteElseBase : Stmt → Stmt
  | Stmt.IfThenElse _ _ (some e) => iteElseBase e
  | s => s

theorem isLetTop_foldl {α : Type} (f : Stmt → α → Stmt)
    (hf : ∀ st a, isLetTop st = true → isLetTop (f st a) = true) :
    ∀ (l : List α) (st : Stmt), isLetTop st = true →
      isLetTop (l.foldl f st) = true := by
  intro l
  induction l with
  | nil => intro st h; simpa using h
  | cons a l ih => intro st h; exact ih _ (hf st a h)

theorem isLetTop_helperOutermostLets (p : String) (st : Stmt) :
    isLetTop (helperOutermostLets p st) = true := rfl

theorem isLetTop_helperDimLets (p : String) (dims : List String) (st : Stmt)
    (h : isLetTop st = true) : isLetTop (helperDimLets p dims st) = true := by
  unfold helperDimLets
  apply isLetTop_foldl
  · intro st2 a _
    rfl
  · exact h

theorem isLetTop_helperRvarLets (p : String) (rv : List ReductionVariable)
    (st : Stmt) (h : isLetTop st = true) :
    isLetTop (helperRvarLets p rv st) = true := by
  unfold helperRvarLets
  apply isLetTop_foldl
  · intro st2 a _
    rfl
  · exact h

/-- The loop-nest helper always produces a statement whose top node is one
of its outer bound `LetStmt`s — in particular never an `IfThenElse`. -/
theorem isLetTop_buildProvideLoopNestHelper (ext : Externals)
    (funcName prefixS : String) (startFuse : Int) (dims : List String)
    (site values predicates : List Expr) (s : Schedule) (isUpdate : Bool) :
    isLetTop (buildProvideLoopNestHelper ext funcName prefixS startFuse dims
      site values predicates s isUpdate) = true := by
  unfold buildProvideLoopNestHelper
  apply isLetTop_helperRvarLets
  apply isLetTop_helperDimLets
  apply isLetTop_helperOutermostLets

theorem iteElseConds_of_isLetTop (s : Stmt) (h : isLetTop s = true) :
    iteElseConds s = [] := by
  cases s <;> simp [isLetTop] at h ⊢ <;> rfl

theorem iteThenBranches_of_isLetTop (s : Stmt) (h : isLetTop s = true) :
    iteThenBranches s = [] := by
  cases s <;> simp [isLetTop] at h ⊢ <;> rfl

theorem iteElseBase_of_isLetTop (s : Stmt) (h : isLetTop s = true) :
    iteElseBase s = s := by
  cases s <;> simp [isLetTop] at h ⊢ <;> rfl

/-- Structure of the specialization chain over any base whose top is a
`LetStmt`. -/
theorem specializationChain_structure (ext : Externals)
    (funcName prefixS : String) (startFuse : Int) (dims : List String)
    (isUpdate : Bool) :
    ∀ (specs : List (Expr × Definition)) (base : Stmt),
      isLetTop base = true →
      iteElseConds (buildSpecializationChain ext funcName prefixS startFuse
          dims isUpdate specs base) = specs.map Prod.fst ∧
      iteThenBranches (buildSpecializationChain ext funcName prefixS startFuse
          dims isUpdate specs base) = specs.map
            (fun sp => buildProvideLoopNest ext funcName prefixS startFuse dims
              sp.2 isUpdate) ∧
      iteElseBase (buildSpecializationChain ext funcName prefixS startFuse
          dims isUpdate specs base) = base
  | [], base, h => by
    refine ⟨?_, ?_, ?_⟩
    · simpa [buildSpecializationChain] using iteElseConds_of_isLetTop base h
    · simpa [buildSpecializationChain] using iteThenBranches_of_isLetTop base h
    · simpa [buildSpecializationChain] using iteElseBase_of_isLetTop base h
  | (c, d) :: rest, base, h => by
    have ih := specializationChain_structure ext funcName prefixS startFuse dims
      isUpdate rest base h
    refine ⟨?_, ?_, ?_⟩
    · simp [buildSpecializationChain, iteElseConds, ih.1]
    · simp [buildSpecializationChain, iteThenBranches, ih.2.1]
    · simp [buildSpecializationChain, iteElseBase, ih.2.2]

/-- C5: for a definition with `k` specializations, `build_provide_loop_nest`
returns a chain of exactly `k` `IfThenElse` nodes: the chain's conditions,
outermost first, are the specializations' conditions in source order (so
specialization 0 is the outermost test and later specializations wrap
earlier ones via the reverse iteration), each then-branch is the
recursively built alternative, and the innermost fallthrough is the base
(non-specialized) loop nest built by the helper. -/
theorem c5_specialization_chain (ext : Externals) (funcName prefixS : String)
    (startFuse : Int) (dims : List String) (d : Definition) (isUpdate : Bool) :
    iteElseConds (buildProvideLoopNest ext funcName prefixS startFuse dims d isUpdate)
        = d.specializations.map Prod.fst ∧
      iteThenBranches (buildProvideLoopNest ext funcName prefixS startFuse dims d isUpdate)
        = d.specializations.map
            (fun sp => buildProvideLoopNest ext funcName prefixS startFuse dims
              sp.2 isUpdate) ∧
      iteElseBase (buildProvideLoopNest ext funcName prefixS startFuse dims d isUpdate)
        = buildProvideLoopNestHelper ext funcName prefixS startFuse dims
            (d.args.map (qualify prefixS)) (d.values.map (qualify prefixS))
            d.splitPredicate d.schedule isUpdate := by
  cases d with
  | mk isInit args values splitPred sched specs =>
    have hbase := isLetTop_buildProvideLoopNestHelper ext funcName prefixS
      startFuse dims (args.map (qualify prefixS)) (values.map (qualify prefixS))
      splitPred sched isUpdate
    have h := specializationChain_structure ext funcName prefixS startFuse dims
      isUpdate specs (buildProvideLoopNestHelper ext funcName prefixS startFuse
        dims (args.map (qualify prefixS)) (values.map (qualify prefixS))
        splitPred sched isUpdate) hbase
    simpa [buildProvideLoopNest, Definition.specializations, Definition.args,
      Definition.values, Definition.splitPredicate, Definition.schedule] using h

/-! ## C7: explicit-bound assertions -/

/-- Specification-side description of the assertion emitted for one user
bound of one stage (claim C7 / spec §4.5): for a bound with a defined
extent, an `AssertStmt` whose condition is
`(user_min ≤ inferred_min) ∧ (user_min + extent − 1 ≥ inferred_max)` (the
upper bound built as `(extent + user_min) − 1` as in the source) and whose
failure message calls `halide_error_explicit_bounds_too_small`; `none` for
a modulus-only bound with no extent. -/
def c7AssertForBound (fname : String) (stage : Nat) (b : Bound) : Option Stmt :=
  match b.extent with
  | none => none
  | some ext2 =>
    let prefixS := fname ++ ".s" ++ toString stage ++ "." ++ b.var
    let minVar := Expr.Var Ty.int32 (prefixS ++ ".min_unbounded")
    let maxVar := Expr.Var Ty.int32 (prefixS ++ ".max_unbounded")
    let userMin := b.min.getD minVar
    let userMax := Expr.Sub (Expr.Add ext2 userMin) (Expr.IntImm 1)
    some (Stmt.AssertStmt
      (Expr.And (Expr.LE userMin minVar) (Expr.GE userMax maxVar))
      (Expr.Call Ty.int32 "halide_error_explicit_bounds_too_small"
        [Expr.StringImm b.var, Expr.StringImm fname,
         userMin, userMax, minVar, maxVar] false))

/-- All assertions for a function, over stages `0..#updates` and every
user bound, in emission order. -/
def c7Asserts (f : Function) : List Stmt :=
  (List.range (f.updates.length + 1)).bind fun stage =>
    f.schedule.bounds.filterMap (c7AssertForBound f.name stage)

theorem injectBoundsStep_eq (fname : String) (stage : Nat) (bd : Stmt)
    (b : Bound) :
    injectBoundsStep fname stage bd b =
      match c7AssertForBound fname stage b with
      | none => bd
      | some a => Stmt.Block a bd := by
  cases hb : b.extent <;> simp [injectBoundsStep, c7AssertForBound, hb]

theorem c7_inner_fold (fname : String) (stage : Nat) :
    ∀ (bounds : List Bound) (bd : Stmt),
      bounds.foldl (injectBoundsStep fname stage) bd =
        (bounds.filterMap (c7AssertForBound fname stage)).foldl
          (fun acc a => Stmt.Block a acc) bd := by
  intro bounds
  induction bounds with
  | nil => intro bd; rfl
  | cons b rest ih =>
    intro bd
    rw [List.foldl_cons, injectBoundsStep_eq]
    cases hb : c7AssertForBound fname stage b <;>
      simp [hb, ih, List.filterMap_cons]

theorem c7_outer_fold (fname : String) (bounds : List Bound) :
    ∀ (stageList : List Nat) (body : Stmt),
      stageList.foldl (fun bd stage => bounds.foldl (injectBoundsStep fname stage) bd) body =
        (stageList.bind fun stage =>
          bounds.filterMap (c7AssertForBound fname stage)).foldl
            (fun acc a => Stmt.Block a acc) body := by
  intro stageList
  induction stageList with
  | nil => intro body; rfl
  | cons st rest ih =>
    intro body
    rw [List.foldl_cons, c7_inner_fold]
    simp only [List.bind, List.flatMap_cons, List.foldl_append]
    rw [ih]

/-- C7: for every function, stage index `0..#updates` and user bound with
a defined extent, the realization built by the injector is preceded by the
`AssertStmt` whose condition is
`(user_min ≤ inferred_min) ∧ ((extent + user_min) − 1 ≥ inferred_max)` and
whose message calls `halide_error_explicit_bounds_too_small`; bounds with
no extent (modulus-only alignments) produce no assertion, and with the
`NoAsserts` target feature no assertion is emitted at all. -/
theorem c7_explicit_bound_assertions (P : InjParams) (s : Stmt) :
    buildRealize P s =
      (let realized :=
        if P.isOutput then s
        else
          Stmt.Realize P.func.name P.func.outputTypes
            (P.func.args.map fun arg =>
              (Expr.Var Ty.int32 (P.func.name ++ "." ++ arg ++ ".min_realized"),
               Expr.Var Ty.int32 (P.func.name ++ "." ++ arg ++ ".extent_realized")))
            constTrue s
       if P.target.noAsserts then realized
       else (c7Asserts P.func).foldl (fun acc a => Stmt.Block a acc) realized) := by
  unfold buildRealize
  cases hna : P.target.noAsserts <;> cases ho : P.isOutput <;>
    simp [injectExplicitBounds, c7Asserts, c7_outer_fold]

/-! ## C4: the fusion-redirection level test -/

theorem splitString_three (fn stageStr vr : String) (hfn : ('.') ∉ fn.data)
    (hst : ('.') ∉ stageStr.data) (hvr : ('.') ∉ vr.data) :
    splitString (fn ++ ".s" ++ stageStr ++ "." ++ vr) '.' =
      [fn, "s" ++ stageStr, vr] := by
  unfold splitString
  have h1 : (fn ++ ".s" ++ stageStr ++ "." ++ vr).data =
      fn.data ++ ('.') :: (('s' :: stageStr.data) ++ ('.') :: vr.data) := by
    simp only [string_data_append]
    simp
  rw [h1, splitChars_append _ _ _ hfn, splitChars_append, splitChars_no_delim]
  · rfl
  · exact hvr
  · intro hmem
    rcases List.mem_cons.mp hmem with h | h
    · exact absurd h.symm (by decide)
    · exact hst h

/-- C4: `is_the_right_level` of the single-function injector.  For the
root loop name it returns true; for a candidate loop `<func>.s<stage>.<var>`
whose stage has an inline or root `fuse_level` it returns true; otherwise
it returns true iff the index of the dim matching `<var>` in the stage's
dim list (innermost first) is strictly smaller than the index of the dim
matching the `fuse_level` var. -/
theorem c4_is_the_right_level (env : Env) (fn stageStr vr : String)
    (f : Function)
    (hfn_ne : fn.data ≠ [])
    (hfn : ('.') ∉ fn.data)
    (hvr : ('.') ∉ vr.data)
    (hdig : stageStr.data.all Char.isDigit = true)
    (henv : envFind env fn = some f)
    (hstage : atoiDigits stageStr ≤ f.updates.length) :
    isTheRightLevel env rootLoopName = some true ∧
    (let dfn := if atoiDigits stageStr = 0 then f.definition
                else f.updates.getD (atoiDigits stageStr - 1) f.definition
     ((dfn.schedule.fuseLevel.isInline || dfn.schedule.fuseLevel.isRoot) = true →
        isTheRightLevel env (fn ++ ".s" ++ stageStr ++ "." ++ vr) = some true) ∧
     (∀ i1 i2,
        (dfn.schedule.fuseLevel.isInline || dfn.schedule.fuseLevel.isRoot) = false →
        dfn.schedule.dims.findIdx?
            (fun d => varNameMatch d.var dfn.schedule.fuseLevel.varName) = some i1 →
        dfn.schedule.dims.findIdx? (fun d => varNameMatch d.var vr) = some i2 →
        isTheRightLevel env (fn ++ ".s" ++ stageStr ++ "." ++ vr) =
          some (decide (i2 < i1)))) := by
  have hst_nodot : ('.') ∉ stageStr.data := by
    intro hmem
    have := List.all_eq_true.mp hdig _ hmem
    exact absurd this (by decide)
  have hsplit := splitString_three fn stageStr vr hfn hst_nodot hvr
  have hne : (fn ++ ".s" ++ stageStr ++ "." ++ vr) ≠ rootLoopName := by
    intro h
    have hdata : (fn ++ ".s" ++ stageStr ++ "." ++ vr).data = rootLoopName.data := by
      rw [h]
    have hroot : rootLoopName.data = ['.', '_', '_', 'r', 'o', 'o', 't'] := rfl
    rw [hroot] at hdata
    simp only [string_data_append] at hdata
    cases hfd : fn.data with
    | nil => exact hfn_ne hfd
    | cons c cs =>
      rw [hfd] at hdata
      have hc : c = '.' := by
        have := congrArg (fun l => l.headD ' ') hdata
        simpa using this
      rw [hfd] at hfn
      exact hfn (hc ▸ List.mem_cons_self c cs)
  have hscan : scanStage [( "s" ++ stageStr )] = some (atoiDigits stageStr) := by
    have htake : substrTake ("s" ++ stageStr) 1 = "s" := by
      show String.mk (("s" ++ stageStr).data.take 1) = "s"
      rw [string_data_append]
      rfl
    have hdrop : substrDrop ("s" ++ stageStr) 1 = stageStr := by
      show String.mk (("s" ++ stageStr).data.drop 1) = stageStr
      rw [string_data_append]
      rfl
    have hdig2 : ∀ x ∈ stageStr.data, x.isDigit = true := List.all_eq_true.mp hdig
    simp [scanStage, htake, hdrop]
    exact hdig2
  have key : isTheRightLevel env (fn ++ ".s" ++ stageStr ++ "." ++ vr) =
      (let dfn := if atoiDigits stageStr = 0 then f.definition
                  else f.updates.getD (atoiDigits stageStr - 1) f.definition
       if dfn.schedule.fuseLevel.isInline || dfn.schedule.fuseLevel.isRoot then
         some true
       else
         match dfn.schedule.dims.findIdx?
                 (fun d => varNameMatch d.var dfn.schedule.fuseLevel.varName),
               dfn.schedule.dims.findIdx? (fun d => varNameMatch d.var vr) with
         | some i1, some i2 => some (decide (i2 < i1))
         | _, _ => none) := by
    unfold isTheRightLevel
    rw [if_neg hne, hsplit]
    simp only [List.length_cons, List.length_nil]
    rw [if_neg (by omega)]
    have hhead : [fn, "s" ++ stageStr, vr].headD "" = fn := rfl
    have hlast : [fn, "s" ++ stageStr, vr].getLastD "" = vr := rfl
    have hmid : ([fn, "s" ++ stageStr, vr].drop 1).dropLast = ["s" ++ stageStr] := rfl
    rw [hhead, hlast, hmid, hscan, henv]
    have hnot : ¬ (atoiDigits stageStr > f.updates.length) := Nat.not_lt.mpr hstage
    simp [hnot]
  refine ⟨by simp [isTheRightLevel], ?_, ?_⟩
  · intro hfl
    rw [key]
    set dfn := if atoiDigits stageStr = 0 then f.definition
               else f.updates.getD (atoiDigits stageStr - 1) f.definition with hdfn
    simp [hfl]
  · intro i1 i2 hfl hi1 hi2
    rw [key]
    set dfn := if atoiDigits stageStr = 0 then f.definition
               else f.updates.getD (atoiDigits stageStr - 1) f.definition with hdfn
    simp [hfl, hi1, hi2]

/-- Fixture for the C4 witness: a function whose single stage is fused
into `g` at `y`, with dims `x` (inner), `y`, `__outermost`. -/
def c4Schedule : Schedule :=
  { dims := [⟨"x", ForType.Serial, DeviceAPI.NoneAPI⟩,
             ⟨"y", ForType.Serial, DeviceAPI.NoneAPI⟩,
             ⟨"__outermost", ForType.Serial, DeviceAPI.NoneAPI⟩]
    splits := []
    bounds := []
    rvars := []
    storeLevel := LoopLevel.root
    computeLevel := LoopLevel.root
    fuseLevel := LoopLevel.level "g" "y"
    fusedPairs := []
    touched := false
    memoized := false }

/-- Fixture for the C4 witness. -/
def c4F : Function :=
  { name := "f"
    args := ["x", "y"]
    definition := Definition.mk true [] [] [] c4Schedule []
    updates := []
    outputTypes := [Ty.int32]
    hasExtern := false }

/-- Witness for C4 at a concrete input: the loop `f.s0.x` sits strictly
inside the fuse var `y`, so the level test accepts it. -/
theorem c4_is_the_right_level_witness :
    isTheRightLevel [("f", c4F)] ("f" ++ ".s" ++ "0" ++ "." ++ "x") = some true := by
  have h := c4_is_the_right_level [("f", c4F)] "f" "0" "x" c4F
    (by decide) (by decide) (by decide) (by decide) rfl (by decide)
  have h3 := h.2.2 1 0 (by rfl) (by rfl) (by rfl)
  simpa using h3

/-! ## C2: fused-pair substitution of child loop bounds -/

theorem strExt : ∀ {a b : String}, a.data = b.data → a = b
  | ⟨_⟩, ⟨_⟩, rfl => rfl

theorem strAppend_left_cancel {a b c : String} (h : a ++ b = a ++ c) : b = c := by
  apply strExt
  have hd := congrArg String.data h
  rw [string_data_append, string_data_append] at hd
  exact List.append_cancel_left hd

theorem strAppend_right_cancel {a b c : String} (h : a ++ c = b ++ c) : a = b := by
  apply strExt
  have hd := congrArg String.data h
  rw [string_data_append, string_data_append] at hd
  exact List.append_cancel_right hd

/-- Two appends with suffixes ending in different characters differ. -/
theorem strAppend_ne_of_last (a b s1 s2 : String)
    (hne : s1.data.reverse.headD ' ' ≠ s2.data.reverse.headD ' ')
    (h1 : s1.data ≠ []) (h2 : s2.data ≠ []) : a ++ s1 ≠ b ++ s2 := by
  intro he
  apply hne
  have hd : (a ++ s1).data.reverse = (b ++ s2).data.reverse := by rw [he]
  rw [string_data_append, string_data_append, List.reverse_append,
    List.reverse_append] at hd
  cases hr1 : s1.data.reverse with
  | nil => exact absurd (by simpa using hr1) h1
  | cons c1 t1 =>
    cases hr2 : s2.data.reverse with
    | nil => exact absurd (by simpa using hr2) h2
    | cons c2 t2 =>
      rw [hr1, hr2] at hd
      simp only [List.cons_append, List.cons.injEq] at hd
      simpa [hr1, hr2] using hd.1

/-- The three loop-bound suffixes attached to distinct base names give
pairwise distinct keys. -/
theorem loopKey_min_injective {u v : String}
    (h : u ++ ".loop_min" = v ++ ".loop_min") : u = v :=
  strAppend_right_cancel h

theorem loopKey_max_injective {u v : String}
    (h : u ++ ".loop_max" = v ++ ".loop_max") : u = v :=
  strAppend_right_cancel h

theorem loopKey_extent_injective {u v : String}
    (h : u ++ ".loop_extent" = v ++ ".loop_extent") : u = v :=
  strAppend_right_cancel h

theorem loopKey_min_ne_max (u v : String) : u ++ ".loop_min" ≠ v ++ ".loop_max" :=
  strAppend_ne_of_last u v _ _ (by decide) (by decide) (by decide)

theorem loopKey_min_ne_extent (u v : String) :
    u ++ ".loop_min" ≠ v ++ ".loop_extent" :=
  strAppend_ne_of_last u v _ _ (by decide) (by decide) (by decide)

theorem loopKey_max_ne_extent (u v : String) :
    u ++ ".loop_max" ≠ v ++ ".loop_extent" :=
  strAppend_ne_of_last u v _ _ (by decide) (by decide) (by decide)

/-- The child loop-variable name registered for dim `i` of a pair. -/
@[reducible] def childVarName (p : FusedPair) (dims : List Dim) (i : Nat) : String :=
  p.func2 ++ ".s" ++ toString p.stage2 ++ "." ++ (dims.getD i default).var

/-- The parent loop-variable name registered for dim `i` of a pair. -/
@[reducible] def parentVarName (p : FusedPair) (dims : List Dim) (i : Nat) : String :=
  p.func1 ++ ".s" ++ toString p.stage1 ++ "." ++ (dims.getD i default).var

/-- `registerPairDimStep` only `emplace`s into the replacement map, so an
existing binding survives it. -/
theorem registerPairDimStep_replacements_mono (p : FusedPair) (dims : List Dim)
    (st : FuseRegState) (j : Nat) (k : String) (v : Expr)
    (h : mapFind st.replacements k = some v) :
    mapFind (registerPairDimStep p dims st j).replacements k = some v := by
  unfold registerPairDimStep
  exact mapFind_emplace_of_found _ _ _ _ _
    (mapFind_emplace_of_found _ _ _ _ _ (mapFind_emplace_of_found _ _ _ _ _ h))

theorem foldl_registerPairDimStep_replacements_mono (p : FusedPair)
    (dims : List Dim) (k : String) (v : Expr) :
    ∀ (L : List Nat) (st : FuseRegState),
      mapFind st.replacements k = some v →
      mapFind ((L.foldl (registerPairDimStep p dims)) st).replacements k = some v := by
  intro L
  induction L with
  | nil => intro st h; exact h
  | cons a L ih =>
    intro st h
    exact ih _ (registerPairDimStep_replacements_mono p dims st a k v h)

/-- After `registerPairDimStep` at dim `i`, the three child keys of dim `i`
are bound as the claim states, provided they were absent before. -/
theorem registerPairDimStep_sets (p : FusedPair) (dims : List Dim)
    (st : FuseRegState) (i : Nat)
    (hmin : mapFind st.replacements (childVarName p dims i ++ ".loop_min") = none)
    (hmax : mapFind st.replacements (childVarName p dims i ++ ".loop_max") = none)
    (hext : mapFind st.replacements (childVarName p dims i ++ ".loop_extent") = none) :
    mapFind (registerPairDimStep p dims st i).replacements
        (childVarName p dims i ++ ".loop_min") =
      some (Expr.Var Ty.int32 (parentVarName p dims i)) ∧
    mapFind (registerPairDimStep p dims st i).replacements
        (childVarName p dims i ++ ".loop_max") =
      some (Expr.Var Ty.int32 (parentVarName p dims i)) ∧
    mapFind (registerPairDimStep p dims st i).replacements
        (childVarName p dims i ++ ".loop_extent") = some (Expr.IntImm 1) := by
  have hne_max_min : childVarName p dims i ++ ".loop_max" ≠
      childVarName p dims i ++ ".loop_min" :=
    fun h => loopKey_min_ne_max _ _ h.symm
  have hne_ext_min : childVarName p dims i ++ ".loop_extent" ≠
      childVarName p dims i ++ ".loop_min" :=
    fun h => loopKey_min_ne_extent _ _ h.symm
  have hne_ext_max : childVarName p dims i ++ ".loop_extent" ≠
      childVarName p dims i ++ ".loop_max" :=
    fun h => loopKey_max_ne_extent _ _ h.symm
  simp only [registerPairDimStep]
  refine ⟨?_, ?_, ?_⟩
  · exact mapFind_emplace_of_found _ _ _ _ _
      (mapFind_emplace_of_found _ _ _ _ _ (mapFind_emplace_same _ _ _ hmin))
  · apply mapFind_emplace_of_found
    apply mapFind_emplace_same
    rw [mapFind_emplace_other _ _ _ _ hne_max_min]
    exact hmax
  · apply mapFind_emplace_same
    rw [mapFind_emplace_other _ _ _ _ hne_ext_max,
      mapFind_emplace_other _ _ _ _ hne_ext_min]
    exact hext

/-- `registerPairDimStep` at a dim with a different variable name leaves
the child keys of dim `i` absent. -/
theorem registerPairDimStep_preserves_absent (p : FusedPair) (dims : List Dim)
    (st : FuseRegState) (i j : Nat)
    (hvar : (dims.getD j default).var ≠ (dims.getD i default).var)
    (hmin : mapFind st.replacements (childVarName p dims i ++ ".loop_min") = none)
    (hmax : mapFind st.replacements (childVarName p dims i ++ ".loop_max") = none)
    (hext : mapFind st.replacements (childVarName p dims i ++ ".loop_extent") = none) :
    mapFind (registerPairDimStep p dims st j).replacements
        (childVarName p dims i ++ ".loop_min") = none ∧
    mapFind (registerPairDimStep p dims st j).replacements
        (childVarName p dims i ++ ".loop_max") = none ∧
    mapFind (registerPairDimStep p dims st j).replacements
        (childVarName p dims i ++ ".loop_extent") = none := by
  have hcv : childVarName p dims i ≠ childVarName p dims j := by
    intro h
    exact hvar (strAppend_left_cancel h).symm
  have hmm : childVarName p dims i ++ ".loop_min" ≠
      childVarName p dims j ++ ".loop_min" :=
    fun h => hcv (loopKey_min_injective h)
  have hmx : childVarName p dims i ++ ".loop_min" ≠
      childVarName p dims j ++ ".loop_max" := loopKey_min_ne_max _ _
  have hme : childVarName p dims i ++ ".loop_min" ≠
      childVarName p dims j ++ ".loop_extent" := loopKey_min_ne_extent _ _
  have hxm : childVarName p dims i ++ ".loop_max" ≠
      childVarName p dims j ++ ".loop_min" :=
    fun h => loopKey_min_ne_max _ _ h.symm
  have hxx : childVarName p dims i ++ ".loop_max" ≠
      childVarName p dims j ++ ".loop_max" :=
    fun h => hcv (loopKey_max_injective h)
  have hxe : childVarName p dims i ++ ".loop_max" ≠
      childVarName p dims j ++ ".loop_extent" := loopKey_max_ne_extent _ _
  have hem : childVarName p dims i ++ ".loop_extent" ≠
      childVarName p dims j ++ ".loop_min" :=
    fun h => loopKey_min_ne_extent _ _ h.symm
  have hex : childVarName p dims i ++ ".loop_extent" ≠
      childVarName p dims j ++ ".loop_max" :=
    fun h => loopKey_max_ne_extent _ _ h.symm
  have hee : childVarName p dims i ++ ".loop_extent" ≠
      childVarName p dims j ++ ".loop_extent" :=
    fun h => hcv (loopKey_extent_injective h)
  simp only [registerPairDimStep]
  refine ⟨?_, ?_, ?_⟩
  · rw [mapFind_emplace_other _ _ _ _ hme, mapFind_emplace_other _ _ _ _ hmx,
      mapFind_emplace_other _ _ _ _ hmm]
    exact hmin
  · rw [mapFind_emplace_other _ _ _ _ hxe, mapFind_emplace_other _ _ _ _ hxx,
      mapFind_emplace_other _ _ _ _ hxm]
    exact hmax
  · rw [mapFind_emplace_other _ _ _ _ hee, mapFind_emplace_other _ _ _ _ hex,
      mapFind_emplace_other _ _ _ _ hem]
    exact hext

/-- Through the whole dim loop of one pair: if dim `i` is in the processed
range, its variable name is unique in the range, and its keys were absent
at the start, the three child keys come out bound as claimed. -/
theorem foldl_registerPairDimStep_sets (p : FusedPair) (dims : List Dim)
    (i : Nat) :
    ∀ (L : List Nat) (st : FuseRegState),
      i ∈ L →
      (∀ j ∈ L, j ≠ i → (dims.getD j default).var ≠ (dims.getD i default).var) →
      mapFind st.replacements (childVarName p dims i ++ ".loop_min") = none →
      mapFind st.replacements (childVarName p dims i ++ ".loop_max") = none →
      mapFind st.replacements (childVarName p dims i ++ ".loop_extent") = none →
      mapFind ((L.foldl (registerPairDimStep p dims)) st).replacements
          (childVarName p dims i ++ ".loop_min") =
        some (Expr.Var Ty.int32 (parentVarName p dims i)) ∧
      mapFind ((L.foldl (registerPairDimStep p dims)) st).replacements
          (childVarName p dims i ++ ".loop_max") =
        some (Expr.Var Ty.int32 (parentVarName p dims i)) ∧
      mapFind ((L.foldl (registerPairDimStep p dims)) st).replacements
          (childVarName p dims i ++ ".loop_extent") = some (Expr.IntImm 1) := by
  intro L
  induction L with
  | nil => intro st h; exact absurd h (List.not_mem_nil i)
  | cons a L ih =>
    intro st hmem hdist hmin hmax hext
    by_cases ha : a = i
    · subst ha
      have hset := registerPairDimStep_sets p dims st a hmin hmax hext
      simp only [List.foldl_cons]
      exact ⟨foldl_registerPairDimStep_replacements_mono p dims _ _ L _ hset.1,
        foldl_registerPairDimStep_replacements_mono p dims _ _ L _ hset.2.1,
        foldl_registerPairDimStep_replacements_mono p dims _ _ L _ hset.2.2⟩
    · have hmem2 : i ∈ L := by
        rcases List.mem_cons.mp hmem with h | h
        · exact absurd h.symm ha
        · exact h
      have hpre := registerPairDimStep_preserves_absent p dims st i a
        (hdist a (List.mem_cons_self a L) ha) hmin hmax hext
      simp only [List.foldl_cons]
      exact ih _ hmem2 (fun j hj hne => hdist j (List.mem_cons_of_mem a hj) hne)
        hpre.1 hpre.2.1 hpre.2.2

/-- `registerPair` on a state keeps existing replacement bindings. -/
theorem registerPair_mono (env : Env) (skip : List (String × Bool))
    (dims : List Dim) (st : FuseRegState) (p : FusedPair) (st2 : FuseRegState)
    (k : String) (v : Expr)
    (h : registerPair env skip dims st p = some st2)
    (hk : mapFind st.replacements k = some v) :
    mapFind st2.replacements k = some v := by
  unfold registerPair at h
  by_cases he : (envFind env p.func2).isNone
  · rw [if_pos he] at h
    cases h
    exact hk
  · rw [if_neg he] at h
    cases hs : mapFind skip p.func2 with
    | none => rw [hs] at h; cases h
    | some b =>
      rw [hs] at h
      cases b with
      | true =>
        simp only [] at h
        cases h
        exact hk
      | false =>
        simp only [] at h
        cases hf : dims.findIdx? (fun d => varNameMatch d.var p.varName) with
        | none => rw [hf] at h; cases h
        | some idx =>
          rw [hf] at h
          cases h
          exact foldl_registerPairDimStep_replacements_mono p dims k v _ _ hk

/-- `registerPairs` on a list keeps existing replacement bindings. -/
theorem registerPairs_mono (env : Env) (skip : List (String × Bool))
    (dims : List Dim) (k : String) (v : Expr) :
    ∀ (l : List FusedPair) (st st2 : FuseRegState),
      registerPairs env skip dims st l = some st2 →
      mapFind st.replacements k = some v →
      mapFind st2.replacements k = some v := by
  intro l
  induction l with
  | nil =>
    intro st st2 h hk
    cases h
    exact hk
  | cons p rest ih =>
    intro st st2 h hk
    unfold registerPairs at h
    cases hp : registerPair env skip dims st p with
    | none => rw [hp] at h; cases h
    | some st1 =>
      rw [hp] at h
      exact ih st1 st2 h (registerPair_mono env skip dims st p st1 k v hp hk)

/-- `registerPairs` over an appended list runs the two parts in
sequence. -/
theorem registerPairs_append (env : Env) (skip : List (String × Bool))
    (dims : List Dim) :
    ∀ (l1 l2 : List FusedPair) (st : FuseRegState),
      registerPairs env skip dims st (l1 ++ l2) =
        match registerPairs env skip dims st l1 with
        | none => none
        | some st1 => registerPairs env skip dims st1 l2 := by
  intro l1
  induction l1 with
  | nil => intro l2 st; rfl
  | cons p rest ih =>
    intro l2 st
    have hcons : ∀ (l : List FusedPair) (st2 : FuseRegState),
        registerPairs env skip dims st2 (p :: l) =
          match registerPair env skip dims st2 p with
          | none => none
          | some st3 => registerPairs env skip dims st3 l := fun _ _ => rfl
    rw [List.cons_append, hcons, hcons]
    cases registerPair env skip dims st p with
    | none => rfl
    | some st1 => exact ih l2 st1

/-- `registerPair` under the claim's hypotheses binds the three child keys
of dim `i` as claimed. -/
theorem registerPair_sets (env : Env) (skip : List (String × Bool))
    (dims : List Dim) (st : FuseRegState) (p : FusedPair) (idx i : Nat)
    (st2 : FuseRegState)
    (henv : (envFind env p.func2).isNone = false)
    (hskip : mapFind skip p.func2 = some false)
    (hidx : dims.findIdx? (fun d => varNameMatch d.var p.varName) = some idx)
    (hi1 : idx ≤ i) (hi2 : i < dims.length - 1)
    (hdist : ∀ j ∈ idxRange idx (dims.length - 1), j ≠ i →
      (dims.getD j default).var ≠ (dims.getD i default).var)
    (hmin : mapFind st.replacements (childVarName p dims i ++ ".loop_min") = none)
    (hmax : mapFind st.replacements (childVarName p dims i ++ ".loop_max") = none)
    (hext : mapFind st.replacements (childVarName p dims i ++ ".loop_extent") = none)
    (h : registerPair env skip dims st p = some st2) :
    mapFind st2.replacements (childVarName p dims i ++ ".loop_min") =
      some (Expr.Var Ty.int32 (parentVarName p dims i)) ∧
    mapFind st2.replacements (childVarName p dims i ++ ".loop_max") =
      some (Expr.Var Ty.int32 (parentVarName p dims i)) ∧
    mapFind st2.replacements (childVarName p dims i ++ ".loop_extent") =
      some (Expr.IntImm 1) := by
  unfold registerPair at h
  rw [if_neg (by simp [henv]), hskip] at h
  simp only [hidx] at h
  cases h
  exact foldl_registerPairDimStep_sets p dims i
    (idxRange idx (dims.length - 1)) _
    ((mem_idxRange i idx (dims.length - 1)).mpr ⟨hi1, hi2⟩)
    hdist hmin hmax hext

/-- C2, registration half, over the whole pair list of a definition:
if the fused pair `p` occurs in the list, its child is present and not
skipped, and the three child keys of dim `i` are absent when `p` is
reached, the final replacement map binds the child's `.loop_min` and
`.loop_max` to the parent's loop variable and its `.loop_extent` to the
constant 1. -/
theorem registerPairs_sets (env : Env) (skip : List (String × Bool))
    (dims : List Dim) (st0 stPre stFin : FuseRegState)
    (pre post : List FusedPair) (p : FusedPair) (idx i : Nat)
    (henv : (envFind env p.func2).isNone = false)
    (hskip : mapFind skip p.func2 = some false)
    (hidx : dims.findIdx? (fun d => varNameMatch d.var p.varName) = some idx)
    (hi1 : idx ≤ i) (hi2 : i < dims.length - 1)
    (hdist : ∀ j ∈ idxRange idx (dims.length - 1), j ≠ i →
      (dims.getD j default).var ≠ (dims.getD i default).var)
    (hpre : registerPairs env skip dims st0 pre = some stPre)
    (hmin : mapFind stPre.replacements (childVarName p dims i ++ ".loop_min") = none)
    (hmax : mapFind stPre.replacements (childVarName p dims i ++ ".loop_max") = none)
    (hext : mapFind stPre.replacements (childVarName p dims i ++ ".loop_extent") = none)
    (hall : registerPairs env skip dims st0 (pre ++ p :: post) = some stFin) :
    mapFind stFin.replacements (childVarName p dims i ++ ".loop_min") =
      some (Expr.Var Ty.int32 (parentVarName p dims i)) ∧
    mapFind stFin.replacements (childVarName p dims i ++ ".loop_max") =
      some (Expr.Var Ty.int32 (parentVarName p dims i)) ∧
    mapFind stFin.replacements (childVarName p dims i ++ ".loop_extent") =
      some (Expr.IntImm 1) := by
  rw [registerPairs_append, hpre] at hall
  unfold registerPairs at hall
  cases hp : registerPair env skip dims stPre p with
  | none => rw [hp] at hall; cases hall
  | some st1 =>
    rw [hp] at hall
    have hset := registerPair_sets env skip dims stPre p idx i st1 henv hskip
      hidx hi1 hi2 hdist hmin hmax hext hp
    exact ⟨registerPairs_mono env skip dims _ _ post st1 stFin hall hset.1,
      registerPairs_mono env skip dims _ _ post st1 stFin hall hset.2.1,
      registerPairs_mono env skip dims _ _ post st1 stFin hall hset.2.2⟩

/-- `findIdx?` over a list whose first satisfying element sits after a
non-satisfying prefix. -/
theorem findIdx?_append_first {α : Type} (p2 : α → Bool) (x : α) :
    ∀ (l1 l2 : List α), (∀ y ∈ l1, p2 y = false) → p2 x = true →
      (l1 ++ x :: l2).findIdx? p2 = some l1.length := by
  intro l1
  induction l1 with
  | nil =>
    intro l2 _ hx
    simp [List.findIdx?_cons, hx]
  | cons a l ih =>
    intro l2 h1 hx
    have ha := h1 a (List.mem_cons_self a l)
    simp [List.findIdx?_cons, ha, ih l2 (fun y hy => h1 y (List.mem_cons_of_mem a hy)) hx]

/-- `rfind('.')` on a name whose final dotted component is dot-free. -/
theorem rfindIdx_last_dot (a b : List Char) (hb : ('.') ∉ b) :
    rfindIdx '.' (a ++ ('.') :: b) = some a.length := by
  unfold rfindIdx
  have hrev : (a ++ ('.') :: b).reverse = b.reverse ++ ('.') :: a.reverse := by
    simp
  rw [hrev, findIdx?_append_first]
  · simp only [List.length_append, List.length_cons, List.length_reverse]
    congr 1
    omega
  · intro y hy
    simp only [decide_eq_false_iff_not]
    intro hee
    exact hb (List.mem_reverse.mp (hee ▸ hy))
  · simp

/-- C2, substitution half: a child `For` loop whose min and extent refer to
replaced bound names is renamed to `….fused.<var>`, rebound, and forced to
`Serial` when the replaced extent is the constant 1 (source lines
890–940). -/
theorem substituteBounds_child_for (simplify : Expr → Expr)
    (repl : List (String × Expr)) (bounds : List (String × Option Expr))
    (base dimv : String) (mv : Expr) (ft : ForType) (dev : DeviceAPI)
    (body : Stmt) (b1 : List (String × Option Expr)) (body1 : Stmt)
    (hdot : ('.') ∉ dimv.data)
    (hmin : mapFind repl ((base ++ "." ++ dimv) ++ ".loop_min") = some mv)
    (hext : mapFind repl ((base ++ "." ++ dimv) ++ ".loop_extent") =
      some (Expr.IntImm 1))
    (hbody : substituteBoundsStmt simplify repl bounds body = some (b1, body1)) :
    substituteBoundsStmt simplify repl bounds
        (Stmt.For (base ++ "." ++ dimv)
          (Expr.Var Ty.int32 ((base ++ "." ++ dimv) ++ ".loop_min"))
          (Expr.Var Ty.int32 ((base ++ "." ++ dimv) ++ ".loop_extent"))
          ft dev body) =
      some (b1,
        substituteStmt (base ++ "." ++ dimv)
          (Expr.Var Ty.int32 (base ++ ".fused." ++ dimv))
          (Stmt.LetStmt ((base ++ ".fused." ++ dimv) ++ ".loop_extent")
            (Expr.IntImm 1)
            (Stmt.LetStmt ((base ++ ".fused." ++ dimv) ++ ".loop_max")
              (simplify (Expr.Sub (Expr.Add mv (Expr.IntImm 1)) (Expr.IntImm 1)))
              (Stmt.LetStmt ((base ++ ".fused." ++ dimv) ++ ".loop_min") mv
                (Stmt.For (base ++ ".fused." ++ dimv)
                  (Expr.Var Ty.int32 ((base ++ ".fused." ++ dimv) ++ ".loop_min"))
                  (Expr.Var Ty.int32 ((base ++ ".fused." ++ dimv) ++ ".loop_extent"))
                  ForType.Serial dev body1))))) := by
  have hrf : rfindIdx '.' (base ++ "." ++ dimv).data = some (base.data.length) := by
    have hdata : (base ++ "." ++ dimv).data = base.data ++ ('.') :: dimv.data := by
      simp [string_data_append]
    rw [hdata]
    exact rfindIdx_last_dot base.data dimv.data hdot
  have htake : substrTake (base ++ "." ++ dimv) base.data.length = base := by
    apply strExt
    show ((base ++ "." ++ dimv).data.take base.data.length) = base.data
    have hdata : (base ++ "." ++ dimv).data = base.data ++ ('.') :: dimv.data := by
      simp [string_data_append]
    rw [hdata]
    exact List.take_left base.data _
  have hdrop : substrDrop (base ++ "." ++ dimv) (base.data.length + 1) = dimv := by
    apply strExt
    show ((base ++ "." ++ dimv).data.drop (base.data.length + 1)) = dimv.data
    have hdata : (base ++ "." ++ dimv).data =
        (base.data ++ [('.')]) ++ dimv.data := by
      simp [string_data_append]
    rw [hdata]
    have hlen : base.data.length + 1 = (base.data ++ [('.')]).length := by simp
    rw [hlen]
    exact List.drop_left _ _
  have hstep : substituteBoundsStmt simplify repl bounds
      (Stmt.For (base ++ "." ++ dimv)
        (Expr.Var Ty.int32 ((base ++ "." ++ dimv) ++ ".loop_min"))
        (Expr.Var Ty.int32 ((base ++ "." ++ dimv) ++ ".loop_extent"))
        ft dev body) =
      match substituteBoundsStmt simplify repl bounds body with
      | none => none
      | some (b2, body2) =>
        sbForFinish simplify repl (base ++ "." ++ dimv)
          (Expr.Var Ty.int32 ((base ++ "." ++ dimv) ++ ".loop_min"))
          (Expr.Var Ty.int32 ((base ++ "." ++ dimv) ++ ".loop_extent"))
          ft dev b2 body2 := rfl
  rw [hstep, hbody]
  simp only [sbForFinish, hmin, hext, hrf]
  simp only [htake, hdrop, isOne]
  rfl

/-- C2: for a fused pair `(func_1.stage_1, func_2.stage_2)` at var `v`
whose child `func_2` is present and not skipped, and for every dim of the
parent stage from `v`'s index up to but excluding `__outermost` (the last
dim), the registration performed by `build_produce_definition` substitutes
the child's `.loop_min` and `.loop_max` by the parent's loop variable
itself and its `.loop_extent` by the constant 1; and the bound-substitution
pass then rewrites the child's emitted `For` loop for that dim to
`<func>.s<stage>.fused.<var>` with `for_type` `Serial`, since its replaced
extent is the constant 1. -/
theorem c2_fused_pair_child_bounds
    (env : Env) (skip : List (String × Bool)) (dims : List Dim)
    (st0 stPre stFin : FuseRegState) (pre post : List FusedPair) (p : FusedPair)
    (idx i : Nat)
    (houter : dims.getLast?.map Dim.var = some "__outermost")
    (henv : (envFind env p.func2).isNone = false)
    (hskip : mapFind skip p.func2 = some false)
    (hidx : dims.findIdx? (fun d => varNameMatch d.var p.varName) = some idx)
    (hi1 : idx ≤ i) (hi2 : i < dims.length - 1)
    (hdist : ∀ j ∈ idxRange idx (dims.length - 1), j ≠ i →
      (dims.getD j default).var ≠ (dims.getD i default).var)
    (hdot : ('.') ∉ (dims.getD i default).var.data)
    (hpre : registerPairs env skip dims st0 pre = some stPre)
    (hmin : mapFind stPre.replacements (childVarName p dims i ++ ".loop_min") = none)
    (hmax : mapFind stPre.replacements (childVarName p dims i ++ ".loop_max") = none)
    (hext : mapFind stPre.replacements (childVarName p dims i ++ ".loop_extent") = none)
    (hall : registerPairs env skip dims st0 (pre ++ p :: post) = some stFin) :
    (mapFind stFin.replacements (childVarName p dims i ++ ".loop_min") =
        some (Expr.Var Ty.int32 (parentVarName p dims i)) ∧
      mapFind stFin.replacements (childVarName p dims i ++ ".loop_max") =
        some (Expr.Var Ty.int32 (parentVarName p dims i)) ∧
      mapFind stFin.replacements (childVarName p dims i ++ ".loop_extent") =
        some (Expr.IntImm 1)) ∧
    (∀ (simplify : Expr → Expr) (bounds b1 : List (String × Option Expr))
       (ft : ForType) (dev : DeviceAPI) (body body1 : Stmt),
      substituteBoundsStmt simplify stFin.replacements bounds body =
        some (b1, body1) →
      substituteBoundsStmt simplify stFin.replacements bounds
          (Stmt.For (childVarName p dims i)
            (Expr.Var Ty.int32 (childVarName p dims i ++ ".loop_min"))
            (Expr.Var Ty.int32 (childVarName p dims i ++ ".loop_extent"))
            ft dev body) =
        some (b1,
          substituteStmt (childVarName p dims i)
            (Expr.Var Ty.int32
              (p.func2 ++ ".s" ++ toString p.stage2 ++ ".fused." ++
                (dims.getD i default).var))
            (Stmt.LetStmt
              ((p.func2 ++ ".s" ++ toString p.stage2 ++ ".fused." ++
                (dims.getD i default).var) ++ ".loop_extent") (Expr.IntImm 1)
              (Stmt.LetStmt
                ((p.func2 ++ ".s" ++ toString p.stage2 ++ ".fused." ++
                  (dims.getD i default).var) ++ ".loop_max")
                (simplify (Expr.Sub
                  (Expr.Add (Expr.Var Ty.int32 (parentVarName p dims i))
                    (Expr.IntImm 1)) (Expr.IntImm 1)))
                (Stmt.LetStmt
                  ((p.func2 ++ ".s" ++ toString p.stage2 ++ ".fused." ++
                    (dims.getD i default).var) ++ ".loop_min")
                  (Expr.Var Ty.int32 (parentVarName p dims i))
                  (Stmt.For
                    (p.func2 ++ ".s" ++ toString p.stage2 ++ ".fused." ++
                      (dims.getD i default).var)
                    (Expr.Var Ty.int32
                      ((p.func2 ++ ".s" ++ toString p.stage2 ++ ".fused." ++
                        (dims.getD i default).var) ++ ".loop_min"))
                    (Expr.Var Ty.int32
                      ((p.func2 ++ ".s" ++ toString p.stage2 ++ ".fused." ++
                        (dims.getD i default).var) ++ ".loop_extent"))
                    ForType.Serial dev body1)))))) := by
  have hset := registerPairs_sets env skip dims st0 stPre stFin pre post p idx i
    henv hskip hidx hi1 hi2 hdist hpre hmin hmax hext hall
  refine ⟨hset, ?_⟩
  intro simplify bounds b1 ft dev body body1 hbody
  exact substituteBounds_child_for simplify stFin.replacements bounds
    (p.func2 ++ ".s" ++ toString p.stage2) (dims.getD i default).var
    (Expr.Var Ty.int32 (parentVarName p dims i)) ft dev body b1 body1
    hdot hset.1 hset.2.2 hbody

/-- Fixture for the C2 witness: dims `x`, `y`, `__outermost`. -/
def c2dims : List Dim :=
  [⟨"x", ForType.Serial, DeviceAPI.NoneAPI⟩,
   ⟨"y", ForType.Serial, DeviceAPI.NoneAPI⟩,
   ⟨"__outermost", ForType.Serial, DeviceAPI.NoneAPI⟩]

/-- Fixture for the C2 witness: `g.s0` is fused into `f.s0` at `y`. -/
def c2p : FusedPair := ⟨"f", 0, "g", 0, "y"⟩

/-- Fixture for the C2 witness: the child function `g`. -/
def c2G : Function :=
  { name := "g"
    args := ["x", "y"]
    definition := Definition.mk true [] [] [] c4Schedule []
    updates := []
    outputTypes := [Ty.int32]
    hasExtern := false }

/-- Fixture for the C2 witness. -/
def c2env : Env := [("g", c2G)]

/-- Fixture for the C2 witness. -/
def c2skip : List (String × Bool) := [("g", false)]

/-- Fixture for the C2 witness. -/
def c2st0 : FuseRegState := ⟨3, [], []⟩

/-- The concrete registration result for the C2 witness. -/
def c2stFin : FuseRegState :=
  (registerPairs c2env c2skip c2dims c2st0 [c2p]).getD c2st0

/-- Witness for C2 at a concrete input. -/
theorem c2_fused_pair_child_bounds_witness :
    mapFind c2stFin.replacements (childVarName c2p c2dims 1 ++ ".loop_min") =
      some (Expr.Var Ty.int32 (parentVarName c2p c2dims 1)) ∧
    mapFind c2stFin.replacements (childVarName c2p c2dims 1 ++ ".loop_max") =
      some (Expr.Var Ty.int32 (parentVarName c2p c2dims 1)) ∧
    mapFind c2stFin.replacements (childVarName c2p c2dims 1 ++ ".loop_extent") =
      some (Expr.IntImm 1) :=
  (c2_fused_pair_child_bounds c2env c2skip c2dims c2st0 c2st0 c2stFin [] [] c2p
    1 1 rfl rfl rfl rfl (by decide) (by decide) (by decide) (by decide)
    rfl rfl rfl rfl rfl).1

/-! ## C3: union-bound propagation -/

/-- A successful union step at dim `j` is exactly three assignments to the
parent keys of dim `j`. -/
theorem unionDimStep_shape (simplify : Expr → Expr) (p : FusedPair)
    (prefixS : String) (dims : List Dim) (bounds : List (String × Option Expr))
    (repl2 repl3 : List (String × Expr)) (j : Nat)
    (h : unionDimStep simplify p prefixS dims bounds repl2 j = some repl3) :
    ∃ a b c, repl3 =
      mapAssign (mapAssign (mapAssign repl2
        (unionParentVar prefixS dims j ++ ".loop_min") a)
        (unionParentVar prefixS dims j ++ ".loop_max") b)
        (unionParentVar prefixS dims j ++ ".loop_extent") c := by
  simp only [unionDimStep] at h
  repeat' split at h
  all_goals first
    | (exact ⟨_, _, _, (Option.some.inj h).symm⟩)
    | (cases h)

/-- A successful union step at a dim with a different variable name leaves
the parent bindings of dim `i` untouched. -/
theorem unionDimStep_preserves (simplify : Expr → Expr) (p : FusedPair)
    (prefixS : String) (dims : List Dim) (bounds : List (String × Option Expr))
    (repl2 repl3 : List (String × Expr)) (i j : Nat)
    (hvar : (dims.getD j default).var ≠ (dims.getD i default).var)
    (h : unionDimStep simplify p prefixS dims bounds repl2 j = some repl3) :
    mapFind repl3 (unionParentVar prefixS dims i ++ ".loop_min") =
      mapFind repl2 (unionParentVar prefixS dims i ++ ".loop_min") ∧
    mapFind repl3 (unionParentVar prefixS dims i ++ ".loop_max") =
      mapFind repl2 (unionParentVar prefixS dims i ++ ".loop_max") ∧
    mapFind repl3 (unionParentVar prefixS dims i ++ ".loop_extent") =
      mapFind repl2 (unionParentVar prefixS dims i ++ ".loop_extent") := by
  have hpv : unionParentVar prefixS dims i ≠ unionParentVar prefixS dims j := by
    intro he
    exact hvar (strAppend_left_cancel he).symm
  obtain ⟨a, b, c, rfl⟩ := unionDimStep_shape simplify p prefixS dims bounds
    repl2 repl3 j h
  refine ⟨?_, ?_, ?_⟩
  · rw [mapFind_assign_other _ _ _ _ (loopKey_min_ne_extent _ _),
      mapFind_assign_other _ _ _ _ (loopKey_min_ne_max _ _),
      mapFind_assign_other _ _ _ _ (fun he => hpv (loopKey_min_injective he))]
  · rw [mapFind_assign_other _ _ _ _ (loopKey_max_ne_extent _ _),
      mapFind_assign_other _ _ _ _ (fun he => hpv (loopKey_max_injective he)),
      mapFind_assign_other _ _ _ _ (fun he => loopKey_min_ne_max _ _ he.symm)]
  · rw [mapFind_assign_other _ _ _ _ (fun he => hpv (loopKey_extent_injective he)),
      mapFind_assign_other _ _ _ _ (fun he => loopKey_max_ne_extent _ _ he.symm),
      mapFind_assign_other _ _ _ _ (fun he => loopKey_min_ne_extent _ _ he.symm)]

/-- The union step at dim `i` itself, with the parent's previous binding
`(m1, x1)` (from the replacement map if already unioned, else from the
captured bounds), assigns exactly the claim's formulas. -/
theorem unionDimStep_at (simplify : Expr → Expr) (p : FusedPair)
    (prefixS : String) (dims : List Dim) (bounds : List (String × Option Expr))
    (repl2 : List (String × Expr)) (i : Nat) (min2 max2 m1 x1 : Expr)
    (e2q : Option Expr) (pmq pxq peq : Option Expr)
    (hb2min : mapFind bounds (childVarName p dims i ++ ".loop_min") = some (some min2))
    (hb2max : mapFind bounds (childVarName p dims i ++ ".loop_max") = some (some max2))
    (hb2ext : mapFind bounds (childVarName p dims i ++ ".loop_extent") = some e2q)
    (hbpmin : mapFind bounds (unionParentVar prefixS dims i ++ ".loop_min") = some pmq)
    (hbpmax : mapFind bounds (unionParentVar prefixS dims i ++ ".loop_max") = some pxq)
    (hbpext : mapFind bounds (unionParentVar prefixS dims i ++ ".loop_extent") = some peq)
    (hacc : (mapFind repl2 (unionParentVar prefixS dims i ++ ".loop_min") = none ∧
              pmq = some m1 ∧ pxq = some x1) ∨
            (mapFind repl2 (unionParentVar prefixS dims i ++ ".loop_min") = some m1 ∧
              mapFind repl2 (unionParentVar prefixS dims i ++ ".loop_max") = some x1)) :
    unionDimStep simplify p prefixS dims bounds repl2 i =
      some (mapAssign (mapAssign (mapAssign repl2
        (unionParentVar prefixS dims i ++ ".loop_min")
        (simplify (Expr.Min m1 min2)))
        (unionParentVar prefixS dims i ++ ".loop_max")
        (simplify (Expr.Max x1 max2)))
        (unionParentVar prefixS dims i ++ ".loop_extent")
        (simplify (Expr.Sub (Expr.Add (simplify (Expr.Max x1 max2)) (Expr.IntImm 1))
          (simplify (Expr.Min m1 min2))))) := by
  simp only [unionDimStep, hb2min, hb2max, hb2ext, hbpmin, hbpmax, hbpext]
  rcases hacc with ⟨hnone, hm, hx⟩ | ⟨hm, hx⟩
  · simp only [hnone, hm, hx]
  · simp only [hm, hx]

/-- The new parent bindings after the union step at dim `i`. -/
theorem unionDimStep_at_lookups (simplify : Expr → Expr) (p : FusedPair)
    (prefixS : String) (dims : List Dim) (bounds : List (String × Option Expr))
    (repl2 repl3 : List (String × Expr)) (i : Nat) (min2 max2 m1 x1 : Expr)
    (e2q pmq pxq peq : Option Expr)
    (hb2min : mapFind bounds (childVarName p dims i ++ ".loop_min") = some (some min2))
    (hb2max : mapFind bounds (childVarName p dims i ++ ".loop_max") = some (some max2))
    (hb2ext : mapFind bounds (childVarName p dims i ++ ".loop_extent") = some e2q)
    (hbpmin : mapFind bounds (unionParentVar prefixS dims i ++ ".loop_min") = some pmq)
    (hbpmax : mapFind bounds (unionParentVar prefixS dims i ++ ".loop_max") = some pxq)
    (hbpext : mapFind bounds (unionParentVar prefixS dims i ++ ".loop_extent") = some peq)
    (hacc : (mapFind repl2 (unionParentVar prefixS dims i ++ ".loop_min") = none ∧
              pmq = some m1 ∧ pxq = some x1) ∨
            (mapFind repl2 (unionParentVar prefixS dims i ++ ".loop_min") = some m1 ∧
              mapFind repl2 (unionParentVar prefixS dims i ++ ".loop_max") = some x1))
    (h : unionDimStep simplify p prefixS dims bounds repl2 i = some repl3) :
    mapFind repl3 (unionParentVar prefixS dims i ++ ".loop_min") =
      some (simplify (Expr.Min m1 min2)) ∧
    mapFind repl3 (unionParentVar prefixS dims i ++ ".loop_max") =
      some (simplify (Expr.Max x1 max2)) ∧
    mapFind repl3 (unionParentVar prefixS dims i ++ ".loop_extent") =
      some (simplify (Expr.Sub (Expr.Add (simplify (Expr.Max x1 max2)) (Expr.IntImm 1))
        (simplify (Expr.Min m1 min2)))) := by
  rw [unionDimStep_at simplify p prefixS dims bounds repl2 i min2 max2 m1 x1
    e2q pmq pxq peq hb2min hb2max hb2ext hbpmin hbpmax hbpext hacc] at h
  cases h
  refine ⟨?_, ?_, ?_⟩
  · rw [mapFind_assign_other _ _ _ _ (loopKey_min_ne_extent _ _),
      mapFind_assign_other _ _ _ _ (loopKey_min_ne_max _ _),
      mapFind_assign_same]
  · rw [mapFind_assign_other _ _ _ _ (loopKey_max_ne_extent _ _),
      mapFind_assign_same]
  · rw [mapFind_assign_same]

/-- A fold of union steps over dims with variable names different from
dim `i`'s preserves the parent bindings of dim `i`. -/
theorem unionFold_preserves (simplify : Expr → Expr) (p : FusedPair)
    (prefixS : String) (dims : List Dim) (bounds : List (String × Option Expr))
    (i : Nat) :
    ∀ (L : List Nat) (repl replf : List (String × Expr)),
      (∀ j ∈ L, (dims.getD j default).var ≠ (dims.getD i default).var) →
      List.foldlM (unionDimStep simplify p prefixS dims bounds) repl L = some replf →
      mapFind replf (unionParentVar prefixS dims i ++ ".loop_min") =
        mapFind repl (unionParentVar prefixS dims i ++ ".loop_min") ∧
      mapFind replf (unionParentVar prefixS dims i ++ ".loop_max") =
        mapFind repl (unionParentVar prefixS dims i ++ ".loop_max") ∧
      mapFind replf (unionParentVar prefixS dims i ++ ".loop_extent") =
        mapFind repl (unionParentVar prefixS dims i ++ ".loop_extent") := by
  intro L
  induction L with
  | nil =>
    intro repl replf _ h
    cases h
    exact ⟨rfl, rfl, rfl⟩
  | cons a L ih =>
    intro repl replf hvars h
    rw [List.foldlM_cons] at h
    cases ha : unionDimStep simplify p prefixS dims bounds repl a with
    | none => rw [ha] at h; cases h
    | some repl1 =>
      rw [ha] at h
      have hpres := unionDimStep_preserves simplify p prefixS dims bounds
        repl repl1 i a (hvars a (List.mem_cons_self a L)) ha
      have hrest := ih repl1 replf
        (fun j hj => hvars j (List.mem_cons_of_mem a hj)) h
      exact ⟨hrest.1.trans hpres.1, hrest.2.1.trans hpres.2.1,
        hrest.2.2.trans hpres.2.2⟩

/-- The whole union fold of one pair: if dim `i` occurs once in the range
and its variable name is unique there, the final parent bindings of dim
`i` are the claim's union formulas relative to the state at entry. -/
theorem unionFold_formula (simplify : Expr → Expr) (p : FusedPair)
    (prefixS : String) (dims : List Dim) (bounds : List (String × Option Expr))
    (i : Nat) (min2 max2 m1 x1 : Expr) (e2q pmq pxq peq : Option Expr)
    (hb2min : mapFind bounds (childVarName p dims i ++ ".loop_min") = some (some min2))
    (hb2max : mapFind bounds (childVarName p dims i ++ ".loop_max") = some (some max2))
    (hb2ext : mapFind bounds (childVarName p dims i ++ ".loop_extent") = some e2q)
    (hbpmin : mapFind bounds (unionParentVar prefixS dims i ++ ".loop_min") = some pmq)
    (hbpmax : mapFind bounds (unionParentVar prefixS dims i ++ ".loop_max") = some pxq)
    (hbpext : mapFind bounds (unionParentVar prefixS dims i ++ ".loop_extent") = some peq) :
    ∀ (L : List Nat) (repl replf : List (String × Expr)),
      L.Nodup → i ∈ L →
      (∀ j ∈ L, j ≠ i → (dims.getD j default).var ≠ (dims.getD i default).var) →
      ((mapFind repl (unionParentVar prefixS dims i ++ ".loop_min") = none ∧
          pmq = some m1 ∧ pxq = some x1) ∨
        (mapFind repl (unionParentVar prefixS dims i ++ ".loop_min") = some m1 ∧
          mapFind repl (unionParentVar prefixS dims i ++ ".loop_max") = some x1)) →
      List.foldlM (unionDimStep simplify p prefixS dims bounds) repl L = some replf →
      mapFind replf (unionParentVar prefixS dims i ++ ".loop_min") =
        some (simplify (Expr.Min m1 min2)) ∧
      mapFind replf (unionParentVar prefixS dims i ++ ".loop_max") =
        some (simplify (Expr.Max x1 max2)) ∧
      mapFind replf (unionParentVar prefixS dims i ++ ".loop_extent") =
        some (simplify (Expr.Sub (Expr.Add (simplify (Expr.Max x1 max2)) (Expr.IntImm 1))
          (simplify (Expr.Min m1 min2)))) := by
  intro L
  induction L with
  | nil =>
    intro repl replf _ hmem
    exact absurd hmem (List.not_mem_nil i)
  | cons a L ih =>
    intro repl replf hnodup hmem hdist hacc h
    rw [List.foldlM_cons] at h
    cases ha : unionDimStep simplify p prefixS dims bounds repl a with
    | none => rw [ha] at h; cases h
    | some repl1 =>
      rw [ha] at h
      by_cases hai : a = i
      · subst hai
        have hlk := unionDimStep_at_lookups simplify p prefixS dims bounds
          repl repl1 a min2 max2 m1 x1 e2q pmq pxq peq hb2min hb2max hb2ext
          hbpmin hbpmax hbpext hacc ha
        have hnot : a ∉ L := (List.nodup_cons.mp hnodup).1
        have hvars : ∀ j ∈ L, (dims.getD j default).var ≠ (dims.getD a default).var := by
          intro j hj
          exact hdist j (List.mem_cons_of_mem a hj)
            (fun hji => hnot (hji ▸ hj))
        have hpres := unionFold_preserves simplify p prefixS dims bounds a L
          repl1 replf hvars h
        exact ⟨hpres.1.trans hlk.1, hpres.2.1.trans hlk.2.1,
          hpres.2.2.trans hlk.2.2⟩
      · have hmem2 : i ∈ L := by
          rcases List.mem_cons.mp hmem with hx | hx
          · exact absurd hx.symm hai
          · exact hx
        have hpres := unionDimStep_preserves simplify p prefixS dims bounds
          repl repl1 i a (hdist a (List.mem_cons_self a L) hai) ha
        have hacc2 : (mapFind repl1 (unionParentVar prefixS dims i ++ ".loop_min") = none ∧
              pmq = some m1 ∧ pxq = some x1) ∨
            (mapFind repl1 (unionParentVar prefixS dims i ++ ".loop_min") = some m1 ∧
              mapFind repl1 (unionParentVar prefixS dims i ++ ".loop_max") = some x1) := by
          rcases hacc with ⟨hn, hm, hx⟩ | ⟨hm, hx⟩
          · exact Or.inl ⟨hpres.1.trans hn, hm, hx⟩
          · exact Or.inr ⟨hpres.1.trans hm, hpres.2.1.trans hx⟩
        exact ih repl1 replf (List.nodup_cons.mp hnodup).2 hmem2
          (fun j hj hne => hdist j (List.mem_cons_of_mem a hj) hne) hacc2 h

/-- The union step over one fused pair, at the level of
`replace_parent_bound_with_union_bound`'s per-pair loop. -/
theorem unionPairStep_formula (simplify : Expr → Expr)
    (skip : List (String × Bool)) (prefixS : String) (dims : List Dim)
    (bounds : List (String × Option Expr)) (repl replf : List (String × Expr))
    (p : FusedPair) (idx i : Nat) (min2 max2 m1 x1 : Expr)
    (e2q pmq pxq peq : Option Expr)
    (hskip : mapFind skip p.func2 = some false)
    (hidx : dims.findIdx? (fun d => varNameMatch d.var p.varName) = some idx)
    (hi1 : idx ≤ i) (hi2 : i < dims.length - 1)
    (hdist : ∀ j ∈ idxRange idx (dims.length - 1), j ≠ i →
      (dims.getD j default).var ≠ (dims.getD i default).var)
    (hb2min : mapFind bounds (childVarName p dims i ++ ".loop_min") = some (some min2))
    (hb2max : mapFind bounds (childVarName p dims i ++ ".loop_max") = some (some max2))
    (hb2ext : mapFind bounds (childVarName p dims i ++ ".loop_extent") = some e2q)
    (hbpmin : mapFind bounds (unionParentVar prefixS dims i ++ ".loop_min") = some pmq)
    (hbpmax : mapFind bounds (unionParentVar prefixS dims i ++ ".loop_max") = some pxq)
    (hbpext : mapFind bounds (unionParentVar prefixS dims i ++ ".loop_extent") = some peq)
    (hacc : (mapFind repl (unionParentVar prefixS dims i ++ ".loop_min") = none ∧
              pmq = some m1 ∧ pxq = some x1) ∨
            (mapFind repl (unionParentVar prefixS dims i ++ ".loop_min") = some m1 ∧
              mapFind repl (unionParentVar prefixS dims i ++ ".loop_max") = some x1))
    (h : unionPairStep simplify skip prefixS dims bounds repl p = some replf) :
    mapFind replf (unionParentVar prefixS dims i ++ ".loop_min") =
      some (simplify (Expr.Min m1 min2)) ∧
    mapFind replf (unionParentVar prefixS dims i ++ ".loop_max") =
      some (simplify (Expr.Max x1 max2)) ∧
    mapFind replf (unionParentVar prefixS dims i ++ ".loop_extent") =
      some (simplify (Expr.Sub (Expr.Add (simplify (Expr.Max x1 max2)) (Expr.IntImm 1))
        (simplify (Expr.Min m1 min2)))) := by
  unfold unionPairStep at h
  rw [hskip] at h
  simp only [hidx] at h
  exact unionFold_formula simplify p prefixS dims bounds i min2 max2 m1 x1
    e2q pmq pxq peq hb2min hb2max hb2ext hbpmin hbpmax hbpext
    (idxRange idx (dims.length - 1)) repl replf
    (List.nodup_range' _ _)
    ((mem_idxRange i idx (dims.length - 1)).mpr ⟨hi1, hi2⟩) hdist hacc h

/-- Every pair collected by the dependence traversal has a non-skipped
child that is present in the environment. -/
theorem collectDepLoop_prop (env : Env) (skip : List (String × Bool)) :
    ∀ (fuel : Nat) (pairs dep : List FusedPair) (visited : List String)
      (dep2 : List FusedPair) (vis2 : List String),
      collectDepLoop env skip fuel pairs dep visited = some (dep2, vis2) →
      (∀ q ∈ dep, mapFind skip q.func2 = some false ∧
        (envFind env q.func2).isSome = true) →
      ∀ q ∈ dep2, mapFind skip q.func2 = some false ∧
        (envFind env q.func2).isSome = true := by
  intro fuel
  induction fuel with
  | zero =>
    intro pairs
    induction pairs with
    | nil =>
      intro dep visited dep2 vis2 h hdep
      unfold collectDepLoop at h
      cases h
      exact hdep
    | cons pair rest ih =>
      intro dep visited dep2 vis2 h hdep
      unfold collectDepLoop at h
      cases hs : mapFind skip pair.func2 with
      | none =>
        simp only [hs] at h
        exact Option.noConfusion h
      | some b =>
        cases b with
        | true =>
          simp only [hs] at h
          exact ih dep visited dep2 vis2 h hdep
        | false =>
          simp only [hs] at h
          cases he : envFind env pair.func2 with
          | none =>
            simp only [he] at h
            exact ih dep visited dep2 vis2 h hdep
          | some f =>
            simp only [he] at h
            cases hv : visited.contains
                (pair.func2 ++ ".s" ++ toString pair.stage2 ++ "." ++
                  pair.varName) with
            | true =>
              simp only [hv, eq_self_iff_true, if_true] at h
              exact ih dep visited dep2 vis2 h hdep
            | false =>
              simp only [hv, Bool.false_eq_true, if_false] at h
              cases hd : (if pair.stage2 = 0 then some f.definition
                  else f.updates.get? (pair.stage2 - 1)) with
              | none =>
                simp only [hd] at h
                exact Option.noConfusion h
              | some def2 =>
                simp only [hd, collectDepHelper] at h
                exact Option.noConfusion h
  | succ n ihn =>
    intro pairs
    induction pairs with
    | nil =>
      intro dep visited dep2 vis2 h hdep
      unfold collectDepLoop at h
      cases h
      exact hdep
    | cons pair rest ih =>
      intro dep visited dep2 vis2 h hdep
      unfold collectDepLoop at h
      cases hs : mapFind skip pair.func2 with
      | none =>
        simp only [hs] at h
        exact Option.noConfusion h
      | some b =>
        cases b with
        | true =>
          simp only [hs] at h
          exact ih dep visited dep2 vis2 h hdep
        | false =>
          simp only [hs] at h
          cases he : envFind env pair.func2 with
          | none =>
            simp only [he] at h
            exact ih dep visited dep2 vis2 h hdep
          | some f =>
            simp only [he] at h
            cases hv : visited.contains
                (pair.func2 ++ ".s" ++ toString pair.stage2 ++ "." ++
                  pair.varName) with
            | true =>
              simp only [hv, eq_self_iff_true, if_true] at h
              exact ih dep visited dep2 vis2 h hdep
            | false =>
              simp only [hv, Bool.false_eq_true, if_false] at h
              cases hd : (if pair.stage2 = 0 then some f.definition
                  else f.updates.get? (pair.stage2 - 1)) with
              | none =>
                simp only [hd] at h
                exact Option.noConfusion h
              | some def2 =>
                simp only [hd, collectDepHelper] at h
                cases hh : collectDepLoop env skip n
                    def2.schedule.fusedPairs (dep ++ [pair])
                    ((pair.func2 ++ ".s" ++ toString pair.stage2 ++ "." ++
                      pair.varName) :: visited) with
                | none =>
                  simp only [hh] at h
                  exact Option.noConfusion h
                | some r =>
                  obtain ⟨depH, visH⟩ := r
                  simp only [hh] at h
                  have hdepH : ∀ q ∈ depH,
                      mapFind skip q.func2 = some false ∧
                        (envFind env q.func2).isSome = true := by
                    refine ihn _ _ _ _ _ hh ?_
                    intro q hq
                    rcases List.mem_append.mp hq with hq | hq
                    · exact hdep q hq
                    · have hqp : q = pair := by simpa using hq
                      subst hqp
                      exact ⟨hs, by rw [he]; rfl⟩
                  exact ih depH visH dep2 vis2 h hdepH

/-- C3: union-bound propagation of the fused-group injector.  Every fused
pair reached by the transitive-closure traversal (ignoring skipped or
absent children) has a non-skipped child present in the environment; and
for each such pair and each involved dim below `__outermost`, the per-pair
union step replaces the group parent's bindings by the union with the
child's captured bounds: new `loop_min` is `simplify(min(parent_min,
child_min))`, new `loop_max` is `simplify(max(parent_max, child_max))`,
and new `loop_extent` is `simplify(new_max + 1 − new_min)`, where the
parent's previous binding is the accumulated replacement if present and
the captured bound otherwise. -/
theorem c3_union_bound_propagation (env : Env) (skip : List (String × Bool))
    (fuel : Nat) (dfn : Definition) :
    (∀ dep, collectAllDependence fuel env skip dfn = some dep →
      ∀ q ∈ dep, mapFind skip q.func2 = some false ∧
        (envFind env q.func2).isSome = true) ∧
    (∀ (simplify : Expr → Expr) (prefixS : String) (dims : List Dim)
       (bounds : List (String × Option Expr)) (repl replf : List (String × Expr))
       (p : FusedPair) (idx i : Nat) (min2 max2 m1 x1 : Expr)
       (e2q pmq pxq peq : Option Expr),
      mapFind skip p.func2 = some false →
      dims.findIdx? (fun d => varNameMatch d.var p.varName) = some idx →
      idx ≤ i → i < dims.length - 1 →
      (∀ j ∈ idxRange idx (dims.length - 1), j ≠ i →
        (dims.getD j default).var ≠ (dims.getD i default).var) →
      mapFind bounds (childVarName p dims i ++ ".loop_min") = some (some min2) →
      mapFind bounds (childVarName p dims i ++ ".loop_max") = some (some max2) →
      mapFind bounds (childVarName p dims i ++ ".loop_extent") = some e2q →
      mapFind bounds (unionParentVar prefixS dims i ++ ".loop_min") = some pmq →
      mapFind bounds (unionParentVar prefixS dims i ++ ".loop_max") = some pxq →
      mapFind bounds (unionParentVar prefixS dims i ++ ".loop_extent") = some peq →
      ((mapFind repl (unionParentVar prefixS dims i ++ ".loop_min") = none ∧
          pmq = some m1 ∧ pxq = some x1) ∨
        (mapFind repl (unionParentVar prefixS dims i ++ ".loop_min") = some m1 ∧
          mapFind repl (unionParentVar prefixS dims i ++ ".loop_max") = some x1)) →
      unionPairStep simplify skip prefixS dims bounds repl p = some replf →
      mapFind replf (unionParentVar prefixS dims i ++ ".loop_min") =
        some (simplify (Expr.Min m1 min2)) ∧
      mapFind replf (unionParentVar prefixS dims i ++ ".loop_max") =
        some (simplify (Expr.Max x1 max2)) ∧
      mapFind replf (unionParentVar prefixS dims i ++ ".loop_extent") =
        some (simplify (Expr.Sub
          (Expr.Add (simplify (Expr.Max x1 max2)) (Expr.IntImm 1))
          (simplify (Expr.Min m1 min2))))) := by
  constructor
  · intro dep hdep q hq
    unfold collectAllDependence at hdep
    cases hl : collectDepLoop env skip fuel dfn.schedule.fusedPairs [] [] with
    | none => rw [hl] at hdep; cases hdep
    | some r =>
      rw [hl] at hdep
      obtain ⟨d2, v2⟩ := r
      cases hdep
      exact collectDepLoop_prop env skip fuel dfn.schedule.fusedPairs [] [] d2 v2
        hl (by intro q hq; cases hq) q hq
  · intro simplify prefixS dims bounds repl replf p idx i min2 max2 m1 x1
      e2q pmq pxq peq hskip hidx hi1 hi2 hdist hb2min hb2max hb2ext
      hbpmin hbpmax hbpext hacc h
    exact unionPairStep_formula simplify skip prefixS dims bounds repl replf p
      idx i min2 max2 m1 x1 e2q pmq pxq peq hskip hidx hi1 hi2 hdist
      hb2min hb2max hb2ext hbpmin hbpmax hbpext hacc h

/-- Fixture for the C3 witness: the captured bounds of the child `g.s0.y`
and the group parent `f.s0.y`. -/
def c3bounds : List (String × Option Expr) :=
  [("g.s0.y.loop_min", some (Expr.IntImm 0)),
   ("g.s0.y.loop_max", some (Expr.IntImm 5)),
   ("g.s0.y.loop_extent", some (Expr.IntImm 6)),
   ("f.s0.y.loop_min", some (Expr.IntImm 1)),
   ("f.s0.y.loop_max", some (Expr.IntImm 3)),
   ("f.s0.y.loop_extent", some (Expr.IntImm 3))]

/-- The concrete union result for the C3 witness. -/
def c3replf : List (String × Expr) :=
  (unionPairStep (fun e => e) c2skip "f.s0" c2dims c3bounds [] c2p).getD []

/-- Witness for C3 at a concrete input. -/
theorem c3_union_bound_propagation_witness :
    mapFind c3replf (unionParentVar "f.s0" c2dims 1 ++ ".loop_min") =
      some (Expr.Min (Expr.IntImm 1) (Expr.IntImm 0)) ∧
    mapFind c3replf (unionParentVar "f.s0" c2dims 1 ++ ".loop_max") =
      some (Expr.Max (Expr.IntImm 3) (Expr.IntImm 5)) ∧
    mapFind c3replf (unionParentVar "f.s0" c2dims 1 ++ ".loop_extent") =
      some (Expr.Sub
        (Expr.Add (Expr.Max (Expr.IntImm 3) (Expr.IntImm 5)) (Expr.IntImm 1))
        (Expr.Min (Expr.IntImm 1) (Expr.IntImm 0))) :=
  (c3_union_bound_propagation c2env c2skip 1 (Definition.mk true [] [] [] c4Schedule [])).2
    (fun e => e) "f.s0" c2dims c3bounds [] c3replf c2p 1 1
    (Expr.IntImm 0) (Expr.IntImm 5) (Expr.IntImm 1) (Expr.IntImm 3)
    (some (Expr.IntImm 6)) (some (Expr.IntImm 1)) (some (Expr.IntImm 3))
    (some (Expr.IntImm 3))
    rfl rfl (by decide) (by decide) (by decide)
    rfl rfl rfl rfl rfl rfl (Or.inl ⟨rfl, rfl, rfl⟩) rfl

/-- No `LetStmt` in the statement binds a name ending with
`.__outermost.loop_min`, `.__outermost.loop_max` or
`.__outermost.loop_extent`. -/
def noOutermostLets : Stmt → Bool
  | Stmt.For _ _ _ _ _ body => noOutermostLets body
  | Stmt.LetStmt name _ body =>
    !(strEnds name ".__outermost.loop_extent" ||
      strEnds name ".__outermost.loop_min" ||
      strEnds name ".__outermost.loop_max") && noOutermostLets body
  | Stmt.IfThenElse _ t e =>
    noOutermostLets t &&
      (match e with
       | some s => noOutermostLets s
       | none => true)
  | Stmt.Block a b => noOutermostLets a && noOutermostLets b
  | Stmt.Realize _ _ _ _ body => noOutermostLets body
  | Stmt.ProducerConsumer _ _ body => noOutermostLets body
  | Stmt.Provide _ _ _ => true
  | Stmt.AssertStmt _ _ => true
  | Stmt.Evaluate _ => true
termination_by s => stmtSize s
decreasing_by
  all_goals try (simp only [stmtSize]; omega)
  all_goals (cases e <;> simp only [stmtSize] <;> omega)

/-- No `For` loop in the statement satisfies the removal guard of
`RemoveLoopsOverOutermost`: name ending with `.__outermost`, simplified
extent one, and no device API. -/
def noOutermostFors (simplify : Expr → Expr) : Stmt → Bool
  | Stmt.For name _ ext2 _ dev body =>
    !(strEnds name ".__outermost" && isOne (simplify ext2) &&
        dev = DeviceAPI.NoneAPI) && noOutermostFors simplify body
  | Stmt.LetStmt _ _ body => noOutermostFors simplify body
  | Stmt.IfThenElse _ t e =>
    noOutermostFors simplify t &&
      (match e with
       | some s => noOutermostFors simplify s
       | none => true)
  | Stmt.Block a b => noOutermostFors simplify a && noOutermostFors simplify b
  | Stmt.Realize _ _ _ _ body => noOutermostFors simplify body
  | Stmt.ProducerConsumer _ _ body => noOutermostFors simplify body
  | Stmt.Provide _ _ _ => true
  | Stmt.AssertStmt _ _ => true
  | Stmt.Evaluate _ => true
termination_by s => stmtSize s
decreasing_by
  all_goals try (simp only [stmtSize]; omega)
  all_goals (cases e <;> simp only [stmtSize] <;> omega)

/-- The stripper's output never contains an offending bound `LetStmt` and
never contains a `For` that satisfies the removal guard, for any
sufficient fuel. -/
theorem rlooGo_clean (simplify : Expr → Expr) :
    ∀ (n : Nat) (s : Stmt), stmtSize s ≤ n →
      noOutermostLets (rlooGo simplify n s) = true ∧
      noOutermostFors simplify (rlooGo simplify n s) = true
  | 0, s, h => absurd h (by have := stmtSize_pos s; omega)
  | n + 1, s, h => by
    match s with
    | Stmt.For name mn ext2 ft dev body =>
      simp only [stmtSize] at h
      simp only [rlooGo]
      split_ifs with hc
      · exact rlooGo_clean simplify n (substituteStmt name mn body)
          (by rw [stmtSize_substituteStmt]; omega)
      · have ih := rlooGo_clean simplify n body (by omega)
        have heq := Bool.eq_false_iff.mpr hc
        refine ⟨?_, ?_⟩
        · simp only [noOutermostLets]
          exact ih.1
        · simp only [noOutermostFors, heq, Bool.not_false, Bool.true_and]
          exact ih.2
    | Stmt.LetStmt name v body =>
      simp only [stmtSize] at h
      simp only [rlooGo]
      split_ifs with hc
      · exact rlooGo_clean simplify n (substituteStmt name (simplify v) body)
          (by rw [stmtSize_substituteStmt]; omega)
      · have ih := rlooGo_clean simplify n body (by omega)
        have heq := Bool.eq_false_iff.mpr hc
        refine ⟨?_, ?_⟩
        · simp only [noOutermostLets, heq, Bool.not_false, Bool.true_and]
          exact ih.1
        · simp only [noOutermostFors]
          exact ih.2
    | Stmt.Provide nm values args =>
      simp only [rlooGo, noOutermostLets, noOutermostFors, and_self]
    | Stmt.IfThenElse c t e =>
      cases e with
      | none =>
        simp only [stmtSize] at h
        have iht := rlooGo_clean simplify n t (by omega)
        simp only [rlooGo, noOutermostLets, noOutermostFors]
        rw [iht.1, iht.2]
        exact ⟨rfl, rfl⟩
      | some s2 =>
        have hp2 := stmtSize_pos s2
        have hpt := stmtSize_pos t
        simp only [stmtSize] at h
        have iht := rlooGo_clean simplify n t (by omega)
        have ihs := rlooGo_clean simplify n s2 (by omega)
        simp only [rlooGo, noOutermostLets, noOutermostFors]
        rw [iht.1, iht.2, ihs.1, ihs.2]
        exact ⟨rfl, rfl⟩
    | Stmt.Block a b =>
      have hpa := stmtSize_pos a
      have hpb := stmtSize_pos b
      simp only [stmtSize] at h
      have iha := rlooGo_clean simplify n a (by omega)
      have ihb := rlooGo_clean simplify n b (by omega)
      simp only [rlooGo, noOutermostLets, noOutermostFors]
      rw [iha.1, iha.2, ihb.1, ihb.2]
      exact ⟨rfl, rfl⟩
    | Stmt.Realize nm tys bds c body =>
      simp only [stmtSize] at h
      have ih := rlooGo_clean simplify n body (by omega)
      simp only [rlooGo, noOutermostLets, noOutermostFors]
      exact ih
    | Stmt.ProducerConsumer nm ip body =>
      simp only [stmtSize] at h
      have ih := rlooGo_clean simplify n body (by omega)
      simp only [rlooGo, noOutermostLets, noOutermostFors]
      exact ih
    | Stmt.AssertStmt c msg =>
      simp only [rlooGo, noOutermostLets, noOutermostFors, and_self]
    | Stmt.Evaluate e2 =>
      simp only [rlooGo, noOutermostLets, noOutermostFors, and_self]

/-- The final mutator's output never contains an offending bound `LetStmt`
and never contains a `For` that satisfies the removal guard. -/
theorem removeLoops_clean (simplify : Expr → Expr) (s : Stmt) :
    noOutermostLets (removeLoopsOverOutermost simplify s) = true ∧
    noOutermostFors simplify (removeLoopsOverOutermost simplify s) = true :=
  rlooGo_clean simplify (stmtSize s) s (Nat.le_refl _)

/-- C6 (amended): after the driver's final mutator, the statement contains
no `LetStmt` binding a name ending with `.__outermost.loop_min`,
`.__outermost.loop_max` or `.__outermost.loop_extent`, and no `For` loop
whose name ends with `.__outermost` AND whose simplified extent is one AND
whose device API is none; every `For` satisfying that full guard is
removed by substituting its min for its variable, and every offending
`LetStmt` by substituting its simplified value.  (The original claim said
every `For` whose name ends with `.__outermost` is removed; a loop with a
non-trivial device API or extent survives, see the counterexample.) -/
theorem c6_remove_outermost (simplify : Expr → Expr) :
    (∀ s : Stmt,
      noOutermostLets (removeLoopsOverOutermost simplify s) = true ∧
      noOutermostFors simplify (removeLoopsOverOutermost simplify s) = true) ∧
    (∀ (name : String) (mn ext2 : Expr) (ft : ForType) (dev : DeviceAPI)
       (body : Stmt),
      strEnds name ".__outermost" = true → isOne (simplify ext2) = true →
      dev = DeviceAPI.NoneAPI →
      removeLoopsOverOutermost simplify (Stmt.For name mn ext2 ft dev body) =
        removeLoopsOverOutermost simplify (substituteStmt name mn body)) ∧
    (∀ (name : String) (v : Expr) (body : Stmt),
      (strEnds name ".__outermost.loop_extent" ||
        strEnds name ".__outermost.loop_min" ||
        strEnds name ".__outermost.loop_max") = true →
      removeLoopsOverOutermost simplify (Stmt.LetStmt name v body) =
        removeLoopsOverOutermost simplify
          (substituteStmt name (simplify v) body)) := by
  refine ⟨removeLoops_clean simplify, ?_, ?_⟩
  · intro name mn ext2 ft dev body h1 h2 h3
    subst h3
    simp only [removeLoopsOverOutermost, stmtSize, rlooGo]
    rw [if_pos (by simp [h1, h2])]
    exact rlooGo_mono simplify (stmtSize body) (substituteStmt name mn body)
      (stmtSize (substituteStmt name mn body))
      (Nat.le_of_eq (stmtSize_substituteStmt name mn body))
      (Nat.le_refl _)
  · intro name v body h1
    simp only [removeLoopsOverOutermost, stmtSize, rlooGo]
    rw [if_pos h1]
    exact rlooGo_mono simplify (stmtSize body)
      (substituteStmt name (simplify v) body)
      (stmtSize (substituteStmt name (simplify v) body))
      (Nat.le_of_eq (stmtSize_substituteStmt name (simplify v) body))
      (Nat.le_refl _)

/-- Counterexample to C6 as stated: a `For` loop named `f.s0.__outermost`
with extent one but a `Host` device API is returned unchanged by the final
mutator, so a loop whose name ends with `.__outermost` can survive. -/
def c6counter : Stmt :=
  Stmt.For "f.s0.__outermost" (Expr.IntImm 0) (Expr.IntImm 1) ForType.Serial
    DeviceAPI.Host (Stmt.Evaluate (Expr.IntImm 0))

/-- C6 counterexample: the offending loop survives the mutator even though
its name ends with `.__outermost`. -/
theorem c6_remove_outermost_counterexample :
    removeLoopsOverOutermost (fun e => e) c6counter = c6counter ∧
    strEnds "f.s0.__outermost" ".__outermost" = true :=
  ⟨rfl, by decide⟩

/-- Witness for C6 at a concrete input: a guarded `.__outermost` loop is
removed by substitution, and an offending bound `LetStmt` is removed by
substituting its simplified value. -/
theorem c6_remove_outermost_witness :
    removeLoopsOverOutermost (fun e => e)
        (Stmt.For "g.s0.__outermost" (Expr.IntImm 0) (Expr.IntImm 1)
          ForType.Serial DeviceAPI.NoneAPI (Stmt.Evaluate (Expr.IntImm 7))) =
      removeLoopsOverOutermost (fun e => e)
        (substituteStmt "g.s0.__outermost" (Expr.IntImm 0)
          (Stmt.Evaluate (Expr.IntImm 7))) ∧
    removeLoopsOverOutermost (fun e => e)
        (Stmt.LetStmt "g.s0.__outermost.loop_min" (Expr.IntImm 2)
          (Stmt.Evaluate (Expr.IntImm 7))) =
      removeLoopsOverOutermost (fun e => e)
        (substituteStmt "g.s0.__outermost.loop_min" (Expr.IntImm 2)
          (Stmt.Evaluate (Expr.IntImm 7))) :=
  ⟨(c6_remove_outermost (fun e => e)).2.1 "g.s0.__outermost" (Expr.IntImm 0)
      (Expr.IntImm 1) ForType.Serial DeviceAPI.NoneAPI
      (Stmt.Evaluate (Expr.IntImm 7)) (by decide) (by decide) rfl,
    (c6_remove_outermost (fun e => e)).2.2 "g.s0.__outermost.loop_min"
      (Expr.IntImm 2) (Stmt.Evaluate (Expr.IntImm 7)) (by decide)⟩

/-! ## C10: the use predicate and the injection decisions -/

/-- Following the spec: whether a variable name is a reference to the
function's `.buffer` handle — it starts with the function name followed by
a dot and ends with `.buffer`. -/
def specBufRef (fname v : String) : Bool :=
  strStarts v (fname ++ ".") && strEnds v ".buffer"

mutual

/-- Following the spec: the names of all `Call` nodes in an expression. -/
def specCallsE : Expr → List String
  | Expr.IntImm _ => []
  | Expr.StringImm _ => []
  | Expr.Var _ _ => []
  | Expr.Add a b => specCallsE a ++ specCallsE b
  | Expr.Sub a b => specCallsE a ++ specCallsE b
  | Expr.Min a b => specCallsE a ++ specCallsE b
  | Expr.Max a b => specCallsE a ++ specCallsE b
  | Expr.LE a b => specCallsE a ++ specCallsE b
  | Expr.GE a b => specCallsE a ++ specCallsE b
  | Expr.EQE a b => specCallsE a ++ specCallsE b
  | Expr.And a b => specCallsE a ++ specCallsE b
  | Expr.Call _ n args _ => n :: specCallsEList args

/-- List version of `specCallsE`. -/
def specCallsEList : List Expr → List String
  | [] => []
  | e :: es => specCallsE e ++ specCallsEList es

end

mutual

/-- Following the spec: the names of all handle-typed `Variable` nodes in
an expression. -/
def specHVarsE : Expr → List String
  | Expr.IntImm _ => []
  | Expr.StringImm _ => []
  | Expr.Var ty n => if ty = Ty.handle then [n] else []
  | Expr.Add a b => specHVarsE a ++ specHVarsE b
  | Expr.Sub a b => specHVarsE a ++ specHVarsE b
  | Expr.Min a b => specHVarsE a ++ specHVarsE b
  | Expr.Max a b => specHVarsE a ++ specHVarsE b
  | Expr.LE a b => specHVarsE a ++ specHVarsE b
  | Expr.GE a b => specHVarsE a ++ specHVarsE b
  | Expr.EQE a b => specHVarsE a ++ specHVarsE b
  | Expr.And a b => specHVarsE a ++ specHVarsE b
  | Expr.Call _ _ args _ => specHVarsEList args

/-- List version of `specHVarsE`. -/
def specHVarsEList : List Expr → List String
  | [] => []
  | e :: es => specHVarsE e ++ specHVarsEList es

end

/-- `specCallsE` over the bound pairs of a `Realize`. -/
def specCallsPairs : List (Expr × Expr) → List String
  | [] => []
  | r :: rest => specCallsE r.1 ++ specCallsE r.2 ++ specCallsPairs rest

/-- `specHVarsE` over the bound pairs of a `Realize`. -/
def specHVarsPairs : List (Expr × Expr) → List String
  | [] => []
  | r :: rest => specHVarsE r.1 ++ specHVarsE r.2 ++ specHVarsPairs rest

/-- Following the spec: the names of all `Call` nodes in a statement,
over the same child traversal as `IsUsedInStmt`. -/
def specCallsStmt : Stmt → List String
  | Stmt.Provide _ values args => specCallsEList values ++ specCallsEList args
  | Stmt.LetStmt _ v body => specCallsE v ++ specCallsStmt body
  | Stmt.For _ mn ext _ _ body =>
      specCallsE mn ++ specCallsE ext ++ specCallsStmt body
  | Stmt.IfThenElse c t e =>
      specCallsE c ++ specCallsStmt t ++
        (match e with
         | some s => specCallsStmt s
         | none => [])
  | Stmt.Block a b => specCallsStmt a ++ specCallsStmt b
  | Stmt.Realize _ _ bounds c body =>
      specCallsPairs bounds ++ specCallsE c ++ specCallsStmt body
  | Stmt.ProducerConsumer _ _ body => specCallsStmt body
  | Stmt.AssertStmt c m => specCallsE c ++ specCallsE m
  | Stmt.Evaluate e => specCallsE e
termination_by s => stmtSize s
decreasing_by
  all_goals try (simp only [stmtSize]; omega)
  all_goals (cases e <;> simp only [stmtSize] <;> omega)

/-- Following the spec: the names of all handle-typed `Variable` nodes in
a statement. -/
def specHVarsStmt : Stmt → List String
  | Stmt.Provide _ values args => specHVarsEList values ++ specHVarsEList args
  | Stmt.LetStmt _ v body => specHVarsE v ++ specHVarsStmt body
  | Stmt.For _ mn ext _ _ body =>
      specHVarsE mn ++ specHVarsE ext ++ specHVarsStmt body
  | Stmt.IfThenElse c t e =>
      specHVarsE c ++ specHVarsStmt t ++
        (match e with
         | some s => specHVarsStmt s
         | none => [])
  | Stmt.Block a b => specHVarsStmt a ++ specHVarsStmt b
  | Stmt.Realize _ _ bounds c body =>
      specHVarsPairs bounds ++ specHVarsE c ++ specHVarsStmt body
  | Stmt.ProducerConsumer _ _ body => specHVarsStmt body
  | Stmt.AssertStmt c m => specHVarsE c ++ specHVarsE m
  | Stmt.Evaluate e => specHVarsE e
termination_by s => stmtSize s
decreasing_by
  all_goals try (simp only [stmtSize]; omega)
  all_goals (cases e <;> simp only [stmtSize] <;> omega)

mutual

/-- `IsUsedInStmt`'s expression visitor agrees with the spec reading: a
call named after the function, or a handle variable referencing its
buffer. -/
theorem usedInExpr_eq (fname : String) : ∀ e : Expr,
    usedInExpr fname e =
      ((specCallsE e).any (fun n => n = fname) ||
        (specHVarsE e).any (specBufRef fname))
  | Expr.IntImm _ => rfl
  | Expr.StringImm _ => rfl
  | Expr.Var ty n => by
    by_cases hty : ty = Ty.handle <;>
      simp [usedInExpr, specCallsE, specHVarsE, specBufRef, hty,
        Bool.and_assoc]
  | Expr.Add a b => by
    simp only [usedInExpr, specCallsE, specHVarsE, List.any_append,
      usedInExpr_eq fname a, usedInExpr_eq fname b]
    simp only [Bool.or_assoc, Bool.or_comm, Bool.or_left_comm]
  | Expr.Sub a b => by
    simp only [usedInExpr, specCallsE, specHVarsE, List.any_append,
      usedInExpr_eq fname a, usedInExpr_eq fname b]
    simp only [Bool.or_assoc, Bool.or_comm, Bool.or_left_comm]
  | Expr.Min a b => by
    simp only [usedInExpr, specCallsE, specHVarsE, List.any_append,
      usedInExpr_eq fname a, usedInExpr_eq fname b]
    simp only [Bool.or_assoc, Bool.or_comm, Bool.or_left_comm]
  | Expr.Max a b => by
    simp only [usedInExpr, specCallsE, specHVarsE, List.any_append,
      usedInExpr_eq fname a, usedInExpr_eq fname b]
    simp only [Bool.or_assoc, Bool.or_comm, Bool.or_left_comm]
  | Expr.LE a b => by
    simp only [usedInExpr, specCallsE, specHVarsE, List.any_append,
      usedInExpr_eq fname a, usedInExpr_eq fname b]
    simp only [Bool.or_assoc, Bool.or_comm, Bool.or_left_comm]
  | Expr.GE a b => by
    simp only [usedInExpr, specCallsE, specHVarsE, List.any_append,
      usedInExpr_eq fname a, usedInExpr_eq fname b]
    simp only [Bool.or_assoc, Bool.or_comm, Bool.or_left_comm]
  | Expr.EQE a b => by
    simp only [usedInExpr, specCallsE, specHVarsE, List.any_append,
      usedInExpr_eq fname a, usedInExpr_eq fname b]
    simp only [Bool.or_assoc, Bool.or_comm, Bool.or_left_comm]
  | Expr.And a b => by
    simp only [usedInExpr, specCallsE, specHVarsE, List.any_append,
      usedInExpr_eq fname a, usedInExpr_eq fname b]
    simp only [Bool.or_assoc, Bool.or_comm, Bool.or_left_comm]
  | Expr.Call _ n args _ => by
    simp only [usedInExpr, specCallsE, specHVarsE, List.any_cons,
      usedInExprList_eq fname args]
    simp only [Bool.or_assoc, Bool.or_comm, Bool.or_left_comm]

/-- List version of `usedInExpr_eq`. -/
theorem usedInExprList_eq (fname : String) : ∀ es : List Expr,
    usedInExprList fname es =
      ((specCallsEList es).any (fun n => n = fname) ||
        (specHVarsEList es).any (specBufRef fname))
  | [] => rfl
  | e :: es => by
    simp only [usedInExprList, specCallsEList, specHVarsEList,
      List.any_append, usedInExpr_eq fname e, usedInExprList_eq fname es]
    simp only [Bool.or_assoc, Bool.or_comm, Bool.or_left_comm]

end

/-- Pairs version of `usedInExpr_eq`, for `Realize` bounds. -/
theorem usedInPairs_eq (fname : String) : ∀ bounds : List (Expr × Expr),
    (bounds.any fun r => usedInExpr fname r.1 || usedInExpr fname r.2) =
      ((specCallsPairs bounds).any (fun n => n = fname) ||
        (specHVarsPairs bounds).any (specBufRef fname)) := by
  intro bounds
  induction bounds with
  | nil => rfl
  | cons r rest ih =>
    simp only [List.any_cons, specCallsPairs, specHVarsPairs,
      List.any_append, usedInExpr_eq fname r.1, usedInExpr_eq fname r.2, ih]
    simp only [Bool.or_assoc, Bool.or_comm, Bool.or_left_comm]

/-- `IsUsedInStmt` agrees with the spec reading on statements. -/
theorem usedInStmt_eq (fname : String) : ∀ s : Stmt,
    usedInStmt fname s =
      ((specCallsStmt s).any (fun n => n = fname) ||
        (specHVarsStmt s).any (specBufRef fname))
  | Stmt.Provide _ values args => by
    simp only [usedInStmt, specCallsStmt, specHVarsStmt, List.any_append,
      usedInExprList_eq fname values, usedInExprList_eq fname args]
    simp only [Bool.or_assoc, Bool.or_comm, Bool.or_left_comm]
  | Stmt.LetStmt _ v body => by
    simp only [usedInStmt, specCallsStmt, specHVarsStmt, List.any_append,
      usedInExpr_eq fname v, usedInStmt_eq fname body]
    simp only [Bool.or_assoc, Bool.or_comm, Bool.or_left_comm]
  | Stmt.For _ mn ext _ _ body => by
    simp only [usedInStmt, specCallsStmt, specHVarsStmt, List.any_append,
      usedInExpr_eq fname mn, usedInExpr_eq fname ext,
      usedInStmt_eq fname body]
    simp only [Bool.or_assoc, Bool.or_comm, Bool.or_left_comm]
  | Stmt.IfThenElse c t none => by
    simp only [usedInStmt, specCallsStmt, specHVarsStmt, List.any_append,
      List.append_nil, usedInExpr_eq fname c, usedInStmt_eq fname t]
    simp only [Bool.or_assoc, Bool.or_comm, Bool.or_left_comm, Bool.or_false,
      Bool.false_or]
  | Stmt.IfThenElse c t (some s2) => by
    simp only [usedInStmt, specCallsStmt, specHVarsStmt, List.any_append,
      usedInExpr_eq fname c, usedInStmt_eq fname t, usedInStmt_eq fname s2]
    simp only [Bool.or_assoc, Bool.or_comm, Bool.or_left_comm]
  | Stmt.Block a b => by
    simp only [usedInStmt, specCallsStmt, specHVarsStmt, List.any_append,
      usedInStmt_eq fname a, usedInStmt_eq fname b]
    simp only [Bool.or_assoc, Bool.or_comm, Bool.or_left_comm]
  | Stmt.Realize _ _ bounds c body => by
    simp only [usedInStmt, specCallsStmt, specHVarsStmt, List.any_append,
      usedInPairs_eq fname bounds, usedInExpr_eq fname c,
      usedInStmt_eq fname body]
    simp only [Bool.or_assoc, Bool.or_comm, Bool.or_left_comm]
  | Stmt.ProducerConsumer _ _ body => by
    simp only [usedInStmt, specCallsStmt, specHVarsStmt]
    exact usedInStmt_eq fname body
  | Stmt.AssertStmt c m => by
    simp only [usedInStmt, specCallsStmt, specHVarsStmt, List.any_append,
      usedInExpr_eq fname c, usedInExpr_eq fname m]
    simp only [Bool.or_assoc, Bool.or_comm, Bool.or_left_comm]
  | Stmt.Evaluate e => by
    simp only [usedInStmt, specCallsStmt, specHVarsStmt]
    exact usedInExpr_eq fname e
termination_by s => stmtSize s
decreasing_by all_goals (simp only [stmtSize]; omega)

/-- C10 (amended): a function F counts as used in a statement s iff s
contains a `Call` node named F, or a handle-typed `Variable` whose name
starts with F's name followed by a dot and ends with `.buffer`.  A
fused-group member is skipped exactly when it is neither used in the
statement nor an output.  At a matched compute level, however, the
single-function injector wraps the body in the produce/consume pipeline
only when the function is ALSO not already realized in that body: the
wrap decision is `¬realized ∧ (used ∨ is_output)`, not `used ∨ is_output`
alone (see the counterexample). -/
theorem c10_use_predicate_and_decisions :
    (∀ (fname : String) (s : Stmt),
      usedInStmt fname s = true ↔
        fname ∈ specCallsStmt s ∨
        ∃ v ∈ specHVarsStmt s, strStarts v (fname ++ ".") = true ∧
          strEnds v ".buffer" = true) ∧
    (∀ (group : List Function) (isOutputList : List Bool) (s : Stmt)
       (f : Function) (out : Bool), (f, out) ∈ group.zip isOutputList →
      (f.name, !(functionIsUsedInStmt f s || out)) ∈
        computeSkipMask group isOutputList s) ∧
    (∀ (P : InjParams) (flags flags1 : InjFlags)
       (name : String) (mn ext2 : Expr) (ft : ForType) (dev : DeviceAPI)
       (forBody body1 : Stmt),
      (P.func.hasExtern && P.func.schedule.computeLevel.isInline &&
        ft = ForType.Vectorized &&
        !realizedInStmt P.func.name (Stmt.For name mn ext2 ft dev forBody) &&
        functionIsUsedInStmt P.func (Stmt.For name mn ext2 ft dev forBody))
        = false →
      injectRealization P flags (digLets forBody).2 = some (flags1, body1) →
      P.func.schedule.computeLevel.matchString name = true →
      P.func.schedule.storeLevel.matchString name = false →
      isTheRightLevel P.env name = some true →
      injectRealization P flags (Stmt.For name mn ext2 ft dev forBody) =
        some ({ flags1 with foundCompute := true },
          Stmt.For name mn ext2 ft dev (restoreLets (digLets forBody).1
            (if !realizedInStmt P.func.name body1 &&
                (functionIsUsedInStmt P.func body1 || P.isOutput) then
              buildPipeline P body1
            else body1)))) := by
  refine ⟨?_, ?_, ?_⟩
  · intro fname s
    rw [usedInStmt_eq fname s]
    simp only [Bool.or_eq_true, List.any_eq_true, decide_eq_true_eq,
      specBufRef, Bool.and_eq_true]
    constructor
    · rintro (⟨n, hn, rfl⟩ | ⟨v, hv, h1, h2⟩)
      · exact Or.inl hn
      · exact Or.inr ⟨v, hv, h1, h2⟩
    · rintro (hn | ⟨v, hv, h1, h2⟩)
      · exact Or.inl ⟨fname, hn, rfl⟩
      · exact Or.inr ⟨v, hv, h1, h2⟩
  · intro group isOutputList s f out hmem
    exact List.mem_map_of_mem _ hmem
  · intro P flags flags1 name mn ext2 ft dev forBody body1
      hext hrec hcomp hstore hright
    simp only [injectRealization] at hrec
    simp only [injectRealization, stmtSize, injGo]
    rw [hext]
    simp only [Bool.false_eq_true, if_false]
    rw [injGo_mono P (stmtSize forBody) ((digLets forBody).2)
      (stmtSize ((digLets forBody).2)) flags (stmtSize_digLets forBody)
      (Nat.le_refl _), hrec]
    simp only [hcomp, hstore, hright, Bool.true_or, Bool.false_or,
      Bool.or_false, Bool.and_self, Bool.true_and, Bool.and_true,
      Bool.false_and, Bool.and_false, eq_self_iff_true, if_true,
      Bool.false_eq_true, if_false]
    by_cases hg : (!realizedInStmt P.func.name body1 &&
        (functionIsUsedInStmt P.func body1 || P.isOutput)) = true
    · simp only [hg, if_true, eq_self_iff_true]
    · have hgf := Bool.eq_false_iff.mpr hg
      simp only [hgf, Bool.false_eq_true, if_false]

/-- Fixtures for the C10 counterexample: a function `f` computed and
stored at root, and a statement that both realizes and calls `f`. -/
def c10Schedule : Schedule :=
  { dims := [⟨"x", ForType.Serial, DeviceAPI.NoneAPI⟩,
             ⟨"__outermost", ForType.Serial, DeviceAPI.NoneAPI⟩]
    splits := []
    bounds := []
    rvars := []
    storeLevel := LoopLevel.root
    computeLevel := LoopLevel.root
    fuseLevel := LoopLevel.inlined
    fusedPairs := []
    touched := false
    memoized := false }

/-- The `f` of the C10 counterexample. -/
def c10F : Function :=
  { name := "f"
    args := ["x"]
    definition := Definition.mk true [] [] [] c10Schedule []
    updates := []
    outputTypes := [Ty.int32]
    hasExtern := false }

/-- Trivial external collaborators for concrete runs. -/
def c10Ext : Externals :=
  { applySplits := fun _ _ _ _ => ⟨[], [], []⟩
    computeLoopBoundsAfterSplit := fun _ _ => []
    simplify := fun e => e }

/-- The injector parameters of the C10 counterexample. -/
def c10P : InjParams :=
  { ext := c10Ext
    externProduce := fun _ _ => Stmt.Evaluate (Expr.IntImm 0)
    func := c10F
    isOutput := false
    target := ⟨false, false⟩
    env := [("f", c10F)] }

/-- A body that already realizes `f` and also calls it. -/
def c10Body : Stmt :=
  Stmt.Block
    (Stmt.Realize "f" [Ty.int32] [] constTrue (Stmt.Evaluate (Expr.IntImm 0)))
    (Stmt.Evaluate (Expr.Call Ty.int32 "f" [] true))

/-- The synthetic root loop around the C10 counterexample body. -/
def c10For : Stmt :=
  Stmt.For rootLoopName (Expr.IntImm 0) (Expr.IntImm 1) ForType.Serial
    DeviceAPI.Host c10Body

/-- C10 counterexample: at the matched compute and store level (root), the
function is used in the body and is not an output, yet the injector adds
no produce/realize wrapping — the statement comes back unchanged — because
the body already realizes the function.  The use predicate and the
is-output flag alone do not decide the wrap. -/
theorem c10_use_predicate_counterexample :
    injectRealization c10P ⟨false, false⟩ c10For =
      some (⟨true, true⟩, c10For) ∧
    functionIsUsedInStmt c10F c10Body = true ∧
    c10P.isOutput = false ∧ c10P.func = c10F :=
  ⟨rfl, rfl, rfl, rfl⟩

/-- Fixtures for the C10 witness: a function `g` computed at root whose
store level matches nowhere, and a body calling `g`. -/
def c10G : Function :=
  { name := "g"
    args := ["x"]
    definition := Definition.mk true [] [] []
      { c10Schedule with storeLevel := LoopLevel.inlined } []
    updates := []
    outputTypes := [Ty.int32]
    hasExtern := false }

/-- The injector parameters of the C10 witness. -/
def c10PW : InjParams :=
  { ext := c10Ext
    externProduce := fun _ _ => Stmt.Evaluate (Expr.IntImm 0)
    func := c10G
    isOutput := false
    target := ⟨false, false⟩
    env := [("g", c10G)] }

/-- The body of the C10 witness. -/
def c10WBody : Stmt := Stmt.Evaluate (Expr.Call Ty.int32 "g" [] true)

/-- Witness for C10 at concrete inputs: the skip-mask entry and the
compute-level decision equation. -/
theorem c10_use_predicate_and_decisions_witness :
    ("f", !(functionIsUsedInStmt c10F c10Body || false)) ∈
      computeSkipMask [c10F] [false] c10Body ∧
    injectRealization c10PW ⟨false, false⟩
        (Stmt.For rootLoopName (Expr.IntImm 0) (Expr.IntImm 1)
          ForType.Serial DeviceAPI.Host c10WBody) =
      some ({ foundStore := false, foundCompute := true },
        Stmt.For rootLoopName (Expr.IntImm 0) (Expr.IntImm 1)
          ForType.Serial DeviceAPI.Host (restoreLets (digLets c10WBody).1
            (if !realizedInStmt c10PW.func.name c10WBody &&
                (functionIsUsedInStmt c10PW.func c10WBody ||
                  c10PW.isOutput) then
              buildPipeline c10PW c10WBody
            else c10WBody))) :=
  ⟨c10_use_predicate_and_decisions.2.1 [c10F] [false] c10Body c10F false
      (List.mem_singleton.mpr rfl),
    c10_use_predicate_and_decisions.2.2 c10PW ⟨false, false⟩ ⟨false, false⟩
      rootLoopName (Expr.IntImm 0) (Expr.IntImm 1) ForType.Serial
      DeviceAPI.Host c10WBody c10WBody rfl rfl (by decide) rfl rfl⟩

/-! ## C9: the container sorting passes -/

/-- An impure predicate is skipped by the predicate sort at its own
iteration. -/
theorem sortStep_impure (nest : List Container) (i : Nat)
    (h : containsImpureCall (containerValue (nestGet nest i)) = true) :
    sortStep true nest i = nest := by
  simp [sortStep, h]

/-- A run of the predicate sort over impure-only positions is the
identity. -/
theorem sortRangeGo_impure (nest : List Container) : ∀ (fuel i : Nat),
    (∀ k, i ≤ k → k < i + fuel →
      containsImpureCall (containerValue (nestGet nest k)) = true) →
    sortRangeGo true fuel nest i = nest := by
  intro fuel
  induction fuel with
  | zero => intro i _; rfl
  | succ n ih =>
    intro i h
    have hstep : sortStep true nest i = nest :=
      sortStep_impure nest i (h i (Nat.le_refl _) (by omega))
    simp only [sortRangeGo, hstep]
    exact ih (i + 1) (fun k hk1 hk2 => h k (by omega) (by omega))

/-- C9 (amended): the predicate sort never lifts a predicate containing an
impure call — its own iteration is skipped, and a range of impure-only
predicates is left entirely unchanged; the let sort has no impurity
exception; and a mover at position `j+1` is swapped outward past the
container at `j` exactly when the MOVER's value does not use the name of
the container at `j`.  (The original claim said an impure predicate stays
at its original position — it can still be displaced inward when a later
pure predicate climbs past it — and stated the swap test as the outer
container's value not referencing the moving binding, which is the wrong
direction; see the counterexample.) -/
theorem c9_container_sort :
    (∀ (nest : List Container) (i : Nat),
      containsImpureCall (containerValue (nestGet nest i)) = true →
      sortStep true nest i = nest) ∧
    (∀ (nest : List Container) (i hi : Nat),
      (∀ k, i ≤ k → k < hi →
        containsImpureCall (containerValue (nestGet nest k)) = true) →
      sortRange true nest i hi = nest) ∧
    (∀ (nest : List Container) (i : Nat),
      sortStep false nest (i + 1) = hoistInner nest i) ∧
    (∀ (nest : List Container) (j : Nat),
      hoistInner nest (j + 1) =
        if exprUsesVar (containerValue (nestGet nest (j + 2)))
            (nestGet nest (j + 1)).name then nest
        else hoistInner (nestSwap nest (j + 1) (j + 2)) j) ∧
    (∀ nest : List Container,
      hoistInner nest 0 =
        if exprUsesVar (containerValue (nestGet nest 1))
            (nestGet nest 0).name then nest
        else nestSwap nest 0 1) := by
  refine ⟨sortStep_impure, ?_, fun _ _ => rfl, fun _ _ => rfl, fun _ => rfl⟩
  intro nest i hi h
  exact sortRangeGo_impure nest (hi - i) i
    (fun k hk1 hk2 => h k hk1 (by omega))

/-- C9 counterexample fixtures: a loop container, an impure predicate, a
pure predicate using the loop variable, and a let pair whose outer value
references the inner let. -/
def c9for : Container := ⟨ContainerType.CFor, 0, "f.s0.x", none⟩

/-- The impure predicate (a call to a non-pure function). -/
def c9imp : Container :=
  ⟨ContainerType.CIf, 0, "", some (Expr.Call Ty.int32 "extfn" [] false)⟩

/-- The pure predicate, using the loop variable `f.s0.x`. -/
def c9pure : Container :=
  ⟨ContainerType.CIf, 0, "",
    some (likely (Expr.LE (Expr.Var Ty.int32 "f.s0.x") (Expr.IntImm 10)))⟩

/-- The predicate-sort nest: loop, impure predicate, pure predicate. -/
def c9nest : List Container := [c9for, c9imp, c9pure]

/-- Outer let whose value references the inner let's name. -/
def c9M : Container :=
  ⟨ContainerType.CLet, 0, "m", some (Expr.Var Ty.int32 "l")⟩

/-- Inner let with a constant value. -/
def c9L : Container := ⟨ContainerType.CLet, 0, "l", some (Expr.IntImm 5)⟩

/-- The let-sort nest. -/
def c9letNest : List Container := [c9M, c9L]

/-- C9 counterexample: the pure predicate climbs past the impure one, so
the impure predicate is displaced from its original position 1 to
position 2; and a let is swapped outward past a container whose value
DOES reference it, because the test only reads the mover's value. -/
theorem c9_container_sort_counterexample :
    sortRange true c9nest 1 3 = [c9for, c9pure, c9imp] ∧
    containsImpureCall (containerValue c9imp) = true ∧
    nestGet c9nest 1 = c9imp ∧
    nestGet (sortRange true c9nest 1 3) 2 = c9imp ∧
    sortRange false c9letNest 1 2 = [c9L, c9M] ∧
    exprUsesVar (containerValue c9M) c9L.name = true :=
  ⟨rfl, rfl, rfl, rfl, rfl, rfl⟩

/-- Witness for C9 at concrete inputs: the impure predicate's own
iteration is a no-op, and a one-element impure range sorts to itself. -/
theorem c9_container_sort_witness :
    sortStep true c9nest 1 = c9nest ∧
    sortRange true [c9imp] 0 1 = [c9imp] :=
  ⟨c9_container_sort.1 c9nest 1 rfl,
    c9_container_sort.2.1 [c9imp] 0 1
      (fun k hk1 hk2 => by
        have hk : k = 0 := by omega
        subst hk
        rfl)⟩

/-! ## C8: placement validation -/

theorem enumFrom_append_eq {α : Type} (n : Nat) (l1 l2 : List α) :
    List.enumFrom n (l1 ++ l2) =
      List.enumFrom n l1 ++ List.enumFrom (n + l1.length) l2 := by
  induction l1 generalizing n with
  | nil => simp [List.enumFrom]
  | cons x xs ih =>
    have h1 : List.enumFrom n ((x :: xs) ++ l2) =
        (n, x) :: List.enumFrom (n + 1) (xs ++ l2) := rfl
    rw [h1, ih]
    have h2 : n + 1 + xs.length = n + (x :: xs).length := by
      simp only [List.length_cons]
      omega
    rw [h2]
    rfl

/-- The scan skips sites matching neither level. -/
theorem legalityFold_noMatch (storeAt computeAt : LoopLevel) :
    ∀ (l : List Site) (n : Nat) (acc : LegalityScan),
      (∀ s ∈ l, LoopLevel.matchLevel s.loopLevel storeAt = false ∧
        LoopLevel.matchLevel s.loopLevel computeAt = false) →
      (List.enumFrom n l).foldl (legalityStep storeAt computeAt) acc = acc := by
  intro l
  induction l with
  | nil => intro n acc _; rfl
  | cons s rest ih =>
    intro n acc h
    have hs := h s (List.mem_cons_self _ _)
    simp only [List.enumFrom, List.foldl_cons]
    rw [show legalityStep storeAt computeAt acc (n, s) = acc from by
      simp [legalityStep, hs.1, hs.2]]
    exact ih (n + 1) acc (fun x hx => h x (List.mem_cons_of_mem _ hx))

/-- Splitting the scan at the first marked site after an unmatched
prefix. -/
theorem legalityFold_split (storeAt computeAt : LoopLevel)
    (acc : LegalityScan) (n : Nat) (A : List Site) (x : Site)
    (rest : List Site)
    (hA : ∀ s ∈ A, LoopLevel.matchLevel s.loopLevel storeAt = false ∧
      LoopLevel.matchLevel s.loopLevel computeAt = false) :
    (List.enumFrom n (A ++ x :: rest)).foldl
        (legalityStep storeAt computeAt) acc =
      (List.enumFrom (n + A.length + 1) rest).foldl
        (legalityStep storeAt computeAt)
        (legalityStep storeAt computeAt acc (n + A.length, x)) := by
  rw [enumFrom_append_eq, List.foldl_append,
    legalityFold_noMatch storeAt computeAt A n acc hA]
  simp only [List.enumFrom, List.foldl_cons]

/-- The parallel flag of a registered `For` site records exactly whether
the loop is parallel or vectorized. -/
theorem forLoopSite_isParallel (env : Env) (name : String) (ft : ForType)
    (s2 : Site) (h : forLoopSite env name ft = some s2) :
    s2.isParallel = (ft = ForType.Parallel || ft = ForType.Vectorized) := by
  unfold forLoopSite at h
  split at h
  · dsimp only at h
    repeat' split at h
    all_goals first
      | (exact Option.noConfusion h)
      | (cases h; rfl)
  · exact Option.noConfusion h

/-- C8: for a non-inline, non-output function, the placement core rejects
a store level absent from the allowed-site list, rejects a compute level
absent from the list, rejects a compute site outside (before) the store
site, and otherwise succeeds exactly when no site strictly between the
store site and the compute site — store side excluded, compute side
included — is parallel (a `For` site is flagged parallel exactly for
`Parallel`/`Vectorized` loops). -/
theorem c8_validate_placement (storeAt computeAt : LoopLevel)
    (A B C : List Site) (ss cs : Site)
    (hA : ∀ s ∈ A, LoopLevel.matchLevel s.loopLevel storeAt = false ∧
      LoopLevel.matchLevel s.loopLevel computeAt = false)
    (hB : ∀ s ∈ B, LoopLevel.matchLevel s.loopLevel storeAt = false ∧
      LoopLevel.matchLevel s.loopLevel computeAt = false)
    (hC : ∀ s ∈ C, LoopLevel.matchLevel s.loopLevel storeAt = false ∧
      LoopLevel.matchLevel s.loopLevel computeAt = false)
    (hss1 : LoopLevel.matchLevel ss.loopLevel storeAt = true)
    (hss2 : LoopLevel.matchLevel ss.loopLevel computeAt = false)
    (hcs1 : LoopLevel.matchLevel cs.loopLevel computeAt = true)
    (hcs2 : LoopLevel.matchLevel cs.loopLevel storeAt = false) :
    (validateLegalityCore (A ++ ss :: (B ++ cs :: C)) storeAt computeAt = true ↔
      (∀ s ∈ B, s.isParallel = false) ∧ cs.isParallel = false) ∧
    validateLegalityCore (A ++ cs :: (B ++ ss :: C)) storeAt computeAt
      = false ∧
    validateLegalityCore (A ++ cs :: C) storeAt computeAt = false ∧
    validateLegalityCore (A ++ ss :: C) storeAt computeAt = false := by
  refine ⟨?_, ?_, ?_, ?_⟩
  · -- store outside compute: success iff no parallel site strictly between
    have hscan : legalityScan (A ++ ss :: (B ++ cs :: C)) storeAt computeAt =
        ⟨true, true, A.length, A.length + 1 + B.length⟩ := by
      simp only [legalityScan, List.enum]
      rw [legalityFold_split storeAt computeAt _ 0 A ss _ hA,
        legalityFold_split storeAt computeAt _ (0 + A.length + 1) B cs C hB,
        legalityFold_noMatch storeAt computeAt C _ _ hC]
      simp [legalityStep, hss1, hss2, hcs1, hcs2]
      all_goals omega
    have hgetB : ∀ t, t < B.length →
        (A ++ ss :: (B ++ cs :: C)).getD (A.length + 1 + t) default =
          B.getD t default := by
      intro t ht
      rw [List.getD_append_right _ _ _ _
        (by omega : A.length ≤ A.length + 1 + t)]
      have harith : A.length + 1 + t - A.length = t + 1 := by omega
      rw [harith, List.getD_cons_succ]
      exact List.getD_append _ _ _ _ ht
    have hgetCs : (A ++ ss :: (B ++ cs :: C)).getD (A.length + 1 + B.length)
        default = cs := by
      rw [List.getD_append_right _ _ _ _
        (by omega : A.length ≤ A.length + 1 + B.length)]
      have harith : A.length + 1 + B.length - A.length = B.length + 1 := by
        omega
      rw [harith, List.getD_cons_succ,
        List.getD_append_right _ _ _ _ (Nat.le_refl _)]
      simp
    simp only [validateLegalityCore, hscan, Bool.and_self, if_true]
    rw [Bool.not_eq_true', List.any_eq_false]
    constructor
    · intro h
      refine ⟨?_, ?_⟩
      · intro s hs
        obtain ⟨t, ht, hteq⟩ := List.mem_iff_getElem.mp hs
        have hidx : A.length + 1 + t ∈
            idxRange (A.length + 1) (A.length + 1 + B.length + 1) :=
          (mem_idxRange _ _ _).mpr ⟨by omega, by omega⟩
        have h2 := h _ hidx
        rw [hgetB t ht, List.getD_eq_getElem _ _ ht, hteq] at h2
        exact Bool.eq_false_iff.mpr h2
      · have hidx : A.length + 1 + B.length ∈
            idxRange (A.length + 1) (A.length + 1 + B.length + 1) :=
          (mem_idxRange _ _ _).mpr ⟨by omega, by omega⟩
        have h2 := h _ hidx
        rw [hgetCs] at h2
        exact Bool.eq_false_iff.mpr h2
    · rintro ⟨hBp, hcp⟩
      intro i hi
      obtain ⟨hi1, hi2⟩ := (mem_idxRange _ _ _).mp hi
      by_cases him : i = A.length + 1 + B.length
      · subst him
        rw [hgetCs, hcp]
        simp
      · have ht : i - (A.length + 1) < B.length := by omega
        have hie : i = A.length + 1 + (i - (A.length + 1)) := by omega
        rw [hie, hgetB _ ht]
        have hmem : B.getD (i - (A.length + 1)) default ∈ B := by
          rw [List.getD_eq_getElem _ _ ht]
          exact List.getElem_mem _
        rw [hBp _ hmem]
        simp
  · -- compute before (outside) store: rejected
    have hscan : legalityScan (A ++ cs :: (B ++ ss :: C)) storeAt computeAt =
        ⟨true, false, A.length + 1 + B.length, A.length⟩ := by
      simp only [legalityScan, List.enum]
      rw [legalityFold_split storeAt computeAt _ 0 A cs _ hA,
        legalityFold_split storeAt computeAt _ (0 + A.length + 1) B ss C hB,
        legalityFold_noMatch storeAt computeAt C _ _ hC]
      simp [legalityStep, hss1, hss2, hcs1, hcs2]
      all_goals omega
    simp only [validateLegalityCore, hscan, Bool.and_false]
    rfl
  · -- store level absent: rejected
    have hscan : legalityScan (A ++ cs :: C) storeAt computeAt =
        ⟨false, false, 0, A.length⟩ := by
      simp only [legalityScan, List.enum]
      rw [legalityFold_split storeAt computeAt _ 0 A cs C hA,
        legalityFold_noMatch storeAt computeAt C _ _ hC]
      simp [legalityStep, hcs1, hcs2]
      all_goals omega
    simp only [validateLegalityCore, hscan, Bool.false_and]
    rfl
  · -- compute level absent: rejected
    have hscan : legalityScan (A ++ ss :: C) storeAt computeAt =
        ⟨true, false, A.length, 0⟩ := by
      simp only [legalityScan, List.enum]
      rw [legalityFold_split storeAt computeAt _ 0 A ss C hA,
        legalityFold_noMatch storeAt computeAt C _ _ hC]
      simp [legalityStep, hss1, hss2]
      all_goals omega
    simp only [validateLegalityCore, hscan, Bool.and_false]
    rfl

/-- Witness for C8 at concrete inputs: a store-root/compute-inner layout
with no parallel loop in between validates, and the reversed layout is
rejected. -/
theorem c8_validate_placement_witness :
    validateLegalityCore
        [⟨false, LoopLevel.root⟩, ⟨false, LoopLevel.level "g" "x"⟩,
         ⟨false, LoopLevel.level "g" "y"⟩]
        LoopLevel.root (LoopLevel.level "g" "y") = true ∧
    validateLegalityCore
        [⟨false, LoopLevel.level "g" "y"⟩, ⟨false, LoopLevel.level "g" "x"⟩,
         ⟨false, LoopLevel.root⟩]
        LoopLevel.root (LoopLevel.level "g" "y") = false :=
  ⟨(c8_validate_placement LoopLevel.root (LoopLevel.level "g" "y") []
      [⟨false, LoopLevel.level "g" "x"⟩] [] ⟨false, LoopLevel.root⟩
      ⟨false, LoopLevel.level "g" "y"⟩ (by decide) (by decide) (by decide)
      (by decide) (by decide) (by decide) (by decide)).1.mpr
      ⟨by decide, rfl⟩,
    (c8_validate_placement LoopLevel.root (LoopLevel.level "g" "y") []
      [⟨false, LoopLevel.level "g" "x"⟩] [] ⟨false, LoopLevel.root⟩
      ⟨false, LoopLevel.level "g" "y"⟩ (by decide) (by decide) (by decide)
      (by decide) (by decide) (by decide) (by decide)).2.1⟩

/-! ## C1: the analyzer's allowed-site list -/

theorem foldRegister_append (st : CLSState) (l1 l2 : List (List Site)) :
    foldRegister st (l1 ++ l2) = foldRegister (foldRegister st l1) l2 := by
  simp [foldRegister, List.foldl_append]

mutual

/-- The analyzer's expression traversal registers exactly the recorded use
stacks, in traversal order. -/
theorem clsExpr_eq (fname : String) (stack : List Site) :
    ∀ (st : CLSState) (e : Expr),
      clsExpr fname stack st e = foldRegister st (useStacksExpr fname stack e)
  | st, Expr.IntImm _ => rfl
  | st, Expr.StringImm _ => rfl
  | st, Expr.Var ty n => by
    by_cases hc : (ty = Ty.handle && strStarts n (fname ++ ".") &&
        strEnds n ".buffer") = true
    · simp [clsExpr, useStacksExpr, hc, foldRegister]
    · have hcf := Bool.eq_false_iff.mpr hc
      simp [clsExpr, useStacksExpr, hcf, foldRegister]
  | st, Expr.Add a b => by
    simp only [clsExpr, useStacksExpr, clsExpr_eq fname stack st a,
      clsExpr_eq fname stack _ b, foldRegister_append]
  | st, Expr.Sub a b => by
    simp only [clsExpr, useStacksExpr, clsExpr_eq fname stack st a,
      clsExpr_eq fname stack _ b, foldRegister_append]
  | st, Expr.Min a b => by
    simp only [clsExpr, useStacksExpr, clsExpr_eq fname stack st a,
      clsExpr_eq fname stack _ b, foldRegister_append]
  | st, Expr.Max a b => by
    simp only [clsExpr, useStacksExpr, clsExpr_eq fname stack st a,
      clsExpr_eq fname stack _ b, foldRegister_append]
  | st, Expr.LE a b => by
    simp only [clsExpr, useStacksExpr, clsExpr_eq fname stack st a,
      clsExpr_eq fname stack _ b, foldRegister_append]
  | st, Expr.GE a b => by
    simp only [clsExpr, useStacksExpr, clsExpr_eq fname stack st a,
      clsExpr_eq fname stack _ b, foldRegister_append]
  | st, Expr.EQE a b => by
    simp only [clsExpr, useStacksExpr, clsExpr_eq fname stack st a,
      clsExpr_eq fname stack _ b, foldRegister_append]
  | st, Expr.And a b => by
    simp only [clsExpr, useStacksExpr, clsExpr_eq fname stack st a,
      clsExpr_eq fname stack _ b, foldRegister_append]
  | st, Expr.Call _ n args _ => by
    by_cases hn : n = fname
    · simp only [clsExpr, useStacksExpr, hn, if_true, eq_self_iff_true,
        clsExprList_eq fname stack st args, foldRegister_append]
      rfl
    · simp only [clsExpr, useStacksExpr, hn, if_false, ite_false,
        clsExprList_eq fname stack st args, List.append_nil]

/-- List version of `clsExpr_eq`. -/
theorem clsExprList_eq (fname : String) (stack : List Site) :
    ∀ (st : CLSState) (es : List Expr),
      clsExprList fname stack st es =
        foldRegister st (useStacksExprList fname stack es)
  | st, [] => rfl
  | st, e :: es => by
    simp only [clsExprList, useStacksExprList, clsExpr_eq fname stack st e,
      clsExprList_eq fname stack _ es, foldRegister_append]

end

theorem usFold_shift (fname : String) (stack : List Site) :
    ∀ (bds : List (Expr × Expr)) (acc0 : List (List Site)),
      bds.foldl (fun acc r => acc ++ useStacksExpr fname stack r.1 ++
        useStacksExpr fname stack r.2) acc0 =
      acc0 ++ bds.foldl (fun acc r => acc ++ useStacksExpr fname stack r.1 ++
        useStacksExpr fname stack r.2) [] := by
  intro bds
  induction bds with
  | nil => intro acc0; simp
  | cons r rest ih =>
    intro acc0
    simp only [List.foldl_cons]
    rw [ih (acc0 ++ useStacksExpr fname stack r.1 ++
        useStacksExpr fname stack r.2),
      ih ([] ++ useStacksExpr fname stack r.1 ++ useStacksExpr fname stack r.2)]
    simp [List.append_assoc]

/-- The analyzer's `Realize` bound fold registers the recorded stacks of
the bound expressions. -/
theorem clsRealizeFold_eq (fname : String) (stack : List Site) :
    ∀ (bds : List (Expr × Expr)) (st : CLSState),
      bds.foldl (fun acc r => clsExpr fname stack
          (clsExpr fname stack acc r.1) r.2) st =
        foldRegister st (bds.foldl (fun acc r =>
          acc ++ useStacksExpr fname stack r.1 ++
            useStacksExpr fname stack r.2) []) := by
  intro bds
  induction bds with
  | nil => intro st; rfl
  | cons r rest ih =>
    intro st
    simp only [List.foldl_cons]
    rw [ih, clsExpr_eq fname stack st r.1, clsExpr_eq fname stack _ r.2,
      usFold_shift fname stack rest ([] ++ useStacksExpr fname stack r.1 ++
        useStacksExpr fname stack r.2)]
    simp [foldRegister_append]

/-- The analyzer's statement traversal equals the `register_use` fold over
the recorded use stacks. -/
theorem clsStmt_eq (env : Env) (fname : String) :
    ∀ (stack : List Site) (st : CLSState) (s : Stmt),
      clsStmt env fname stack st s =
        (useStacksStmt env fname stack s).map (foldRegister st)
  | stack, st, Stmt.For name mn ext2 ft dev body => by
    simp only [clsStmt, useStacksStmt]
    cases hf : forLoopSite env name ft with
    | none => rfl
    | some site =>
      show clsStmt env fname (stack ++ [site])
          (clsExpr fname stack (clsExpr fname stack st mn) ext2) body =
        Option.map (foldRegister st)
          (match useStacksStmt env fname (stack ++ [site]) body with
           | none => none
           | some us2 => some (useStacksExpr fname stack mn ++
               useStacksExpr fname stack ext2 ++ us2))
      rw [clsExpr_eq fname stack st mn, clsExpr_eq fname stack _ ext2,
        clsStmt_eq env fname (stack ++ [site]) _ body]
      cases hu : useStacksStmt env fname (stack ++ [site]) body with
      | none => rfl
      | some us2 => simp [foldRegister_append]
  | stack, st, Stmt.Provide _ values args => by
    simp only [clsStmt, useStacksStmt, clsExprList_eq fname stack st values,
      clsExprList_eq fname stack _ args]
    simp [foldRegister_append]
  | stack, st, Stmt.LetStmt _ v body => by
    simp only [clsStmt, useStacksStmt, clsExpr_eq fname stack st v,
      clsStmt_eq env fname stack _ body]
    cases hu : useStacksStmt env fname stack body with
    | none => rfl
    | some us => simp [foldRegister_append]
  | stack, st, Stmt.IfThenElse c t none => by
    simp only [clsStmt, useStacksStmt, clsExpr_eq fname stack st c,
      clsStmt_eq env fname stack _ t]
    cases hu : useStacksStmt env fname stack t with
    | none => rfl
    | some us1 => simp [foldRegister_append]
  | stack, st, Stmt.IfThenElse c t (some es) => by
    simp only [clsStmt, useStacksStmt, clsExpr_eq fname stack st c,
      clsStmt_eq env fname stack _ t]
    cases hu : useStacksStmt env fname stack t with
    | none => rfl
    | some us1 =>
      show clsStmt env fname stack
          (foldRegister (foldRegister st (useStacksExpr fname stack c)) us1)
          es =
        Option.map (foldRegister st)
          (match useStacksStmt env fname stack es with
           | none => none
           | some us2 => some (useStacksExpr fname stack c ++ us1 ++ us2))
      rw [clsStmt_eq env fname stack _ es]
      cases hu2 : useStacksStmt env fname stack es with
      | none => rfl
      | some us2 => simp [foldRegister_append]
  | stack, st, Stmt.Block a b => by
    simp only [clsStmt, useStacksStmt, clsStmt_eq env fname stack st a]
    cases hu : useStacksStmt env fname stack a with
    | none => rfl
    | some us1 =>
      show clsStmt env fname stack (foldRegister st us1) b =
        Option.map (foldRegister st)
          (match useStacksStmt env fname stack b with
           | none => none
           | some us2 => some (us1 ++ us2))
      rw [clsStmt_eq env fname stack _ b]
      cases hu2 : useStacksStmt env fname stack b with
      | none => rfl
      | some us2 => simp [foldRegister_append]
  | stack, st, Stmt.Realize _ _ bds c body => by
    simp only [clsStmt, useStacksStmt, clsRealizeFold_eq fname stack bds st]
    rw [clsExpr_eq fname stack _ c, clsStmt_eq env fname stack _ body]
    cases hu : useStacksStmt env fname stack body with
    | none => rfl
    | some us2 => simp [foldRegister_append]
  | stack, st, Stmt.ProducerConsumer _ _ body => by
    simp only [clsStmt, useStacksStmt]
    exact clsStmt_eq env fname stack st body
  | stack, st, Stmt.AssertStmt c m => by
    simp only [clsStmt, useStacksStmt, clsExpr_eq fname stack st c,
      clsExpr_eq fname stack _ m]
    simp [foldRegister_append]
  | stack, st, Stmt.Evaluate e => by
    simp only [clsStmt, useStacksStmt, clsExpr_eq fname stack st e]
    simp
termination_by _ _ s => stmtSize s
decreasing_by all_goals (simp only [stmtSize]; omega)

/-- Following the spec reading of `register_use`: the first use's whole
stack, then each later use's stack filtered to the sites matching some
already-allowed site. -/
def specAllowed : List (List Site) → List Site
  | [] => []
  | s :: rest =>
    rest.foldl
      (fun acc stk => stk.filter fun s1 =>
        acc.any fun s2 => LoopLevel.matchLevel s1.loopLevel s2.loopLevel)
      s

/-- After the first use, the fold keeps filtering. -/
theorem foldRegister_found (stackList : List (List Site)) :
    ∀ acc : List Site,
      foldRegister ⟨true, acc⟩ stackList =
        ⟨true, stackList.foldl
          (fun acc stk => stk.filter fun s1 =>
            acc.any fun s2 => LoopLevel.matchLevel s1.loopLevel s2.loopLevel)
          acc⟩ := by
  induction stackList with
  | nil => intro acc; rfl
  | cons stk rest ih =>
    intro acc
    simp only [foldRegister, List.foldl_cons] at ih ⊢
    rw [show registerUse stk ⟨true, acc⟩ =
        ⟨true, stk.filter fun s1 =>
          acc.any fun s2 => LoopLevel.matchLevel s1.loopLevel s2.loopLevel⟩
      from by simp [registerUse]]
    exact ih _

/-- The analyzer's fold over the recorded stacks computes `specAllowed`. -/
theorem foldRegister_spec (stackList : List (List Site)) :
    foldRegister ⟨false, []⟩ stackList =
      ⟨!stackList.isEmpty, specAllowed stackList⟩ := by
  cases stackList with
  | nil => rfl
  | cons s rest =>
    simp only [foldRegister, List.foldl_cons]
    rw [show registerUse s ⟨false, []⟩ = ⟨true, s⟩ from by simp [registerUse]]
    have h := foldRegister_found rest s
    simp only [foldRegister] at h
    rw [h]
    rfl

/-- Elements kept by the filter fold match some site of the accumulator
and of every later stack. -/
theorem specAllowed_fold_mem :
    ∀ (rest : List (List Site)) (acc : List Site) (x : Site),
      x ∈ rest.foldl
        (fun acc stk => stk.filter fun s1 =>
          acc.any fun s2 => LoopLevel.matchLevel s1.loopLevel s2.loopLevel)
        acc →
      (∃ y ∈ acc, LoopLevel.matchLevel x.loopLevel y.loopLevel = true) ∧
      ∀ stk ∈ rest, ∃ y ∈ stk,
        LoopLevel.matchLevel x.loopLevel y.loopLevel = true := by
  intro rest
  induction rest with
  | nil =>
    intro acc x hx
    refine ⟨⟨x, hx, ?_⟩, fun stk hstk => absurd hstk (List.not_mem_nil _)⟩
    simp [LoopLevel.matchLevel]
  | cons stk rest ih =>
    intro acc x hx
    simp only [List.foldl_cons] at hx
    obtain ⟨⟨y, hy, hxy⟩, hrest⟩ := ih _ x hx
    have hy2 := List.mem_filter.mp hy
    obtain ⟨z, hz, hyz⟩ := List.any_eq_true.mp hy2.2
    have hxz : LoopLevel.matchLevel x.loopLevel z.loopLevel = true := by
      simp only [LoopLevel.matchLevel, decide_eq_true_eq] at hxy hyz ⊢
      rw [hxy, hyz]
    refine ⟨⟨z, hz, hxz⟩, ?_⟩
    intro stk2 hstk2
    rcases List.mem_cons.mp hstk2 with rfl | hstk2
    · exact ⟨y, hy2.1, hxy⟩
    · exact hrest stk2 hstk2

/-- C1 (amended): the analyzer's allowed-site list is the first use's
enclosing-loop stack filtered through each later use's stack — each
successive use keeps the sites of ITS stack that match some
previously-allowed site — not the longest common prefix of all the use
stacks (see the counterexample).  The claim's consequence still holds:
every site in the result matches some site in every use's stack. -/
theorem c1_legal_sites :
    (∀ (env : Env) (f : Function) (s : Stmt),
      computeLegalSchedules env f s =
        (useStacksStmt env f.name [] s).map specAllowed) ∧
    (∀ (stackList : List (List Site)) (site : Site),
      site ∈ specAllowed stackList →
      ∀ stk ∈ stackList, ∃ s2 ∈ stk,
        LoopLevel.matchLevel site.loopLevel s2.loopLevel = true) := by
  constructor
  · intro env f s
    unfold computeLegalSchedules
    rw [clsStmt_eq env f.name [] ⟨false, []⟩ s]
    cases hu : useStacksStmt env f.name [] s with
    | none => rfl
    | some stackL =>
      show Option.map CLSState.sitesAllowed
          (some (foldRegister ⟨false, []⟩ stackL)) =
        Option.map specAllowed (some stackL)
      rw [foldRegister_spec stackL]
      rfl
  · intro stackList site hmem stk hstk
    cases stackList with
    | nil => cases hmem
    | cons s0 rest =>
      have h := specAllowed_fold_mem rest s0 site hmem
      rcases List.mem_cons.mp hstk with rfl | hstk
      · exact h.1
      · exact h.2 stk hstk

/-- A minimal schedule for the C1 fixtures. -/
def c1Schedule : Schedule :=
  { dims := []
    splits := []
    bounds := []
    rvars := []
    storeLevel := LoopLevel.root
    computeLevel := LoopLevel.root
    fuseLevel := LoopLevel.inlined
    fusedPairs := []
    touched := false
    memoized := false }

/-- A named function for the C1 environment. -/
def c1Fn (n : String) : Function :=
  { name := n
    args := []
    definition := Definition.mk true [] [] [] c1Schedule []
    updates := []
    outputTypes := [Ty.int32]
    hasExtern := false }

/-- The C1 environment: loop functions `g`, `k`, `h`. -/
def c1env : Env := [("g", c1Fn "g"), ("k", c1Fn "k"), ("h", c1Fn "h")]

/-- The subject function of the C1 counterexample. -/
def c1F : Function := c1Fn "f"

/-- One branch of the C1 skeleton: a `y` loop of the given function over
an `h.s0.x` loop around a call to `f`. -/
def c1branch (outer : String) : Stmt :=
  Stmt.For outer (Expr.IntImm 0) (Expr.IntImm 1) ForType.Serial
    DeviceAPI.Host
    (Stmt.For "h.s0.x" (Expr.IntImm 0) (Expr.IntImm 1) ForType.Serial
      DeviceAPI.Host (Stmt.Evaluate (Expr.Call Ty.int32 "f" [] true)))

/-- The C1 skeleton: two uses of `f` under diverging middle loops that
reconverge on `h.s0.x`. -/
def c1stmt : Stmt :=
  Stmt.For rootLoopName (Expr.IntImm 0) (Expr.IntImm 1) ForType.Serial
    DeviceAPI.Host (Stmt.Block (c1branch "g.s0.y") (c1branch "k.s0.y"))

/-- C1 counterexample: with use stacks `[root, g.y, h.x]` and
`[root, k.y, h.x]`, the analyzer returns `[root, h.x]` — the second
stack filtered to previously-allowed sites — while the longest common
prefix of the stacks is just `[root]`. -/
theorem c1_legal_sites_counterexample :
    computeLegalSchedules c1env c1F c1stmt =
      some [⟨false, LoopLevel.root⟩, ⟨false, LoopLevel.level "h" "x"⟩] ∧
    useStacksStmt c1env "f" [] c1stmt =
      some [[⟨false, LoopLevel.root⟩, ⟨false, LoopLevel.level "g" "y"⟩,
              ⟨false, LoopLevel.level "h" "x"⟩],
            [⟨false, LoopLevel.root⟩, ⟨false, LoopLevel.level "k" "y"⟩,
              ⟨false, LoopLevel.level "h" "x"⟩]] ∧
    specLCP [[⟨false, LoopLevel.root⟩, ⟨false, LoopLevel.level "g" "y"⟩,
               ⟨false, LoopLevel.level "h" "x"⟩],
             [⟨false, LoopLevel.root⟩, ⟨false, LoopLevel.level "k" "y"⟩,
               ⟨false, LoopLevel.level "h" "x"⟩]] =
      [⟨false, LoopLevel.root⟩] ∧
    ([⟨false, LoopLevel.root⟩, ⟨false, LoopLevel.level "h" "x"⟩] :
        List Site) ≠ [⟨false, LoopLevel.root⟩] :=
  ⟨rfl, rfl, rfl, by decide⟩

/-- Witness for C1 at a concrete input: the allowed site `root` matches a
site of every recorded stack. -/
theorem c1_legal_sites_witness :
    ∀ stk ∈ [[(⟨false, LoopLevel.root⟩ : Site),
               ⟨false, LoopLevel.level "g" "y"⟩],
              [⟨false, LoopLevel.root⟩, ⟨false, LoopLevel.level "k" "y"⟩]],
      ∃ s2 ∈ stk, LoopLevel.matchLevel
        (⟨false, LoopLevel.root⟩ : Site).loopLevel s2.loopLevel = true :=
  c1_legal_sites.2
    [[⟨false, LoopLevel.root⟩, ⟨false, LoopLevel.level "g" "y"⟩],
     [⟨false, LoopLevel.root⟩, ⟨false, LoopLevel.level "k" "y"⟩]]
    ⟨false, LoopLevel.root⟩ (by decide)

end ScheduleFunctions
